import Mathlib

/-!
# Blob ledger of the registry (api/blob, pkg/blob, pkg/blob/dao)

Shallow embedding of the blob controller, the blob manager and the blob DAO.
The database is an explicit value (`DB`) that every call receives and returns;
the failures of the persistence layer are an explicit schedule carried next to
it (`World.faults`), so that every `if err != nil` branch of the source is a
reachable branch of the embedding.
-/

namespace Harbor

/-! ## Errors (internal/error) -/

/-- Errors seen by the blob controller: the two coded errors it tests for or
builds itself, and `raw`, an error of a collaborator that carries no code
(a driver or connection error, a missing ORM in the context). -/
inductive Err where
  | badRequest (msg : String)
  | notFound (msg : String)
  | raw (msg : String)
  deriving DecidableEq, Repr

/-- Equality of results is decidable, so that calls can be evaluated and
compared on concrete ledgers. -/
instance instDecidableEqExcept {ε α : Type} [DecidableEq ε] [DecidableEq α] :
    DecidableEq (Except ε α)
  | .ok a, .ok b =>
    if h : a = b then isTrue (by rw [h]) else isFalse (fun h2 => h (Except.ok.inj h2))
  | .error a, .error b =>
    if h : a = b then isTrue (by rw [h]) else isFalse (fun h2 => h (Except.error.inj h2))
  | .ok _, .error _ => isFalse (fun h => Except.noConfusion h)
  | .error _, .ok _ => isFalse (fun h => Except.noConfusion h)

/-- Go `ierror.IsNotFoundErr`. -/
def IsNotFoundErr : Err → Bool
  | .notFound _ => true
  | _ => false

/-! ## Rows and database state -/

/-- Row of table `blob` (`dao.Blob`); the manager's `blob.Blob` has the same
fields. `CreationTime = 0` is the zero value of Go's `time.Time`. -/
structure Blob where
  ID : Int
  Digest : String
  ContentType : String
  Size : Int
  CreationTime : Nat
  deriving DecidableEq, Repr

/-- Row of table `artifact_blob` (`dao.ArtifactAndBlob`). -/
structure ArtifactAndBlob where
  ID : Int
  DigestAF : String
  DigestBlob : String
  CreationTime : Nat
  deriving DecidableEq, Repr

/-- Row of table `project_blob` (`dao.ProjectBlob`). -/
structure ProjectBlob where
  ID : Int
  BlobID : Int
  ProjectID : Int
  CreationTime : Nat
  deriving DecidableEq, Repr

/-- Which columns of table `blob` the ORM's `Update` writes. `dao.UpdateBlob`
calls `o.Update(blob)` with the whole row and no column list; the ORM is not
part of the sources, and neither they nor the spec say which columns it then
writes. The key `id` selects the row and `content_type`, the column an update
is there to correct, is written; each other column is written or left alone as
the store decides. -/
structure UpdateColumns where
  digest : Bool
  size : Bool
  creationTime : Bool
  deriving DecidableEq, Repr

/-- An `Update` that writes every column of the row it is handed. -/
def UpdateColumns.all : UpdateColumns :=
  { digest := true, size := true, creationTime := true }

/-- An `Update` that writes the content type and nothing else. -/
def UpdateColumns.contentTypeOnly : UpdateColumns :=
  { digest := false, size := false, creationTime := false }

/-- The row that `Update` leaves in the table: `stored` is the row in the table,
`given` the row passed to `Update`. -/
def UpdateColumns.write (cols : UpdateColumns) (stored given : Blob) : Blob :=
  { ID := stored.ID,
    Digest := if cols.digest then given.Digest else stored.Digest,
    ContentType := given.ContentType,
    Size := if cols.size then given.Size else stored.Size,
    CreationTime := if cols.creationTime then given.CreationTime else stored.CreationTime }

/-- The ledger: the three tables, each with the last value handed out by its
serial primary key, and the columns the store's `Update` writes. -/
structure DB where
  blob : List Blob
  blobSeq : Int
  artifactBlob : List ArtifactAndBlob
  artifactBlobSeq : Int
  projectBlob : List ProjectBlob
  projectBlobSeq : Int
  updateColumns : UpdateColumns
  deriving DecidableEq, Repr

/-- The empty ledger. -/
def DB.empty : DB :=
  { blob := [], blobSeq := 0, artifactBlob := [], artifactBlobSeq := 0,
    projectBlob := [], projectBlobSeq := 0,
    updateColumns := UpdateColumns.contentTypeOnly }

/-- What a call runs against: the ledger, the schedule of persistence failures
(one slot per DAO call, `some msg` makes that call fail; an exhausted schedule
means no further failure) and the reading of the clock. -/
structure World where
  db : DB
  faults : List (Option String)
  now : Nat
  deriving DecidableEq, Repr

/-- Take the next slot of the failure schedule. -/
def World.fault (w : World) : Option String × World :=
  match w.faults with
  | [] => (none, w)
  | f :: fs => (f, { w with faults := fs })

/-- Go `time.Now()`: read the clock, which then moves on. -/
def World.timeNow (w : World) : Nat × World :=
  (w.now, { w with now := w.now + 1 })

/-! ## ORM primitives -/

namespace orm

/-- Modelled from the spec: ORM `InsertOrUpdate(blob, "digest")`, which is not
part of the sources. "Insert or ignore on unique-key conflict" on `digest`: a
conflicting insert favours the already-persisted row, adds no row, raises no
error and returns the id of the persisted row; otherwise the row is appended
under the next serial id. -/
def InsertOrUpdateBlob (db : DB) (row : Blob) : Int × DB :=
  match db.blob.find? (fun b => b.Digest == row.Digest) with
  | some b => (b.ID, db)
  | none =>
    (db.blobSeq + 1,
      { db with blob := db.blob ++ [{ row with ID := db.blobSeq + 1 }],
                blobSeq := db.blobSeq + 1 })

/-- Modelled from the spec: ORM `InsertOrUpdate(md, "digest_af, digest_blob")`,
idempotent insert of an artifact attachment (a duplicate is a no-op, not an
error). -/
def InsertOrUpdateArtifactAndBlob (db : DB) (row : ArtifactAndBlob) : Int × DB :=
  match db.artifactBlob.find?
      (fun r => r.DigestAF == row.DigestAF && r.DigestBlob == row.DigestBlob) with
  | some r => (r.ID, db)
  | none =>
    (db.artifactBlobSeq + 1,
      { db with
          artifactBlob := db.artifactBlob ++ [{ row with ID := db.artifactBlobSeq + 1 }],
          artifactBlobSeq := db.artifactBlobSeq + 1 })

/-- Modelled from the spec: ORM `InsertOrUpdate(md, "blob_id, project_id")`,
idempotent insert of a project attachment. -/
def InsertOrUpdateProjectBlob (db : DB) (row : ProjectBlob) : Int × DB :=
  match db.projectBlob.find?
      (fun r => r.BlobID == row.BlobID && r.ProjectID == row.ProjectID) with
  | some r => (r.ID, db)
  | none =>
    (db.projectBlobSeq + 1,
      { db with
          projectBlob := db.projectBlob ++ [{ row with ID := db.projectBlobSeq + 1 }],
          projectBlobSeq := db.projectBlobSeq + 1 })

/-- Modelled from the spec: ORM `Read(blob, "digest")`: the row with that
digest, `none` standing for `ErrNoRows`. -/
def ReadBlob (db : DB) (digest : String) : Option Blob :=
  db.blob.find? (fun b => b.Digest == digest)

/-- Modelled from the spec: ORM `Read(md, "digest_af", "digest_blob")`. -/
def ReadArtifactAndBlob (db : DB) (artifactDigest blobDigest : String) :
    Option ArtifactAndBlob :=
  db.artifactBlob.find?
    (fun r => r.DigestAF == artifactDigest && r.DigestBlob == blobDigest)

/-- Modelled from the spec: ORM `Update(blob)`, which is not part of the
sources. The row whose primary key is `blob.ID` takes the content type of
`blob` and, of the other columns, those the store writes (`db.updateColumns`);
no such row is not an error. -/
def UpdateBlob (db : DB) (row : Blob) : DB :=
  { db with
      blob := db.blob.map (fun b => if b.ID = row.ID then db.updateColumns.write b row else b) }

/-- Modelled from the spec: the query of `ListBlobs` for `q.KeyWords`:
`digest__in` when set, every row otherwise. -/
def AllBlobs (db : DB) (digestIn : Option (List String)) : List Blob :=
  match digestIn with
  | some ds => db.blob.filter (fun b => ds.contains b.Digest)
  | none => db.blob

end orm

/-! ## DAO (pkg/blob/dao)

Every DAO function first takes the ORM from the context (`orm.FromContext`)
and then makes one ORM call; either can fail, and a failure returns before the
tables are touched. One slot of the failure schedule decides both. -/

namespace dao

/-- Go `dao.CreateBlob`: "create blob ignore conflict on digest". -/
def CreateBlob (w : World) (blob : Blob) : Except Err Int × World :=
  match w.fault with
  | (some e, w1) => (.error (.raw e), w1)
  | (none, w1) =>
    let t := w1.timeNow
    let r := orm.InsertOrUpdateBlob t.2.db { blob with CreationTime := t.1 }
    (.ok r.1, { t.2 with db := r.2 })

/-- Go `dao.GetBlobByDigest`; `orm.WrapNotFoundError` turns `ErrNoRows` into a
NotFound error and leaves any other error alone. -/
def GetBlobByDigest (w : World) (digest : String) : Except Err Blob × World :=
  match w.fault with
  | (some e, w1) => (.error (.raw e), w1)
  | (none, w1) =>
    match orm.ReadBlob w1.db digest with
    | some b => (.ok b, w1)
    | none => (.error (.notFound ("blob " ++ digest ++ " not found")), w1)

/-- Go `dao.UpdateBlob`. -/
def UpdateBlob (w : World) (blob : Blob) : Except Err Unit × World :=
  match w.fault with
  | (some e, w1) => (.error (.raw e), w1)
  | (none, w1) => (.ok (), { w1 with db := orm.UpdateBlob w1.db blob })

/-- Go `dao.ListBlobs`. -/
def ListBlobs (w : World) (digestIn : Option (List String)) :
    Except Err (List Blob) × World :=
  match w.fault with
  | (some e, w1) => (.error (.raw e), w1)
  | (none, w1) => (.ok (orm.AllBlobs w1.db digestIn), w1)

/-- Go `dao.CreateProjectBlob`: "add blob to project and ignore conflict". -/
def CreateProjectBlob (w : World) (md : ProjectBlob) : Except Err Int × World :=
  match w.fault with
  | (some e, w1) => (.error (.raw e), w1)
  | (none, w1) =>
    let t := w1.timeNow
    let r := orm.InsertOrUpdateProjectBlob t.2.db { md with CreationTime := t.1 }
    (.ok r.1, { t.2 with db := r.2 })

/-- Go `dao.ExistProjectBlob`:
`SELECT COUNT(*) FROM project_blob JOIN blob ON project_blob.blob_id = blob.id
AND project_id = ? AND digest = ?`, then `count > 0`. -/
def ExistProjectBlob (w : World) (blobDigest : String) (projectID : Int) :
    Except Err Bool × World :=
  match w.fault with
  | (some e, w1) => (.error (.raw e), w1)
  | (none, w1) =>
    let count : Nat :=
      (w1.db.projectBlob.map (fun pb =>
        (w1.db.blob.filter (fun b =>
          pb.BlobID == b.ID && pb.ProjectID == projectID && b.Digest == blobDigest)).length)).sum
    (.ok (decide (count > 0)), w1)

/-- Go `dao.CreateArtifactAndBlob`. -/
def CreateArtifactAndBlob (w : World) (md : ArtifactAndBlob) : Except Err Int × World :=
  match w.fault with
  | (some e, w1) => (.error (.raw e), w1)
  | (none, w1) =>
    let t := w1.timeNow
    let r := orm.InsertOrUpdateArtifactAndBlob t.2.db { md with CreationTime := t.1 }
    (.ok r.1, { t.2 with db := r.2 })

/-- Go `dao.GetArtifactAndBlob`. -/
def GetArtifactAndBlob (w : World) (artifactDigest blobDigest : String) :
    Except Err ArtifactAndBlob × World :=
  match w.fault with
  | (some e, w1) => (.error (.raw e), w1)
  | (none, w1) =>
    match orm.ReadArtifactAndBlob w1.db artifactDigest blobDigest with
    | some md => (.ok md, w1)
    | none => (.error (.notFound ""), w1)

end dao

/-! ## Manager (pkg/blob/manager.go) -/

/-- Go `[]string` of digests. -/
abbrev Digests := List String

/-- Go `[]*Blob`, as values. -/
abbrev Blobs := List Blob

namespace manager

/-- Go `manager.toBlob`: the creation time is not copied. -/
def toBlob (blob : Blob) : Blob :=
  { ID := blob.ID, Digest := blob.Digest, ContentType := blob.ContentType,
    Size := blob.Size, CreationTime := 0 }

/-- Go `manager.AttachToArtifact`. -/
def AttachToArtifact (w : World) (blobDigest artifactDigest : String) :
    Except Err Int × World :=
  dao.CreateArtifactAndBlob w
    { ID := 0, DigestAF := artifactDigest, DigestBlob := blobDigest, CreationTime := 0 }

/-- Go `manager.AttachToProject`. -/
def AttachToProject (w : World) (blobID projectID : Int) : Except Err Int × World :=
  dao.CreateProjectBlob w
    { ID := 0, BlobID := blobID, ProjectID := projectID, CreationTime := 0 }

/-- Go `manager.Create`. -/
def Create (w : World) (digest contentType : String) (size : Int) :
    Except Err Int × World :=
  dao.CreateBlob w
    { ID := 0, Digest := digest, ContentType := contentType, Size := size,
      CreationTime := 0 }

/-- Go `manager.Get`. -/
def Get (w : World) (digest : String) : Except Err Blob × World :=
  match dao.GetBlobByDigest w digest with
  | (.error e, w1) => (.error e, w1)
  | (.ok blob, w1) => (.ok (toBlob blob), w1)

/-- Go `manager.Update`. -/
def Update (w : World) (blob : Blob) : Except Err Unit × World :=
  dao.UpdateBlob w
    { ID := blob.ID, Digest := blob.Digest, ContentType := blob.ContentType,
      Size := blob.Size, CreationTime := blob.CreationTime }

/-- Go `manager.List` with `ListParams{Digests: digests}`. -/
def List (w : World) (digests : Digests) : Except Err Blobs × World :=
  let kw : Option Digests := if digests.length > 0 then some digests else none
  match dao.ListBlobs w kw with
  | (.error e, w1) => (.error e, w1)
  | (.ok blobs, w1) => (.ok (blobs.map toBlob), w1)

/-- Go `manager.IsAttachedToArtifact`. -/
def IsAttachedToArtifact (w : World) (blobDigest manifestDigest : String) :
    Except Err Bool × World :=
  match dao.GetArtifactAndBlob w manifestDigest blobDigest with
  | (.error e, w1) => if !IsNotFoundErr e then (.error e, w1) else (.ok false, w1)
  | (.ok _, w1) => (.ok true, w1)

/-- Go `manager.IsAttachedToProject`. -/
def IsAttachedToProject (w : World) (digest : String) (projectID : Int) :
    Except Err Bool × World :=
  dao.ExistProjectBlob w digest projectID

end manager

/-! ## Parameters (api/blob/params.go) -/

/-- Go `AttachToArtifactParams`. -/
structure AttachToArtifactParams where
  ArtifactDigest : String
  BlobDigests : List String
  deriving DecidableEq, Repr

/-- Go `AttachToProjectParams`. -/
structure AttachToProjectParams where
  BlobID : Int
  Digest : String
  ProjectID : Int
  deriving DecidableEq, Repr

/-- Go `EnsureParams`. -/
structure EnsureParams where
  ContentType : String
  Digest : String
  Size : Int
  deriving DecidableEq, Repr

/-- Go `ExistParams`. -/
structure ExistParams where
  Digest : String
  ArtifactDigest : String
  ProjectID : Int
  deriving DecidableEq, Repr

/-- Go `GetParams`. -/
structure GetParams where
  Digest : String
  ArtifactDigest : String
  ProjectID : Int
  deriving DecidableEq, Repr

/-- Go `distribution.Descriptor`, the fields read by the controller. -/
structure Descriptor where
  MediaType : String
  Digest : String
  Size : Int
  deriving DecidableEq, Repr

/-- Go `SyncParams`. -/
structure SyncParams where
  References : List Descriptor
  deriving DecidableEq, Repr

/-! ## Controller (api/blob/controller.go) -/

namespace orm

/-- Modelled from the spec: `orm.WithTransaction(f)(ctx)`, an all-or-nothing
transaction: when `f` fails the tables are put back as they were and the error
of `f` is the result. -/
def WithTransaction (f : World → Except Err Unit × World) (w : World) :
    Except Err Unit × World :=
  match f w with
  | (.error e, w1) => (.error e, { w1 with db := w.db })
  | (.ok u, w1) => (.ok u, w1)

end orm

namespace controller

/-- The `for _, blobDigest := range params.BlobDigests` loop of
`AttachToArtifact`: the first failure ends it. -/
def attachBlobs (artifactDigest : String) : List String → World → Except Err Unit × World
  | [], w => (.ok (), w)
  | blobDigest :: rest, w =>
    match manager.AttachToArtifact w blobDigest artifactDigest with
    | (.error e, w1) => (.error e, w1)
    | (.ok _, w1) => attachBlobs artifactDigest rest w1

/-- Go `controller.AttachToArtifact`. -/
def AttachToArtifact (w : World) (params : AttachToArtifactParams) :
    Except Err Unit × World :=
  match manager.IsAttachedToArtifact w params.ArtifactDigest params.ArtifactDigest with
  | (.error e, w1) => (.error e, w1)
  | (.ok exist, w1) =>
    if exist then (.ok (), w1)
    else
      match attachBlobs params.ArtifactDigest params.BlobDigests w1 with
      | (.error e, w2) => (.error e, w2)
      | (.ok _, w2) =>
        match manager.AttachToArtifact w2 params.ArtifactDigest params.ArtifactDigest with
        | (.error e, w3) => (.error e, w3)
        | (.ok _, w3) => (.ok (), w3)

/-- The last statement of `AttachToProject`:
`_, err := c.blobMgr.AttachToProject(ctx, blobID, params.ProjectID); return err`. -/
def attachBlobID (w : World) (blobID projectID : Int) : Except Err Unit × World :=
  match manager.AttachToProject w blobID projectID with
  | (.error e, w1) => (.error e, w1)
  | (.ok _, w1) => (.ok (), w1)

/-- Go `controller.AttachToProject`. -/
def AttachToProject (w : World) (params : AttachToProjectParams) :
    Except Err Unit × World :=
  if params.BlobID ≠ 0 ∧ params.Digest ≠ "" then
    (.error (.badRequest "require BlobID or Digest"), w)
  else if params.Digest ≠ "" then
    match manager.Get w params.Digest with
    | (.error e, w1) => (.error e, w1)
    | (.ok blob, w1) => attachBlobID w1 blob.ID params.ProjectID
  else attachBlobID w params.BlobID params.ProjectID

/-- Go `controller.Get`. -/
def Get (w : World) (params : GetParams) : Except Err Blob × World :=
  if params.Digest = "" then (.error (.badRequest "require Digest"), w)
  else
    match manager.Get w params.Digest with
    | (.error e, w1) => (.error e, w1)
    | (.ok blob, w1) =>
      let inProject : Except Err Unit × World :=
        if params.ProjectID ≠ 0 then
          match manager.IsAttachedToProject w1 params.Digest params.ProjectID with
          | (.error e, w2) => (.error e, w2)
          | (.ok exist, w2) =>
            if !exist then
              (.error (.notFound ("blob " ++ params.Digest ++ " not found in project "
                ++ toString params.ProjectID)), w2)
            else (.ok (), w2)
        else (.ok (), w1)
      match inProject with
      | (.error e, w2) => (.error e, w2)
      | (.ok _, w2) =>
        if params.ArtifactDigest ≠ "" then
          match manager.IsAttachedToArtifact w2 params.Digest params.ArtifactDigest with
          | (.error e, w3) => (.error e, w3)
          | (.ok exist, w3) =>
            if !exist then
              (.error (.notFound ("blob " ++ params.Digest ++ " not found in artifact "
                ++ params.ArtifactDigest)), w3)
            else (.ok blob, w3)
        else (.ok blob, w2)

/-- Go `controller.Ensure`. -/
def Ensure (w : World) (params : EnsureParams) : Except Err Int × World :=
  match manager.Get w params.Digest with
  | (.ok blob, w1) => (.ok blob.ID, w1)
  | (.error e, w1) =>
    if !IsNotFoundErr e then (.error e, w1)
    else manager.Create w1 params.Digest params.ContentType params.Size

/-- Go `controller.Exist`. -/
def Exist (w : World) (params : ExistParams) : Except Err Bool × World :=
  if params.Digest = "" then (.error (.badRequest "exist blob require digest"), w)
  else
    match Get w { Digest := params.Digest, ProjectID := params.ProjectID,
                  ArtifactDigest := params.ArtifactDigest } with
    | (.error e, w1) => if IsNotFoundErr e then (.ok false, w1) else (.error e, w1)
    | (.ok _, w1) => (.ok true, w1)

/-- Go `map[string]*blob.Blob`. -/
abbrev BlobMap := String → Option Blob

/-- The `mp[blob.Digest] = blob` loop of `Sync`. -/
def buildMap (blobs : List Blob) : BlobMap :=
  blobs.foldl (fun mp blob => fun k => if k = blob.Digest then some blob else mp k)
    (fun _ => none)

/-- The variables of the classification loop of `Sync`. `updating` is a slice
of pointers to the values of `mp`; a pointer is kept as the key of its value,
and `exist.ContentType = ...` writes through to `mp`. -/
structure SyncPlan where
  mp : BlobMap
  missing : List Blob
  updating : List String

/-- One iteration of `for _, reference := range params.References`. -/
def planStep (st : SyncPlan) (reference : Descriptor) : SyncPlan :=
  match st.mp reference.Digest with
  | some exist =>
    if exist.ContentType ≠ reference.MediaType then
      { st with
          mp := fun k =>
            if k = reference.Digest then some { exist with ContentType := reference.MediaType }
            else st.mp k,
          updating := st.updating ++ [reference.Digest] }
    else st
  | none =>
    { st with
        missing := st.missing ++
          [{ ID := 0, Digest := reference.Digest, ContentType := reference.MediaType,
             Size := reference.Size, CreationTime := 0 }] }

/-- The body of the transaction of `Sync`: update each blob, stop at the first
failure. -/
def updateBlobs : List Blob → World → Except Err Unit × World
  | [], w => (.ok (), w)
  | blob :: rest, w =>
    match manager.Update w blob with
    | (.error e, w1) => (.error e, w1)
    | (.ok _, w1) => updateBlobs rest w1

/-- The `for _, blob := range missing` loop of `Sync`. -/
def createBlobs : List Blob → World → Except Err Unit × World
  | [], w => (.ok (), w)
  | blob :: rest, w =>
    match manager.Create w blob.Digest blob.ContentType blob.Size with
    | (.error e, w1) => (.error e, w1)
    | (.ok _, w1) => createBlobs rest w1

/-- Go `controller.Sync`. The value of `orm.WithTransaction(...)(ctx)` is not
assigned in the source, so only its effect on the world is kept. -/
def Sync (w : World) (params : SyncParams) : Except Err Unit × World :=
  if params.References.length = 0 then (.ok (), w)
  else
    let digests := params.References.map (fun reference => reference.Digest)
    match manager.List w digests with
    | (.error e, w1) => (.error e, w1)
    | (.ok blobs, w1) =>
      let plan := params.References.foldl planStep
        { mp := buildMap blobs, missing := [], updating := [] }
      let updating := plan.updating.filterMap plan.mp
      let w2 :=
        if updating.length > 0 then (orm.WithTransaction (updateBlobs updating) w1).2
        else w1
      if plan.missing.length > 0 then createBlobs plan.missing w2
      else (.ok (), w2)

end controller

/-! ## Two concurrent calls of `Ensure`

`Ensure` makes two calls to the persistence layer, the lookup
(`c.blobMgr.Get`) and the creation (`c.blobMgr.Create`); each is one statement
of the store and is atomic. Two concurrent calls are two threads whose steps
are interleaved by a schedule. -/

/-- Where a call of `Ensure` is: before the lookup, between a lookup that
found nothing and the creation, or returned. -/
inductive EnsureThread where
  | start
  | creating
  | done (r : Except Err Int)
  deriving DecidableEq, Repr

/-- One step of a call of `controller.Ensure`. -/
def ensureStep (params : EnsureParams) : EnsureThread → World → EnsureThread × World
  | .start, w =>
    match manager.Get w params.Digest with
    | (.ok blob, w1) => (.done (.ok blob.ID), w1)
    | (.error e, w1) =>
      if !IsNotFoundErr e then (.done (.error e), w1) else (.creating, w1)
  | .creating, w =>
    let r := manager.Create w params.Digest params.ContentType params.Size
    (.done r.1, r.2)
  | .done r, w => (.done r, w)

/-- Two calls of `Ensure` in flight over one world. -/
structure EnsurePair where
  first : EnsureThread
  second : EnsureThread
  world : World
  deriving DecidableEq, Repr

/-- Run a schedule: `true` lets the first call take its next step, `false` the
second. -/
def runSchedule (p1 p2 : EnsureParams) : List Bool → EnsurePair → EnsurePair
  | [], st => st
  | true :: rest, st =>
    let r := ensureStep p1 st.first st.world
    runSchedule p1 p2 rest { st with first := r.1, world := r.2 }
  | false :: rest, st =>
    let r := ensureStep p2 st.second st.world
    runSchedule p1 p2 rest { st with second := r.1, world := r.2 }

/-- Number of rows of table `blob` with the digest. -/
def blobCount (db : DB) (digest : String) : Nat :=
  (db.blob.filter (fun b => b.Digest == digest)).length

/-! ## Sequences of calls -/

/-- A call of one of the state-changing operations of the controller. -/
inductive Call where
  | ensure (params : EnsureParams)
  | sync (params : SyncParams)
  | attachToArtifact (params : AttachToArtifactParams)
  | attachToProject (params : AttachToProjectParams)
  deriving DecidableEq, Repr

/-- The world a call leaves behind, whatever it returned. -/
def Call.run : Call → World → World
  | .ensure params, w => (controller.Ensure w params).2
  | .sync params, w => (controller.Sync w params).2
  | .attachToArtifact params, w => (controller.AttachToArtifact w params).2
  | .attachToProject params, w => (controller.AttachToProject w params).2

/-- Run the calls one after the other. -/
def runCalls (calls : List Call) (w : World) : World :=
  calls.foldl (fun w call => call.run w) w

/-! ## Example ledgers -/

/-- A healthy world whose ledger holds one blob, `d`, with id 7. -/
def oneBlobWorld : World :=
  { db := { DB.empty with blob := [⟨7, "d", "text", 10, 3⟩], blobSeq := 7 },
    faults := [], now := 5 }

/-- A healthy world with the empty ledger. -/
def emptyWorld : World :=
  { db := DB.empty, faults := [], now := 1 }

/-- The world of `oneBlobWorld` on a store whose `Update` writes every column of
the row it is handed. -/
def oneBlobWriteAllWorld : World :=
  { oneBlobWorld with db := { oneBlobWorld.db with updateColumns := UpdateColumns.all } }

/-! ## Predicates used by the statements -/

/-- How many steps a call of `Ensure` may still take. -/
def EnsureThread.stepsLeft : EnsureThread → Nat
  | .start => 2
  | .creating => 1
  | .done _ => 0

/-- A call of `Ensure` for `digest` that has returned has returned the id of
the row the ledger holds for `digest`. -/
def EnsureThread.agrees (digest : String) (db : DB) : EnsureThread → Prop
  | .start => True
  | .creating => True
  | .done r => ∃ b, orm.ReadBlob db digest = some b ∧ r = .ok b.ID

/-- The identity of the rows of table `blob`: primary key and digest. -/
def blobKeys (db : DB) : List (Int × String) :=
  db.blob.map (fun b => (b.ID, b.Digest))

/-- Table `blob` is well formed: no two rows share a primary key, no two rows
share a digest, and no row has a key the serial has not yet handed out. -/
def DB.wellFormed (db : DB) : Prop :=
  ((blobKeys db).map Prod.fst).Nodup ∧ ((blobKeys db).map Prod.snd).Nodup ∧
    ∀ k ∈ blobKeys db, k.1 ≤ db.blobSeq

/-- Two ledgers whose `blob` tables have the same rows up to the columns that
are not part of a row's identity, and the same serial. -/
def sameBlobs (db db2 : DB) : Prop :=
  blobKeys db2 = blobKeys db ∧ db2.blobSeq = db.blobSeq

/-- The world reached from the empty ledger by a sequence of calls, under a
schedule of persistence failures and a clock. -/
def reached (calls : List Call) (faults : List (Option String)) (now : Nat) : World :=
  runCalls calls { db := DB.empty, faults := faults, now := now }

/-- A sequence of calls in which `Sync` gets a reference list that repeats a
digest and `Ensure` meets a digest that is already stored. -/
def sampleCalls : List Call :=
  [ .sync { References := [⟨"m1", "d", 10⟩, ⟨"m2", "d", 10⟩, ⟨"m3", "e", 7⟩] },
    .ensure { Digest := "d", ContentType := "m4", Size := 11 },
    .attachToArtifact { ArtifactDigest := "a", BlobDigests := ["d", "e"] },
    .attachToProject { BlobID := 0, Digest := "d", ProjectID := 4 },
    .sync { References := [⟨"m5", "d", 10⟩, ⟨"m6", "f", 10⟩, ⟨"m6", "f", 10⟩] } ]

/-- A project attachment exists for a blob with the digest and the project:
the join of `project_blob` and `blob` that `ExistProjectBlob` counts has a
row. -/
def DB.attachedToProject (db : DB) (digest : String) (projectID : Int) : Prop :=
  ∃ pb ∈ db.projectBlob, ∃ b ∈ db.blob,
    pb.BlobID = b.ID ∧ pb.ProjectID = projectID ∧ b.Digest = digest

/-- An artifact attachment exists for the blob digest and the artifact
digest. -/
def DB.attachedToArtifact (db : DB) (blobDigest artifactDigest : String) : Prop :=
  ∃ r ∈ db.artifactBlob, r.DigestAF = artifactDigest ∧ r.DigestBlob = blobDigest

/-- The ledger holds a blob with the digest. -/
def DB.hasBlob (db : DB) (digest : String) : Prop :=
  ∃ b ∈ db.blob, b.Digest = digest

instance instDecidableAttachedToProject (db : DB) (digest : String) (projectID : Int) :
    Decidable (db.attachedToProject digest projectID) := by
  unfold DB.attachedToProject
  infer_instance

instance instDecidableAttachedToArtifact (db : DB) (blobDigest artifactDigest : String) :
    Decidable (db.attachedToArtifact blobDigest artifactDigest) := by
  unfold DB.attachedToArtifact
  infer_instance

instance instDecidableHasBlob (db : DB) (digest : String) : Decidable (db.hasBlob digest) := by
  unfold DB.hasBlob
  infer_instance

/-- A healthy world whose ledger holds blob `d` (id 7), attached to project 4
and to artifact `a`. -/
def attachedWorld : World :=
  { db := { blob := [⟨7, "d", "text", 10, 3⟩], blobSeq := 7,
            artifactBlob := [⟨1, "a", "d", 4⟩], artifactBlobSeq := 1,
            projectBlob := [⟨1, 7, 4, 5⟩], projectBlobSeq := 1,
            updateColumns := UpdateColumns.contentTypeOnly },
    faults := [], now := 6 }

/-- A world with the ledger of `attachedWorld` whose next store call fails. -/
def failingWorld : World :=
  { attachedWorld with faults := [some "connection refused"] }

/-- The world reached by ensuring blob `d` and then attaching an empty list of
blobs to artifact `a`: the self-attachment of `a` is recorded, `d` is not
attached to `a`. -/
def selfAttachedWorld : World :=
  reached [ .ensure { Digest := "d", ContentType := "text", Size := 10 },
            .attachToArtifact { ArtifactDigest := "a", BlobDigests := [] } ] [] 1

/-- The world reached by ensuring a blob under the empty digest. -/
def emptyDigestWorld : World :=
  reached [ .ensure { Digest := "", ContentType := "text", Size := 10 } ] [] 1

/-- References that share a digest declare the same media type and size. -/
def consistentRefs (refs : List Descriptor) : Prop :=
  ∀ r1 ∈ refs, ∀ r2 ∈ refs, r1.Digest = r2.Digest →
    r1.MediaType = r2.MediaType ∧ r1.Size = r2.Size

instance instDecidableConsistentRefs (refs : List Descriptor) :
    Decidable (consistentRefs refs) := by
  unfold consistentRefs
  infer_instance

/-- What the classification loop of `Sync` has established after the
references `done`, starting from the map `m0` of the listed blobs: the map
keeps its keys and the identity of its values, a value that was rewritten is
scheduled for update, the value under a classified digest carries its declared
media type (when the references agree on it), and `missing` holds exactly the classified references that the map
does not know. -/
structure controller.PlanInv (m0 : controller.BlobMap) (done : List Descriptor)
    (st : controller.SyncPlan) : Prop where
  same : ∀ k b, st.mp k = some b →
    ∃ b0, m0 k = some b0 ∧ b.ID = b0.ID ∧ b.Digest = b0.Digest ∧ b.Size = b0.Size ∧
      b.CreationTime = b0.CreationTime
  dom : ∀ k b0, m0 k = some b0 → ∃ b, st.mp k = some b
  kept : ∀ k b, st.mp k = some b → k ∉ st.updating → m0 k = some b
  typed : consistentRefs done →
    ∀ r ∈ done, ∀ b, st.mp r.Digest = some b → b.ContentType = r.MediaType
  missingFrom : ∀ m ∈ st.missing, m0 m.Digest = none ∧
    ∃ r ∈ done, m = ⟨0, r.Digest, r.MediaType, r.Size, 0⟩
  missingAll : ∀ r ∈ done, m0 r.Digest = none →
    (⟨0, r.Digest, r.MediaType, r.Size, 0⟩ : Blob) ∈ st.missing
  updatingKnown : ∀ k ∈ st.updating, ∃ b, st.mp k = some b

/-- The classification `Sync` reaches for a reference list over a ledger: the
plan after the loop over the references, starting from the map of the blobs
`manager.List` returns for the referenced digests. -/
def controller.planOf (db : DB) (refs : List Descriptor) : controller.SyncPlan :=
  refs.foldl controller.planStep
    { mp := controller.buildMap
        ((orm.AllBlobs db
          (if (refs.map (fun reference => reference.Digest)).length > 0
            then some (refs.map (fun reference => reference.Digest)) else none)).map
          manager.toBlob),
      missing := [], updating := [] }

/-- The slice `updating` of `Sync`, its pointers resolved. -/
def controller.updatesOf (db : DB) (refs : List Descriptor) : List Blob :=
  (controller.planOf db refs).updating.filterMap (controller.planOf db refs).mp

/-- The ledger of `oneBlobWorld` (blob `d`, content type `text`) on a store
whose second call, the update of `Sync`, fails. -/
def updateFailsWorld : World :=
  { oneBlobWorld with faults := [none, some "deadlock detected"] }

/-- The (artifact digest, blob digest) pairs of table `artifact_blob`. -/
def artifactPairs (db : DB) : List (String × String) :=
  db.artifactBlob.map (fun r => (r.DigestAF, r.DigestBlob))

/-! ## Upload-size cache (api/blob/controller.go, SetAcceptedBlobSize and
GetAcceptedBlobSize) -/

/-- Modelled from the spec: the ephemeral key-value store behind
`util.DefaultPool()`, string-keyed get/set; `reachable = false` makes every
command fail. A value is kept as the integer that was set. -/
structure Redis where
  reachable : Bool
  data : List (String × Int)
  deriving DecidableEq, Repr

namespace redis

/-- Modelled from the spec: `redis.String(conn.Do("SET", key, size))`: the
status reply of the command, after which the key holds the value. -/
def SET (r : Redis) (key : String) (size : Int) : Except Err String × Redis :=
  if r.reachable then (.ok "OK", { r with data := (key, size) :: r.data })
  else (.error (.raw "dial tcp: connection refused"), r)

/-- Modelled from the spec: `redis.Int64(conn.Do("GET", key))`: the value under
the key; a key that is not set gives the nil reply, which `redis.Int64` turns
into the error `ErrNil`. -/
def GET (r : Redis) (key : String) : Except Err Int :=
  if r.reachable then
    match r.data.lookup key with
    | some size => .ok size
    | none => .error (.raw "redigo: nil returned")
  else .error (.raw "dial tcp: connection refused")

end redis

namespace controller

/-- Go `fmt.Sprintf("upload:%s:size", sessionID)`. -/
def uploadSizeKey (sessionID : String) : String :=
  "upload:" ++ sessionID ++ ":size"

/-- Go `controller.SetAcceptedBlobSize`. -/
def SetAcceptedBlobSize (r : Redis) (sessionID : String) (size : Int) :
    Except Err Unit × Redis :=
  match redis.SET r (uploadSizeKey sessionID) size with
  | (.error e, r1) => (.error e, r1)
  | (.ok reply, r1) =>
    if reply ≠ "OK" then (.error (.raw "bad reply value"), r1)
    else (.ok (), r1)

/-- Go `controller.GetAcceptedBlobSize`. -/
def GetAcceptedBlobSize (r : Redis) (sessionID : String) : Except Err Int :=
  match redis.GET r (uploadSizeKey sessionID) with
  | .error e => .error e
  | .ok size => .ok size

end controller

/-- A reachable key-value store with nothing set. -/
def emptyRedis : Redis := { reachable := true, data := [] }

/-- The ledger of `oneBlobWorld` on a store whose third call fails: in
`AttachToArtifact` that is the second member attachment. -/
def thirdCallFailsWorld : World :=
  { oneBlobWorld with faults := [none, none, some "connection reset"] }

/-! ## Middleware (server/middleware/blob) -/

/-- Go `project.Project` of api/project. -/
structure Project where
  ProjectID : Int
  Name : String
  deriving DecidableEq, Repr

/-- What the middleware takes from outside the blob ledger: the project
controller (`projectController.GetByName`), the manifest parser
(`distribution.UnmarshalManifest`, giving the references of the manifest and
its descriptor) and the constant `schema2.MediaTypeForeignLayer`. -/
structure Collaborators where
  GetByName : String → Except Err Project
  UnmarshalManifest : String → String → Except Err (List Descriptor × Descriptor)
  MediaTypeForeignLayer : String

/-- What the callback of `PutManifestMiddleware` reads from the request and
the response: the status code, `distribution.ParseName(r.URL.Path)`, the
outcome of `ioutil.ReadAll(r.Body)` and the `Content-Type` header. -/
structure ManifestPush where
  statusCode : Int
  name : String
  body : Except Err String
  contentType : String

/-- What the callback of `PutBlobUploadMiddleware` reads from the request and
the response: the status code, the outcome of
`strconv.ParseInt(r.Header.Get("Content-Length"), 10, 64)`,
`distribution.ParseSessionID(r.URL.Path)`, `distribution.ParseName(r.URL.Path)`
and the `Docker-Content-Digest` header of the response. -/
structure BlobUpload where
  statusCode : Int
  contentLength : Except Err Int
  sessionID : String
  name : String
  digest : String

namespace middleware

/-- Go `http.StatusCreated`. -/
def StatusCreated : Int := 201

/-- Go `isForeign`. -/
def isForeign (env : Collaborators) (d : Descriptor) : Bool :=
  d.MediaType == env.MediaTypeForeignLayer

/-- Go `findForeignBlobDigests`, over `manifest.References()`. -/
def findForeignBlobDigests (env : Collaborators) (references : List Descriptor) :
    List String :=
  references.foldl
    (fun digests reference =>
      if isForeign env reference then digests ++ [reference.Digest] else digests) []

/-- The `for _, digest := range findForeignBlobDigests(manifest)` loop of the
manifest callback. -/
def attachForeign (projectID : Int) : List String → World → Except Err Unit × World
  | [], w => (.ok (), w)
  | digest :: rest, w =>
    match controller.AttachToProject w { BlobID := 0, Digest := digest, ProjectID := projectID } with
    | (.error e, w1) => (.error e, w1)
    | (.ok _, w1) => attachForeign projectID rest w1

/-- The `AfterResponse` callback of Go `PutManifestMiddleware`. -/
def putManifestAfter (env : Collaborators) (w : World) (r : ManifestPush) :
    Except Err Unit × World :=
  if r.statusCode ≠ StatusCreated then (.ok (), w)
  else
    match env.GetByName r.name with
    | .error e => (.error e, w)
    | .ok p =>
      match r.body with
      | .error e => (.error e, w)
      | .ok body =>
        match env.UnmarshalManifest r.contentType body with
        | .error e => (.error e, w)
        | .ok (references, descriptor) =>
          match controller.Sync w { References := references } with
          | (.error e, w1) => (.error e, w1)
          | (.ok _, w1) =>
            match attachForeign p.ProjectID (findForeignBlobDigests env references) w1 with
            | (.error e, w2) => (.error e, w2)
            | (.ok _, w2) =>
              match controller.Ensure w2
                  { ContentType := r.contentType, Digest := descriptor.Digest,
                    Size := descriptor.Size } with
              | (.error e, w3) => (.error e, w3)
              | (.ok blobID, w3) =>
                match controller.AttachToProject w3
                    { BlobID := blobID, Digest := "", ProjectID := p.ProjectID } with
                | (.error e, w4) => (.error e, w4)
                | (.ok _, w4) =>
                  match controller.AttachToArtifact w4
                      { ArtifactDigest := descriptor.Digest,
                        BlobDigests := references.map (fun reference => reference.Digest) } with
                  | (.error e, w5) => (.error e, w5)
                  | (.ok _, w5) => (.ok (), w5)

/-- The `AfterResponse` callback of Go `PutBlobUploadMiddleware`. The cache is
only read. -/
def putBlobUploadAfter (env : Collaborators) (cache : Redis) (w : World) (r : BlobUpload) :
    Except Err Unit × World :=
  if r.statusCode ≠ StatusCreated then (.ok (), w)
  else
    let size : Except Err Int :=
      match r.contentLength with
      | .error _ => controller.GetAcceptedBlobSize cache r.sessionID
      | .ok n =>
        if n = 0 then controller.GetAcceptedBlobSize cache r.sessionID else .ok n
    match size with
    | .error e => (.error e, w)
    | .ok n =>
      match env.GetByName r.name with
      | .error e => (.error e, w)
      | .ok p =>
        match controller.Ensure w
            { Digest := r.digest, ContentType := "application/octet-stream", Size := n } with
        | (.error e, w1) => (.error e, w1)
        | (.ok blobID, w1) =>
          match controller.AttachToProject w1
              { BlobID := blobID, Digest := "", ProjectID := p.ProjectID } with
          | (.error e, w2) => (.error e, w2)
          | (.ok _, w2) => (.ok (), w2)

end middleware

/-- Collaborators for the examples: project `library` has id 4, and every body
parses to a manifest `m` with a plain layer `l1`, a foreign layer `l2` and the
plain layer `l1` again. -/
def sampleEnv : Collaborators :=
  { GetByName := fun name =>
      if name = "library" then .ok { ProjectID := 4, Name := "library" }
      else .error (.notFound ("project " ++ name ++ " not found")),
    UnmarshalManifest := fun _ _ =>
      .ok ([⟨"layer", "l1", 10⟩, ⟨"foreign", "l2", 20⟩, ⟨"layer", "l1", 10⟩],
           ⟨"manifest", "m", 99⟩),
    MediaTypeForeignLayer := "foreign" }

/-- A manifest push that ended with status created. -/
def samplePush : ManifestPush :=
  { statusCode := 201, name := "library", body := .ok "body", contentType := "manifest" }

/-- Collaborators whose parser yields a manifest with one foreign layer under
the empty digest. -/
def emptyDigestEnv : Collaborators :=
  { sampleEnv with
    UnmarshalManifest := fun _ _ => .ok ([⟨"foreign", "", 20⟩], ⟨"manifest", "m", 99⟩) }

/-- An upload-completion request that ended with status created and carries
no usable Content-Length, for session `s1`. -/
def chunkedUpload : BlobUpload :=
  { statusCode := 201, contentLength := .error (.raw "strconv.ParseInt: invalid syntax"),
    sessionID := "s1", name := "library", digest := "d" }

/-- An upload-completion request that ended with status created and carries
Content-Length 5. -/
def sizedUpload : BlobUpload :=
  { statusCode := 201, contentLength := .ok 5, sessionID := "s1", name := "library",
    digest := "d" }

/-! ## Pattern matcher of the RBAC evaluator
(pkg/permission/evaluator/rbac/casbin_match.go)

Strings are handled as lists of characters. -/

namespace rbac

/-- The line feed, the one character `.` does not match. -/
def newline : Char := Char.ofNat 10

/-- Go `strings.Replace(s, "/*", "/.*", -1)`: every occurrence of `/*`, left to
right and without overlap, becomes `/.*`. -/
def replaceSlashStar : List Char → List Char
  | '/' :: '*' :: rest => '/' :: '.' :: '*' :: replaceSlashStar rest
  | c :: rest => c :: replaceSlashStar rest
  | [] => []

/-- Go `strings.Contains(s, "/:")`. -/
def containsSlashColon : List Char → Bool
  | '/' :: ':' :: _ => true
  | _ :: rest => containsSlashColon rest
  | [] => false

/-- The string starts with a character that `[^/]` matches. -/
def paramFollows : List Char → Bool
  | next :: _ => next != '/'
  | [] => false

/-- Where the first group of `(.*):[^/]+(.*)` ends when a match starts at the
head of `s`: the last position in the first line of `s` that holds a `:`
followed by a character other than `/`. The greedy `.*` stays on the line and
gives back as little as it must. -/
def lastColon : List Char → Option Nat
  | [] => none
  | c :: rest =>
    if c = newline then none
    else
      match lastColon rest with
      | some j => some (j + 1)
      | none => if c = ':' ∧ paramFollows rest = true then some 0 else none

/-- Go `re.ReplaceAllString(s, "$1[^/]+$2")` for
`re = regexp.MustCompile("(.*):[^/]+(.*)")`, by the rules of package regexp:
the leftmost match is taken, the quantifiers are greedy, `.` does not match a
line feed while `[^/]` does, matches do not overlap, and text outside a match
is copied. A match can only start at the head of a line; `[^/]+` then takes the
longest run without `/` and the second group the rest of its line. `fuel`
bounds the number of lines and matches looked at. -/
def replaceAllFuel : Nat → List Char → List Char
  | 0, s => s
  | fuel + 1, s =>
    match lastColon s with
    | some j =>
      let afterColon := s.drop (j + 1)
      let run := afterColon.takeWhile (fun c => c != '/')
      let afterRun := afterColon.drop run.length
      let group2 := afterRun.takeWhile (fun c => c != newline)
      s.take j ++ "[^/]+".data ++ group2 ++ replaceAllFuel fuel (afterRun.drop group2.length)
    | none =>
      let line := s.takeWhile (fun c => c != newline)
      match s.drop line.length with
      | [] => s
      | nl :: rest => line ++ nl :: replaceAllFuel fuel rest

/-- The replacement of `keyMatch2Build` over a whole string: the string has no
more lines and matches than characters. -/
def replaceAll (s : List Char) : List Char :=
  replaceAllFuel (s.length + 1) s

/-- The `for` loop of Go `keyMatch2Build`, run for at most `fuel` iterations:
`none` when the loop has not reached its `break` by then. -/
def keyMatch2Loop : Nat → List Char → Option (List Char)
  | 0, _ => none
  | fuel + 1, key2 =>
    if !containsSlashColon key2 then some key2
    else keyMatch2Loop fuel (replaceAll key2)

/-- Go `keyMatch2Build`, up to the source of the regular expression it
compiles, with the loop bounded by `fuel`. -/
def keyMatch2Build (fuel : Nat) (key2 : String) : Option String :=
  match keyMatch2Loop fuel (replaceSlashStar key2.data) with
  | some k => some (String.mk ('^' :: k ++ ['$']))
  | none => none

end rbac

/-- Some `:` of the string is followed by a character other than `/`: the
strings in which `:[^/]+` can match. -/
def rbac.hasParamColon : List Char → Bool
  | [] => false
  | c :: rest => (c == ':' && rbac.paramFollows rest) || rbac.hasParamColon rest

/-! # Theorems -/

/-! ## The persistence layer when it does not fail -/

theorem fault_nil (w : World) (h : w.faults = []) : w.fault = (none, w) := by
  unfold World.fault
  rw [h]

theorem readBlob_some {db : DB} {d : String} {b : Blob} (h : orm.ReadBlob db d = some b) :
    b ∈ db.blob ∧ b.Digest = d := by
  unfold orm.ReadBlob at h
  refine ⟨List.mem_of_find?_eq_some h, ?_⟩
  have := List.find?_some h
  simpa using this

theorem readBlob_none {db : DB} {d : String} :
    orm.ReadBlob db d = none ↔ ∀ b ∈ db.blob, b.Digest ≠ d := by
  unfold orm.ReadBlob
  simp [List.find?_eq_none]

theorem readBlob_of_mem {db : DB} {d : String} {b : Blob} (hb : b ∈ db.blob)
    (hd : b.Digest = d) : ∃ stored, orm.ReadBlob db d = some stored := by
  cases h : orm.ReadBlob db d with
  | some s => exact ⟨s, rfl⟩
  | none => exact absurd hd (readBlob_none.mp h b hb)

theorem manager_Get_nil (w : World) (h : w.faults = []) (d : String) :
    manager.Get w d =
      match orm.ReadBlob w.db d with
      | some b => (.ok (manager.toBlob b), w)
      | none => (.error (.notFound ("blob " ++ d ++ " not found")), w) := by
  unfold manager.Get dao.GetBlobByDigest
  rw [fault_nil w h]
  cases h2 : orm.ReadBlob w.db d <;> simp [h2]

/-- C1: in a ledger that already holds a blob with digest `d`, on a store that
does not fail, `Ensure(d, contentType, size)` returns the id of the stored blob
with that digest, whatever `contentType` and `size` are, and the world it
leaves is the world it found: no row is added and no stored value changes. -/
theorem ensure_existing_returns_id (w : World) (d ct : String) (sz : Int) (b : Blob)
    (hf : w.faults = []) (hb : b ∈ w.db.blob) (hd : b.Digest = d) :
    ∃ stored, stored ∈ w.db.blob ∧ stored.Digest = d ∧
      controller.Ensure w { Digest := d, ContentType := ct, Size := sz }
        = (.ok stored.ID, w) := by
  obtain ⟨s, hs⟩ := readBlob_of_mem hb hd
  refine ⟨s, (readBlob_some hs).1, (readBlob_some hs).2, ?_⟩
  unfold controller.Ensure
  rw [manager_Get_nil w hf]
  simp only [hs]
  rfl

theorem ensure_existing_returns_id_witness :
    ∃ stored, stored ∈ oneBlobWorld.db.blob ∧ stored.Digest = "d" ∧
      controller.Ensure oneBlobWorld { Digest := "d", ContentType := "other", Size := 99 }
        = (.ok stored.ID, oneBlobWorld) :=
  ensure_existing_returns_id oneBlobWorld "d" "other" 99 ⟨7, "d", "text", 10, 3⟩ rfl (by decide) rfl

theorem manager_Create_nil (w : World) (h : w.faults = []) (d ct : String) (sz : Int) :
    manager.Create w d ct sz =
      (.ok (orm.InsertOrUpdateBlob w.db ⟨0, d, ct, sz, w.now⟩).1,
        { db := (orm.InsertOrUpdateBlob w.db ⟨0, d, ct, sz, w.now⟩).2,
          faults := [], now := w.now + 1 }) := by
  unfold manager.Create dao.CreateBlob
  rw [fault_nil w h]
  simp [World.timeNow, h]

theorem insertOrUpdateBlob_hit {db : DB} {row b : Blob}
    (h : orm.ReadBlob db row.Digest = some b) :
    orm.InsertOrUpdateBlob db row = (b.ID, db) := by
  unfold orm.ReadBlob at h
  unfold orm.InsertOrUpdateBlob
  rw [h]

theorem insertOrUpdateBlob_miss {db : DB} {row : Blob}
    (h : orm.ReadBlob db row.Digest = none) :
    orm.InsertOrUpdateBlob db row =
      (db.blobSeq + 1,
        { db with blob := db.blob ++ [{ row with ID := db.blobSeq + 1 }],
                  blobSeq := db.blobSeq + 1 }) := by
  unfold orm.ReadBlob at h
  unfold orm.InsertOrUpdateBlob
  rw [h]

theorem blobCount_pos_of_read {db : DB} {d : String} {b : Blob}
    (h : orm.ReadBlob db d = some b) : 1 ≤ blobCount db d := by
  unfold blobCount
  have hm : b ∈ db.blob.filter (fun b => b.Digest == d) := by
    rw [List.mem_filter]
    exact ⟨(readBlob_some h).1, by simp [(readBlob_some h).2]⟩
  exact List.length_pos_of_mem hm

theorem blobCount_zero_of_read {db : DB} {d : String}
    (h : orm.ReadBlob db d = none) : blobCount db d = 0 := by
  unfold blobCount
  rw [List.length_eq_zero, List.filter_eq_nil_iff]
  intro b hb
  simpa using readBlob_none.mp h b hb

/-- The two steps of a thread, taken back to back, are a call of `Ensure`. -/
theorem ensureStep_twice (w : World) (p : EnsureParams) :
    ensureStep p (ensureStep p .start w).1 (ensureStep p .start w).2
      = (.done (controller.Ensure w p).1, (controller.Ensure w p).2) := by
  unfold controller.Ensure
  simp only [ensureStep]
  rcases hg : manager.Get w p.Digest with ⟨r, w1⟩
  cases r with
  | ok blob => simp [ensureStep]
  | error e =>
    by_cases hn : IsNotFoundErr e <;> simp [hn, ensureStep]

theorem ensureStep_stepsLeft (p : EnsureParams) (t : EnsureThread) (w : World) :
    (ensureStep p t w).1.stepsLeft ≤ t.stepsLeft - 1 := by
  cases t with
  | start =>
    simp only [ensureStep]
    rcases hg : manager.Get w p.Digest with ⟨r, w1⟩
    cases r with
    | ok blob => simp [EnsureThread.stepsLeft]
    | error e => by_cases hn : IsNotFoundErr e <;> simp [hn, EnsureThread.stepsLeft]
  | creating => simp [ensureStep, EnsureThread.stepsLeft]
  | done r => simp [ensureStep, EnsureThread.stepsLeft]

theorem readBlob_after_miss {db : DB} {row : Blob}
    (h : orm.ReadBlob db row.Digest = none) :
    orm.ReadBlob (orm.InsertOrUpdateBlob db row).2 row.Digest
      = some { row with ID := db.blobSeq + 1 } := by
  rw [insertOrUpdateBlob_miss h]
  unfold orm.ReadBlob at h ⊢
  simp [List.find?_append, h]

theorem blobCount_after_miss {db : DB} {row : Blob}
    (h : orm.ReadBlob db row.Digest = none) :
    blobCount (orm.InsertOrUpdateBlob db row).2 row.Digest = 1 := by
  have h0 := blobCount_zero_of_read h
  rw [insertOrUpdateBlob_miss h]
  unfold blobCount at h0 ⊢
  simp [List.filter_append, h0]

theorem ensureStep_inv (p : EnsureParams) (t : EnsureThread) (w : World)
    (hf : w.faults = []) (hu : blobCount w.db p.Digest ≤ 1) :
    (ensureStep p t w).2.faults = [] ∧
    blobCount (ensureStep p t w).2.db p.Digest ≤ 1 ∧
    (t.agrees p.Digest w.db →
      (ensureStep p t w).1.agrees p.Digest (ensureStep p t w).2.db) ∧
    (∀ t2 : EnsureThread, t2.agrees p.Digest w.db →
      t2.agrees p.Digest (ensureStep p t w).2.db) := by
  cases t with
  | start =>
    simp only [ensureStep]
    rw [manager_Get_nil w hf]
    cases hr : orm.ReadBlob w.db p.Digest with
    | some b =>
      refine ⟨hf, hu, fun _ => ?_, fun t2 h2 => h2⟩
      exact ⟨b, hr, rfl⟩
    | none =>
      refine ⟨hf, hu, fun _ => ?_, fun t2 h2 => h2⟩
      simp [IsNotFoundErr, EnsureThread.agrees]
  | creating =>
    simp only [ensureStep]
    rw [manager_Create_nil w hf]
    cases hr : orm.ReadBlob w.db p.Digest with
    | some b =>
      have hhit : orm.InsertOrUpdateBlob w.db ⟨0, p.Digest, p.ContentType, p.Size, w.now⟩
          = (b.ID, w.db) := insertOrUpdateBlob_hit hr
      rw [hhit]
      refine ⟨rfl, hu, fun _ => ?_, fun t2 h2 => h2⟩
      exact ⟨b, hr, rfl⟩
    | none =>
      have hrow : orm.ReadBlob w.db
          (⟨0, p.Digest, p.ContentType, p.Size, w.now⟩ : Blob).Digest = none := hr
      refine ⟨rfl, ?_, fun _ => ?_, fun t2 h2 => ?_⟩
      · exact le_of_eq (blobCount_after_miss hrow)
      · exact ⟨_, readBlob_after_miss hrow, by rw [insertOrUpdateBlob_miss hrow]⟩
      · cases t2 with
        | start => trivial
        | creating => trivial
        | done r =>
          obtain ⟨b, hb, _⟩ := h2
          rw [hr] at hb
          exact absurd hb (by simp)
  | done r =>
    exact ⟨hf, hu, fun h => h, fun t2 h2 => h2⟩

theorem runSchedule_inv (p : EnsureParams) (s : List Bool) (st : EnsurePair)
    (hf : st.world.faults = []) (hu : blobCount st.world.db p.Digest ≤ 1)
    (h1 : st.first.agrees p.Digest st.world.db)
    (h2 : st.second.agrees p.Digest st.world.db) :
    (runSchedule p p s st).world.faults = [] ∧
    blobCount (runSchedule p p s st).world.db p.Digest ≤ 1 ∧
    (runSchedule p p s st).first.agrees p.Digest (runSchedule p p s st).world.db ∧
    (runSchedule p p s st).second.agrees p.Digest (runSchedule p p s st).world.db := by
  induction s generalizing st with
  | nil => exact ⟨hf, hu, h1, h2⟩
  | cons b rest ih =>
    cases b with
    | true =>
      obtain ⟨a1, a2, a3, a4⟩ := ensureStep_inv p st.first st.world hf hu
      exact ih _ a1 a2 (a3 h1) (a4 _ h2)
    | false =>
      obtain ⟨a1, a2, a3, a4⟩ := ensureStep_inv p st.second st.world hf hu
      exact ih _ a1 a2 (a4 _ h1) (a3 h2)

theorem runSchedule_stepsLeft (p : EnsureParams) (s : List Bool) (st : EnsurePair) :
    (runSchedule p p s st).first.stepsLeft ≤ st.first.stepsLeft - s.count true ∧
    (runSchedule p p s st).second.stepsLeft ≤ st.second.stepsLeft - s.count false := by
  induction s generalizing st with
  | nil => simp [runSchedule]
  | cons b rest ih =>
    cases b with
    | true =>
      have hs := ensureStep_stepsLeft p st.first st.world
      have := ih { st with first := (ensureStep p st.first st.world).1,
                           world := (ensureStep p st.first st.world).2 }
      simp only [runSchedule, List.count_cons] at this ⊢
      simp at this ⊢
      omega
    | false =>
      have hs := ensureStep_stepsLeft p st.second st.world
      have := ih { st with second := (ensureStep p st.second st.world).1,
                           world := (ensureStep p st.second st.world).2 }
      simp only [runSchedule, List.count_cons] at this ⊢
      simp at this ⊢
      omega

theorem stepsLeft_zero {t : EnsureThread} (h : t.stepsLeft = 0) : ∃ r, t = .done r := by
  cases t with
  | start => simp [EnsureThread.stepsLeft] at h
  | creating => simp [EnsureThread.stepsLeft] at h
  | done r => exact ⟨r, rfl⟩

/-- C2: two calls `Ensure(d, ct, sz)` with the same arguments run concurrently
over a ledger with at most one row for `d`, on a store that does not fail and
whose creation keeps the persisted row on a digest conflict. Whatever the
interleaving of their lookup and creation steps (every schedule that gives
each call its two steps), both calls return, they return the same id, and the
ledger then holds exactly one row with digest `d`. -/
theorem ensure_twice_concurrently (w : World) (p : EnsureParams) (s : List Bool)
    (hf : w.faults = []) (hu : blobCount w.db p.Digest ≤ 1)
    (h1 : 2 ≤ s.count true) (h2 : 2 ≤ s.count false) :
    ∃ id : Int,
      (runSchedule p p s ⟨.start, .start, w⟩).first = .done (.ok id) ∧
      (runSchedule p p s ⟨.start, .start, w⟩).second = .done (.ok id) ∧
      blobCount (runSchedule p p s ⟨.start, .start, w⟩).world.db p.Digest = 1 := by
  obtain ⟨_, hc, a1, a2⟩ :=
    runSchedule_inv p s ⟨.start, .start, w⟩ hf hu trivial trivial
  have hl := runSchedule_stepsLeft p s ⟨.start, .start, w⟩
  have l1 : (runSchedule p p s ⟨.start, .start, w⟩).first.stepsLeft ≤ 2 - s.count true := hl.1
  have l2 : (runSchedule p p s ⟨.start, .start, w⟩).second.stepsLeft ≤ 2 - s.count false := hl.2
  obtain ⟨r1, e1⟩ := stepsLeft_zero (t := (runSchedule p p s ⟨.start, .start, w⟩).first) (by omega)
  obtain ⟨r2, e2⟩ := stepsLeft_zero (t := (runSchedule p p s ⟨.start, .start, w⟩).second) (by omega)
  rw [e1] at a1
  rw [e2] at a2
  obtain ⟨b1, hb1, hr1⟩ := a1
  obtain ⟨b2, hb2, hr2⟩ := a2
  rw [hb1] at hb2
  have hb : b1 = b2 := Option.some.inj hb2
  refine ⟨b1.ID, ?_, ?_, ?_⟩
  · rw [e1, hr1]
  · rw [e2, hr2, hb]
  · exact le_antisymm hc (blobCount_pos_of_read hb1)

theorem ensure_twice_concurrently_witness :
    ∃ id : Int,
      (runSchedule ⟨"ct", "d", 3⟩ ⟨"ct", "d", 3⟩ [true, false, false, true]
        ⟨.start, .start, emptyWorld⟩).first = .done (.ok id) ∧
      (runSchedule ⟨"ct", "d", 3⟩ ⟨"ct", "d", 3⟩ [true, false, false, true]
        ⟨.start, .start, emptyWorld⟩).second = .done (.ok id) ∧
      blobCount (runSchedule ⟨"ct", "d", 3⟩ ⟨"ct", "d", 3⟩ [true, false, false, true]
        ⟨.start, .start, emptyWorld⟩).world.db "d" = 1 :=
  ensure_twice_concurrently emptyWorld ⟨"ct", "d", 3⟩ [true, false, false, true]
    rfl (by decide) (by decide) (by decide)

/-! ## At most one row per digest -/

theorem fault_db (w : World) : w.fault.2.db = w.db := by
  unfold World.fault
  cases w.faults <;> rfl

theorem wellFormed_of_keys {db db2 : DB} (hk : blobKeys db2 = blobKeys db)
    (hs : db2.blobSeq = db.blobSeq) (h : db.wellFormed) : db2.wellFormed := by
  unfold DB.wellFormed at h ⊢
  rw [hk, hs]
  exact h

theorem insertOrUpdateBlob_wellFormed (db : DB) (row : Blob) (h : db.wellFormed) :
    (orm.InsertOrUpdateBlob db row).2.wellFormed := by
  cases hr : orm.ReadBlob db row.Digest with
  | some b => rw [insertOrUpdateBlob_hit hr]; exact h
  | none =>
    rw [insertOrUpdateBlob_miss hr]
    obtain ⟨h1, h2, h3⟩ := h
    have hno := readBlob_none.mp hr
    unfold DB.wellFormed blobKeys at *
    simp only [List.map_append, List.map_map, List.map_cons, List.map_nil] at h1 h2 h3 ⊢
    refine ⟨?_, ?_, ?_⟩
    · rw [List.nodup_append]
      refine ⟨h1, List.nodup_singleton _, ?_⟩
      intro x hx hx2
      rw [List.mem_singleton] at hx2
      subst hx2
      rw [List.mem_map] at hx
      obtain ⟨b, hb, hbe⟩ := hx
      have := h3 (b.ID, b.Digest) (List.mem_map.mpr ⟨b, hb, rfl⟩)
      simp only [Function.comp] at hbe
      simp only at this
      omega
    · rw [List.nodup_append]
      refine ⟨h2, List.nodup_singleton _, ?_⟩
      intro x hx hx2
      rw [List.mem_singleton] at hx2
      subst hx2
      rw [List.mem_map] at hx
      obtain ⟨b, hb, hbe⟩ := hx
      exact hno b hb hbe
    · intro k hk
      rw [List.mem_append] at hk
      rcases hk with hk | hk
      · have := h3 k hk
        show k.1 ≤ db.blobSeq + 1
        omega
      · rw [List.mem_singleton] at hk
        subst hk
        simp

theorem sameBlobs_refl (db : DB) : sameBlobs db db := ⟨rfl, rfl⟩

theorem sameBlobs_of_eq {db db2 : DB} (h : db2 = db) : sameBlobs db db2 := by
  rw [h]; exact sameBlobs_refl db

theorem sameBlobs_trans {a b c : DB} (h1 : sameBlobs a b) (h2 : sameBlobs b c) :
    sameBlobs a c :=
  ⟨h2.1.trans h1.1, h2.2.trans h1.2⟩

theorem sameBlobs_wellFormed {db db2 : DB} (h : sameBlobs db db2) (hw : db.wellFormed) :
    db2.wellFormed :=
  wellFormed_of_keys h.1 h.2 hw

theorem createBlob_wellFormed (w : World) (row : Blob) (h : w.db.wellFormed) :
    (dao.CreateBlob w row).2.db.wellFormed := by
  unfold dao.CreateBlob
  have hd := fault_db w
  rcases hfl : w.fault with ⟨f, w1⟩
  rw [hfl] at hd
  simp only at hd
  cases f with
  | some e => simpa [hd] using h
  | none =>
    simp only [World.timeNow]
    rw [hd]
    exact insertOrUpdateBlob_wellFormed _ _ h

theorem getBlobByDigest_db (w : World) (d : String) :
    (dao.GetBlobByDigest w d).2.db = w.db := by
  unfold dao.GetBlobByDigest
  have hd := fault_db w
  rcases hfl : w.fault with ⟨f, w1⟩
  rw [hfl] at hd
  simp only at hd
  cases f with
  | some e => exact hd
  | none => cases hr : orm.ReadBlob w1.db d <;> simp only [hr] <;> exact hd

theorem getBlobByDigest_ok {w w1 : World} {d : String} {b : Blob}
    (h : dao.GetBlobByDigest w d = (.ok b, w1)) : b ∈ w.db.blob ∧ b.Digest = d := by
  unfold dao.GetBlobByDigest at h
  have hd := fault_db w
  rcases hfl : w.fault with ⟨f, w2⟩
  rw [hfl] at hd h
  simp only at hd
  cases f with
  | some e => simp at h
  | none =>
    simp only at h
    cases hr : orm.ReadBlob w2.db d with
    | none => rw [hr] at h; simp at h
    | some s =>
      rw [hr] at h
      simp only [Prod.mk.injEq, Except.ok.injEq] at h
      rw [hd] at hr
      rw [← h.1]
      exact readBlob_some hr

theorem manager_Get_db (w : World) (d : String) : (manager.Get w d).2.db = w.db := by
  unfold manager.Get
  have := getBlobByDigest_db w d
  rcases hg : dao.GetBlobByDigest w d with ⟨r, w1⟩
  rw [hg] at this
  cases r <;> exact this

theorem manager_Get_ok {w w1 : World} {d : String} {blob : Blob}
    (h : manager.Get w d = (.ok blob, w1)) :
    ∃ b, b ∈ w.db.blob ∧ b.Digest = d ∧ blob = manager.toBlob b := by
  unfold manager.Get at h
  rcases hg : dao.GetBlobByDigest w d with ⟨r, w2⟩
  rw [hg] at h
  cases r with
  | error e => simp at h
  | ok b =>
    simp only [Prod.mk.injEq, Except.ok.injEq] at h
    exact ⟨b, (getBlobByDigest_ok hg).1, (getBlobByDigest_ok hg).2, h.1.symm⟩

theorem manager_Create_wellFormed (w : World) (d ct : String) (sz : Int)
    (h : w.db.wellFormed) : (manager.Create w d ct sz).2.db.wellFormed :=
  createBlob_wellFormed w _ h

theorem listBlobs_db (w : World) (q : Option (List String)) :
    (dao.ListBlobs w q).2.db = w.db := by
  unfold dao.ListBlobs
  have hd := fault_db w
  rcases hfl : w.fault with ⟨f, w1⟩
  rw [hfl] at hd
  simp only at hd
  cases f <;> exact hd

theorem listBlobs_ok {w w1 : World} {q : Option (List String)} {blobs : List Blob}
    (h : dao.ListBlobs w q = (.ok blobs, w1)) : ∀ b ∈ blobs, b ∈ w.db.blob := by
  unfold dao.ListBlobs at h
  have hd := fault_db w
  rcases hfl : w.fault with ⟨f, w2⟩
  rw [hfl] at hd h
  simp only at hd
  cases f with
  | some e => simp at h
  | none =>
    simp only [Prod.mk.injEq, Except.ok.injEq] at h
    intro b hb
    rw [← h.1, hd] at hb
    unfold orm.AllBlobs at hb
    cases q with
    | none => exact hb
    | some ds => exact (List.mem_filter.mp hb).1

theorem manager_List_db (w : World) (ds : Digests) : (manager.List w ds).2.db = w.db := by
  unfold manager.List
  simp only
  have := listBlobs_db w (if ds.length > 0 then some ds else none)
  rcases hg : dao.ListBlobs w (if ds.length > 0 then some ds else none) with ⟨r, w1⟩
  rw [hg] at this
  cases r <;> exact this

theorem manager_List_ok {w w1 : World} {ds : Digests} {blobs : Blobs}
    (h : manager.List w ds = (.ok blobs, w1)) :
    ∀ b ∈ blobs, (b.ID, b.Digest) ∈ blobKeys w.db := by
  unfold manager.List at h
  simp only at h
  rcases hg : dao.ListBlobs w (if ds.length > 0 then some ds else none) with ⟨r, w2⟩
  rw [hg] at h
  cases r with
  | error e => simp at h
  | ok rows =>
    simp only [Prod.mk.injEq, Except.ok.injEq] at h
    intro b hb
    rw [← h.1, List.mem_map] at hb
    obtain ⟨r, hr, hrb⟩ := hb
    rw [← hrb]
    exact List.mem_map.mpr ⟨r, listBlobs_ok hg r hr, rfl⟩

theorem getArtifactAndBlob_db (w : World) (a d : String) :
    (dao.GetArtifactAndBlob w a d).2.db = w.db := by
  unfold dao.GetArtifactAndBlob
  have hd := fault_db w
  rcases hfl : w.fault with ⟨f, w1⟩
  rw [hfl] at hd
  simp only at hd
  cases f with
  | some e => exact hd
  | none => cases hr : orm.ReadArtifactAndBlob w1.db a d <;> simp only [hr] <;> exact hd

theorem isAttachedToArtifact_db (w : World) (d a : String) :
    (manager.IsAttachedToArtifact w d a).2.db = w.db := by
  unfold manager.IsAttachedToArtifact
  have := getArtifactAndBlob_db w a d
  rcases hg : dao.GetArtifactAndBlob w a d with ⟨r, w1⟩
  rw [hg] at this
  cases r with
  | ok md => exact this
  | error e => by_cases hn : IsNotFoundErr e <;> simp [hn] <;> exact this

theorem isAttachedToProject_db (w : World) (d : String) (p : Int) :
    (manager.IsAttachedToProject w d p).2.db = w.db := by
  unfold manager.IsAttachedToProject dao.ExistProjectBlob
  have hd := fault_db w
  rcases hfl : w.fault with ⟨f, w1⟩
  rw [hfl] at hd
  simp only at hd
  cases f <;> exact hd

theorem insertOrUpdateArtifactAndBlob_blob (db : DB) (row : ArtifactAndBlob) :
    (orm.InsertOrUpdateArtifactAndBlob db row).2.blob = db.blob ∧
    (orm.InsertOrUpdateArtifactAndBlob db row).2.blobSeq = db.blobSeq ∧
    (orm.InsertOrUpdateArtifactAndBlob db row).2.projectBlob = db.projectBlob ∧
    (orm.InsertOrUpdateArtifactAndBlob db row).2.projectBlobSeq = db.projectBlobSeq := by
  unfold orm.InsertOrUpdateArtifactAndBlob
  split <;> simp

theorem insertOrUpdateProjectBlob_blob (db : DB) (row : ProjectBlob) :
    (orm.InsertOrUpdateProjectBlob db row).2.blob = db.blob ∧
    (orm.InsertOrUpdateProjectBlob db row).2.blobSeq = db.blobSeq ∧
    (orm.InsertOrUpdateProjectBlob db row).2.artifactBlob = db.artifactBlob ∧
    (orm.InsertOrUpdateProjectBlob db row).2.artifactBlobSeq = db.artifactBlobSeq := by
  unfold orm.InsertOrUpdateProjectBlob
  split <;> simp

theorem manager_AttachToArtifact_blob (w : World) (d a : String) :
    (manager.AttachToArtifact w d a).2.db.blob = w.db.blob ∧
    (manager.AttachToArtifact w d a).2.db.blobSeq = w.db.blobSeq ∧
    (manager.AttachToArtifact w d a).2.db.projectBlob = w.db.projectBlob ∧
    (manager.AttachToArtifact w d a).2.db.projectBlobSeq = w.db.projectBlobSeq := by
  unfold manager.AttachToArtifact dao.CreateArtifactAndBlob
  have hd := fault_db w
  rcases hfl : w.fault with ⟨f, w1⟩
  rw [hfl] at hd
  simp only at hd
  cases f with
  | some e => simp [hd]
  | none =>
    simp only [World.timeNow]
    rw [← hd]
    exact insertOrUpdateArtifactAndBlob_blob _ _

theorem manager_AttachToProject_blob (w : World) (b p : Int) :
    (manager.AttachToProject w b p).2.db.blob = w.db.blob ∧
    (manager.AttachToProject w b p).2.db.blobSeq = w.db.blobSeq ∧
    (manager.AttachToProject w b p).2.db.artifactBlob = w.db.artifactBlob ∧
    (manager.AttachToProject w b p).2.db.artifactBlobSeq = w.db.artifactBlobSeq := by
  unfold manager.AttachToProject dao.CreateProjectBlob
  have hd := fault_db w
  rcases hfl : w.fault with ⟨f, w1⟩
  rw [hfl] at hd
  simp only at hd
  cases f with
  | some e => simp [hd]
  | none =>
    simp only [World.timeNow]
    rw [← hd]
    exact insertOrUpdateProjectBlob_blob _ _

theorem sameBlobs_of_blob {db db2 : DB} (h1 : db2.blob = db.blob)
    (h2 : db2.blobSeq = db.blobSeq) : sameBlobs db db2 := by
  unfold sameBlobs blobKeys
  rw [h1, h2]
  exact ⟨rfl, rfl⟩

theorem attachBlobs_sameBlobs (a : String) (ds : List String) (w : World) :
    sameBlobs w.db (controller.attachBlobs a ds w).2.db := by
  induction ds generalizing w with
  | nil => exact sameBlobs_refl _
  | cons d rest ih =>
    unfold controller.attachBlobs
    have h := manager_AttachToArtifact_blob w d a
    rcases hg : manager.AttachToArtifact w d a with ⟨r, w1⟩
    rw [hg] at h
    cases r with
    | error e => exact sameBlobs_of_blob h.1 h.2.1
    | ok id => exact sameBlobs_trans (sameBlobs_of_blob h.1 h.2.1) (ih w1)

theorem AttachToArtifact_sameBlobs (w : World) (params : AttachToArtifactParams) :
    sameBlobs w.db (controller.AttachToArtifact w params).2.db := by
  unfold controller.AttachToArtifact
  have h0 := isAttachedToArtifact_db w params.ArtifactDigest params.ArtifactDigest
  rcases hg : manager.IsAttachedToArtifact w params.ArtifactDigest params.ArtifactDigest
    with ⟨r, w1⟩
  rw [hg] at h0
  simp only at h0
  cases r with
  | error e => exact sameBlobs_of_eq h0
  | ok exist =>
    cases exist with
    | true => exact sameBlobs_of_eq h0
    | false =>
      simp only [Bool.false_eq_true, if_false]
      have h1 := attachBlobs_sameBlobs params.ArtifactDigest params.BlobDigests w1
      rcases hl : controller.attachBlobs params.ArtifactDigest params.BlobDigests w1
        with ⟨r2, w2⟩
      rw [hl] at h1
      simp only at h1
      have h01 : sameBlobs w.db w2.db := sameBlobs_trans (sameBlobs_of_eq h0) h1
      cases r2 with
      | error e => exact h01
      | ok u =>
        dsimp only
        have h2 := manager_AttachToArtifact_blob w2 params.ArtifactDigest params.ArtifactDigest
        rcases hm : manager.AttachToArtifact w2 params.ArtifactDigest params.ArtifactDigest
          with ⟨r3, w3⟩
        rw [hm] at h2
        have h23 : sameBlobs w2.db w3.db := sameBlobs_of_blob h2.1 h2.2.1
        cases r3 <;> exact sameBlobs_trans h01 h23

theorem attachBlobID_sameBlobs (w : World) (b p : Int) :
    sameBlobs w.db (controller.attachBlobID w b p).2.db := by
  unfold controller.attachBlobID
  have h := manager_AttachToProject_blob w b p
  rcases hg : manager.AttachToProject w b p with ⟨r, w1⟩
  rw [hg] at h
  cases r <;> exact sameBlobs_of_blob h.1 h.2.1

theorem AttachToProject_sameBlobs (w : World) (params : AttachToProjectParams) :
    sameBlobs w.db (controller.AttachToProject w params).2.db := by
  unfold controller.AttachToProject
  split
  · exact sameBlobs_refl _
  · split
    · have h := manager_Get_db w params.Digest
      rcases hg : manager.Get w params.Digest with ⟨r, w1⟩
      rw [hg] at h
      simp only at h
      cases r with
      | error e => exact sameBlobs_of_eq h
      | ok blob =>
        exact sameBlobs_trans (sameBlobs_of_eq h) (attachBlobID_sameBlobs w1 _ _)
    · exact attachBlobID_sameBlobs w _ _

theorem Ensure_wellFormed (w : World) (params : EnsureParams) (h : w.db.wellFormed) :
    (controller.Ensure w params).2.db.wellFormed := by
  unfold controller.Ensure
  have hg := manager_Get_db w params.Digest
  rcases hm : manager.Get w params.Digest with ⟨r, w1⟩
  rw [hm] at hg
  simp only at hg
  cases r with
  | ok blob => simpa [hg] using h
  | error e =>
    by_cases hn : IsNotFoundErr e
    · simp only [hn, Bool.not_true, Bool.false_eq_true, if_false]
      exact manager_Create_wellFormed w1 _ _ _ (by rw [hg]; exact h)
    · simp only [hn, Bool.not_false, if_true]
      rw [hg]; exact h

theorem updateBlob_sameBlobs (db : DB) (u : Blob)
    (hid : ((blobKeys db).map Prod.fst).Nodup) (hk : (u.ID, u.Digest) ∈ blobKeys db) :
    sameBlobs db (orm.UpdateBlob db u) := by
  refine ⟨?_, rfl⟩
  unfold blobKeys at hid hk ⊢
  obtain ⟨r, hr, hru⟩ := List.mem_map.mp hk
  simp only [Prod.mk.injEq] at hru
  unfold orm.UpdateBlob
  simp only [List.map_map]
  apply List.map_congr_left
  intro b hb
  simp only [Function.comp]
  by_cases hbu : b.ID = u.ID
  · rw [if_pos hbu]
    rw [List.map_map] at hid
    have hinj := List.inj_on_of_nodup_map hid hb hr (by simp [hbu, hru.1])
    have hd : u.Digest = b.Digest := by rw [hinj]; exact hru.2.symm
    unfold UpdateColumns.write
    cases db.updateColumns.digest <;> simp [hd]
  · rw [if_neg hbu]

theorem manager_Update_sameBlobs (w : World) (u : Blob)
    (hid : ((blobKeys w.db).map Prod.fst).Nodup) (hk : (u.ID, u.Digest) ∈ blobKeys w.db) :
    sameBlobs w.db (manager.Update w u).2.db := by
  unfold manager.Update dao.UpdateBlob
  have hd := fault_db w
  rcases hfl : w.fault with ⟨f, w1⟩
  rw [hfl] at hd
  simp only at hd
  cases f with
  | some e => exact sameBlobs_of_eq hd
  | none =>
    simp only
    rw [hd]
    exact updateBlob_sameBlobs w.db _ hid hk

theorem updateBlobs_sameBlobs (us : List Blob) (w : World)
    (hid : ((blobKeys w.db).map Prod.fst).Nodup)
    (hk : ∀ u ∈ us, (u.ID, u.Digest) ∈ blobKeys w.db) :
    sameBlobs w.db (controller.updateBlobs us w).2.db := by
  induction us generalizing w with
  | nil => exact sameBlobs_refl _
  | cons u rest ih =>
    unfold controller.updateBlobs
    have h := manager_Update_sameBlobs w u hid (hk u (List.mem_cons_self _ _))
    rcases hg : manager.Update w u with ⟨r, w1⟩
    rw [hg] at h
    simp only at h
    cases r with
    | error e => exact h
    | ok x =>
      refine sameBlobs_trans h (ih w1 ?_ ?_)
      · rw [h.1]; exact hid
      · intro v hv
        rw [h.1]
        exact hk v (List.mem_cons_of_mem _ hv)

theorem withTransaction_sameBlobs (f : World → Except Err Unit × World) (w : World)
    (h : sameBlobs w.db (f w).2.db) : sameBlobs w.db (orm.WithTransaction f w).2.db := by
  unfold orm.WithTransaction
  rcases hg : f w with ⟨r, w1⟩
  rw [hg] at h
  cases r with
  | error e => exact sameBlobs_refl _
  | ok u => exact h

theorem buildMap_values (Q : Blob → Prop) (blobs : List Blob) (init : controller.BlobMap)
    (hi : ∀ k b, init k = some b → Q b) (hb : ∀ b ∈ blobs, Q b) :
    ∀ k b,
      blobs.foldl (fun mp blob => fun k => if k = blob.Digest then some blob else mp k) init k
        = some b → Q b := by
  induction blobs generalizing init with
  | nil => exact hi
  | cons x rest ih =>
    simp only [List.foldl_cons]
    apply ih
    · intro k b hkb
      by_cases hkx : k = x.Digest
      · rw [if_pos hkx] at hkb
        rw [← Option.some.inj hkb]
        exact hb x (List.mem_cons_self _ _)
      · rw [if_neg hkx] at hkb
        exact hi k b hkb
    · intro b hbr
      exact hb b (List.mem_cons_of_mem _ hbr)

theorem planStep_values (Q : Int × String → Prop) (st : controller.SyncPlan) (r : Descriptor)
    (h : ∀ k b, st.mp k = some b → Q (b.ID, b.Digest)) :
    ∀ k b, (controller.planStep st r).mp k = some b → Q (b.ID, b.Digest) := by
  unfold controller.planStep
  cases hm : st.mp r.Digest with
  | none => exact h
  | some exist =>
    simp only
    split
    · intro k b hkb
      simp only at hkb
      by_cases hk : k = r.Digest
      · rw [if_pos hk] at hkb
        have hq := h _ _ hm
        rw [← Option.some.inj hkb]
        exact hq
      · rw [if_neg hk] at hkb
        exact h k b hkb
    · exact h

theorem plan_values (Q : Int × String → Prop) (refs : List Descriptor)
    (st : controller.SyncPlan) (h : ∀ k b, st.mp k = some b → Q (b.ID, b.Digest)) :
    ∀ k b, (refs.foldl controller.planStep st).mp k = some b → Q (b.ID, b.Digest) := by
  induction refs generalizing st with
  | nil => exact h
  | cons r rest ih =>
    simp only [List.foldl_cons]
    exact ih _ (planStep_values Q st r h)

theorem createBlobs_wellFormed (bs : List Blob) (w : World) (h : w.db.wellFormed) :
    (controller.createBlobs bs w).2.db.wellFormed := by
  induction bs generalizing w with
  | nil => exact h
  | cons b rest ih =>
    unfold controller.createBlobs
    have hc := manager_Create_wellFormed w b.Digest b.ContentType b.Size h
    rcases hg : manager.Create w b.Digest b.ContentType b.Size with ⟨r, w1⟩
    rw [hg] at hc
    cases r with
    | error e => exact hc
    | ok id => exact ih w1 hc

theorem Sync_wellFormed (w : World) (params : SyncParams) (h : w.db.wellFormed) :
    (controller.Sync w params).2.db.wellFormed := by
  unfold controller.Sync
  split
  · exact h
  · dsimp only
    generalize hg : manager.List w _ = res
    have hl := manager_List_db w (params.References.map (fun reference => reference.Digest))
    rw [hg] at hl
    obtain ⟨r, w1⟩ := res
    simp only at hl
    cases r with
    | error e => simpa [hl] using h
    | ok blobs =>
      simp only
      have hw1 : w1.db.wellFormed := by rw [hl]; exact h
      have hkeys : ∀ b ∈ blobs, (b.ID, b.Digest) ∈ blobKeys w1.db := by
        rw [hl]; exact manager_List_ok hg
      have hmp := plan_values (fun k => k ∈ blobKeys w1.db) params.References
        { mp := controller.buildMap blobs, missing := [], updating := [] }
        (buildMap_values (fun b => (b.ID, b.Digest) ∈ blobKeys w1.db) blobs (fun _ => none)
          (by intro k b hkb; simp at hkb) hkeys)
      have hup : ∀ u ∈ List.filterMap
          (params.References.foldl controller.planStep
            { mp := controller.buildMap blobs, missing := [], updating := [] }).mp
          (params.References.foldl controller.planStep
            { mp := controller.buildMap blobs, missing := [], updating := [] }).updating,
          (u.ID, u.Digest) ∈ blobKeys w1.db := by
        intro u hu
        obtain ⟨k, _, hku⟩ := List.mem_filterMap.mp hu
        exact hmp k u hku
      have hw2 : (if (List.filterMap
          (params.References.foldl controller.planStep
            { mp := controller.buildMap blobs, missing := [], updating := [] }).mp
          (params.References.foldl controller.planStep
            { mp := controller.buildMap blobs, missing := [], updating := [] }).updating).length > 0
          then (orm.WithTransaction (controller.updateBlobs (List.filterMap
          (params.References.foldl controller.planStep
            { mp := controller.buildMap blobs, missing := [], updating := [] }).mp
          (params.References.foldl controller.planStep
            { mp := controller.buildMap blobs, missing := [], updating := [] }).updating)) w1).2
          else w1).db.wellFormed := by
        split
        · exact sameBlobs_wellFormed
            (withTransaction_sameBlobs _ w1 (updateBlobs_sameBlobs _ w1 hw1.1 hup)) hw1
        · exact hw1
      split
      · exact createBlobs_wellFormed _ _ hw2
      · exact hw2

theorem Call_run_wellFormed (c : Call) (w : World) (h : w.db.wellFormed) :
    (c.run w).db.wellFormed := by
  cases c with
  | ensure params => exact Ensure_wellFormed w params h
  | sync params => exact Sync_wellFormed w params h
  | attachToArtifact params =>
    exact sameBlobs_wellFormed (AttachToArtifact_sameBlobs w params) h
  | attachToProject params =>
    exact sameBlobs_wellFormed (AttachToProject_sameBlobs w params) h

theorem runCalls_wellFormed (calls : List Call) (w : World) (h : w.db.wellFormed) :
    (runCalls calls w).db.wellFormed := by
  unfold runCalls
  induction calls generalizing w with
  | nil => exact h
  | cons c rest ih =>
    simp only [List.foldl_cons]
    exact ih _ (Call_run_wellFormed c w h)

theorem empty_wellFormed : DB.empty.wellFormed := by
  unfold DB.wellFormed blobKeys DB.empty
  simp

theorem blobCount_eq_count (l : List Blob) (d : String) :
    (l.filter (fun b => b.Digest == d)).length = (l.map (fun b => b.Digest)).count d := by
  induction l with
  | nil => rfl
  | cons x rest ih =>
    by_cases hx : x.Digest = d
    · simp [List.filter_cons, hx, ih]
    · have hx2 : ¬ (x.Digest == d) = true := by simpa using hx
      simp [List.filter_cons, hx, ih, List.count_cons]

theorem blobCount_le_one (db : DB) (h : db.wellFormed) (d : String) : blobCount db d ≤ 1 := by
  unfold blobCount
  rw [blobCount_eq_count]
  have h2 := h.2.1
  unfold blobKeys at h2
  rw [List.map_map] at h2
  exact List.nodup_iff_count_le_one.mp h2 d

theorem createBlob_collision (w : World) (row : Blob) (hf : w.fault.1 = none)
    (hc : ∃ b ∈ w.db.blob, b.Digest = row.Digest) :
    ∃ b ∈ w.db.blob, b.Digest = row.Digest ∧
      (dao.CreateBlob w row).1 = .ok b.ID ∧ (dao.CreateBlob w row).2.db = w.db := by
  obtain ⟨b0, hb0, hd0⟩ := hc
  obtain ⟨s, hs⟩ := readBlob_of_mem hb0 hd0
  refine ⟨s, (readBlob_some hs).1, (readBlob_some hs).2, ?_⟩
  unfold dao.CreateBlob
  have hd := fault_db w
  rcases hfl : w.fault with ⟨f, w1⟩
  rw [hfl] at hd hf
  simp only at hd hf
  subst hf
  simp only [World.timeNow]
  rw [hd]
  have hhit : orm.InsertOrUpdateBlob w.db { row with CreationTime := w1.now } = (s.ID, w.db) :=
    insertOrUpdateBlob_hit hs
  rw [hhit]
  exact ⟨rfl, rfl⟩

/-- C3: in every world reached from the empty ledger by any sequence of
`Ensure`, `Sync`, `AttachToArtifact` and `AttachToProject` calls, under any
schedule of persistence failures (a `Sync` whose reference list repeats a
digest included), table `blob` holds at most one row per digest; and a creation
whose digest is already stored, on a store call that is not itself failed by
the schedule, returns the id of the stored row with no error and no change of
the ledger. -/
theorem reachable_one_row_per_digest (calls : List Call) (faults : List (Option String))
    (now : Nat) :
    (∀ d : String, blobCount (reached calls faults now).db d ≤ 1) ∧
    (∀ row : Blob, (reached calls faults now).fault.1 = none →
      (∃ b ∈ (reached calls faults now).db.blob, b.Digest = row.Digest) →
      ∃ b ∈ (reached calls faults now).db.blob, b.Digest = row.Digest ∧
        (dao.CreateBlob (reached calls faults now) row).1 = .ok b.ID ∧
        (dao.CreateBlob (reached calls faults now) row).2.db = (reached calls faults now).db) := by
  refine ⟨fun d => ?_, fun row hf hc => createBlob_collision _ row hf hc⟩
  exact blobCount_le_one _ (runCalls_wellFormed calls _ empty_wellFormed) d

theorem reachable_one_row_per_digest_witness :
    blobCount (reached sampleCalls [] 1).db "d" = 1 ∧
    blobCount (reached sampleCalls [none, some "down"] 1).db "f" ≤ 1 ∧
    (dao.CreateBlob (reached sampleCalls [] 1) ⟨0, "f", "x", 5, 0⟩).1 = .ok 3 :=
  ⟨le_antisymm ((reachable_one_row_per_digest sampleCalls [] 1).1 "d") (by decide),
   (reachable_one_row_per_digest sampleCalls [none, some "down"] 1).1 "f",
   by decide⟩

/-! ## `Get` and `Exist` -/

theorem isAttachedToProject_nil (w : World) (hf : w.faults = []) (d : String) (p : Int) :
    ∃ found : Bool, manager.IsAttachedToProject w d p = (.ok found, w) ∧
      (found = true ↔ w.db.attachedToProject d p) := by
  unfold manager.IsAttachedToProject dao.ExistProjectBlob
  rw [fault_nil w hf]
  refine ⟨_, rfl, ?_⟩
  unfold DB.attachedToProject
  simp only [decide_eq_true_eq, gt_iff_lt]
  constructor
  · intro h
    obtain ⟨n, hn, hpos⟩ := List.exists_lt_of_sum_lt (l := w.db.projectBlob) (f := fun _ => 0)
      (g := fun pb => (w.db.blob.filter (fun b =>
          pb.BlobID == b.ID && pb.ProjectID == p && b.Digest == d)).length)
      (by simpa using h)
    refine ⟨n, hn, ?_⟩
    obtain ⟨b, hb⟩ := List.exists_mem_of_length_pos hpos
    rw [List.mem_filter] at hb
    refine ⟨b, hb.1, ?_⟩
    simpa [and_assoc] using hb.2
  · rintro ⟨pb, hpb, b, hb, h1, h2, h3⟩
    have hmem : b ∈ w.db.blob.filter (fun b =>
        pb.BlobID == b.ID && pb.ProjectID == p && b.Digest == d) := by
      rw [List.mem_filter]
      exact ⟨hb, by simp [h1, h2, h3]⟩
    have hlen := List.length_pos_of_mem hmem
    have hle := List.single_le_sum (l := w.db.projectBlob.map (fun pb =>
        (w.db.blob.filter (fun b =>
          pb.BlobID == b.ID && pb.ProjectID == p && b.Digest == d)).length))
      (fun x _ => Nat.zero_le x) _ (List.mem_map.mpr ⟨pb, hpb, rfl⟩)
    omega

theorem readArtifactAndBlob_isSome (db : DB) (a d : String) :
    (orm.ReadArtifactAndBlob db a d).isSome = true ↔ db.attachedToArtifact d a := by
  unfold orm.ReadArtifactAndBlob DB.attachedToArtifact
  rw [List.find?_isSome]
  simp

theorem isAttachedToArtifact_nil (w : World) (hf : w.faults = []) (d a : String) :
    ∃ found : Bool, manager.IsAttachedToArtifact w d a = (.ok found, w) ∧
      (found = true ↔ w.db.attachedToArtifact d a) := by
  unfold manager.IsAttachedToArtifact dao.GetArtifactAndBlob
  rw [fault_nil w hf]
  dsimp only
  have hiff := readArtifactAndBlob_isSome w.db a d
  cases hr : orm.ReadArtifactAndBlob w.db a d with
  | some md =>
    rw [hr] at hiff
    exact ⟨true, rfl, by simpa using hiff⟩
  | none =>
    rw [hr] at hiff
    refine ⟨false, by simp [IsNotFoundErr], ?_⟩
    simpa using hiff

theorem Get_nil (w : World) (hf : w.faults = []) (d a : String) (p : Int) (hd : d ≠ "") :
    ∃ fp fa : Bool,
      (fp = true ↔ w.db.attachedToProject d p) ∧
      (fa = true ↔ w.db.attachedToArtifact d a) ∧
      controller.Get w { Digest := d, ArtifactDigest := a, ProjectID := p } =
        match orm.ReadBlob w.db d with
        | none => (.error (.notFound ("blob " ++ d ++ " not found")), w)
        | some b =>
          if p ≠ 0 ∧ fp = false then
            (.error (.notFound ("blob " ++ d ++ " not found in project " ++ toString p)), w)
          else if a ≠ "" ∧ fa = false then
            (.error (.notFound ("blob " ++ d ++ " not found in artifact " ++ a)), w)
          else (.ok (manager.toBlob b), w) := by
  obtain ⟨fp, hp, hpi⟩ := isAttachedToProject_nil w hf d p
  obtain ⟨fa, ha, hai⟩ := isAttachedToArtifact_nil w hf d a
  refine ⟨fp, fa, hpi, hai, ?_⟩
  unfold controller.Get
  simp only [hd, if_false]
  rw [manager_Get_nil w hf]
  cases hr : orm.ReadBlob w.db d with
  | none => rfl
  | some b =>
    dsimp only
    by_cases hp0 : p = 0
    · simp only [hp0, ne_eq, not_true_eq_false, if_false, false_and]
      by_cases ha0 : a = ""
      · simp [ha0]
      · simp only [ne_eq, ha0, not_false_eq_true, if_true, true_and, ha]
        cases fa <;> simp
    · simp only [ne_eq, hp0, not_false_eq_true, if_true, true_and, hp]
      cases fp with
      | false => simp
      | true =>
        simp only [Bool.not_true, Bool.false_eq_true, if_false]
        by_cases ha0 : a = ""
        · simp [ha0]
        · simp only [ha0, not_false_eq_true, if_true, true_and, ha]
          cases fa <;> simp

/-- C6: for a non-empty digest `d`, any `projectID` `p` and any
`artifactDigest` `a`, on a store that does not fail: `Get(d, p, a)` succeeds,
returning the stored blob with digest `d` (its id, digest, content type and
size, as the manager presents a row), exactly when a blob with digest `d`
exists, and `p` is not supplied (`p = 0`) or a project attachment exists for
that blob and `p`, and `a` is not supplied (`a = ""`) or an artifact attachment
exists for `d` and `a`; in every other case it fails with NotFound. With both
scopes supplied both attachments are required. The ledger is left as it was. -/
theorem get_succeeds_iff_scoped (w : World) (d a : String) (p : Int)
    (hf : w.faults = []) (hd : d ≠ "") :
    ((w.db.hasBlob d ∧ (p = 0 ∨ w.db.attachedToProject d p) ∧
        (a = "" ∨ w.db.attachedToArtifact d a)) →
      ∃ b ∈ w.db.blob, b.Digest = d ∧
        controller.Get w { Digest := d, ArtifactDigest := a, ProjectID := p }
          = (.ok (manager.toBlob b), w)) ∧
    (¬ (w.db.hasBlob d ∧ (p = 0 ∨ w.db.attachedToProject d p) ∧
        (a = "" ∨ w.db.attachedToArtifact d a)) →
      ∃ msg, controller.Get w { Digest := d, ArtifactDigest := a, ProjectID := p }
          = (.error (.notFound msg), w)) := by
  obtain ⟨fp, fa, hpi, hai, hget⟩ := Get_nil w hf d a p hd
  rw [hget]
  cases hr : orm.ReadBlob w.db d with
  | none =>
    have hno := readBlob_none.mp hr
    refine ⟨?_, fun _ => ⟨_, rfl⟩⟩
    rintro ⟨⟨b, hb, hbd⟩, _⟩
    exact absurd hbd (hno b hb)
  | some b =>
    have hb := readBlob_some hr
    dsimp only
    by_cases c1 : p ≠ 0 ∧ fp = false
    · rw [if_pos c1]
      refine ⟨?_, fun _ => ⟨_, rfl⟩⟩
      rintro ⟨_, h2, _⟩
      rcases h2 with h2 | h2
      · exact absurd h2 c1.1
      · have := hpi.mpr h2
        rw [c1.2] at this
        exact absurd this (by decide)
    · rw [if_neg c1]
      by_cases c2 : a ≠ "" ∧ fa = false
      · rw [if_pos c2]
        refine ⟨?_, fun _ => ⟨_, rfl⟩⟩
        rintro ⟨_, _, h3⟩
        rcases h3 with h3 | h3
        · exact absurd h3 c2.1
        · have := hai.mpr h3
          rw [c2.2] at this
          exact absurd this (by decide)
      · rw [if_neg c2]
        refine ⟨fun _ => ⟨b, hb.1, hb.2, rfl⟩, ?_⟩
        intro hn
        exfalso
        apply hn
        refine ⟨⟨b, hb.1, hb.2⟩, ?_, ?_⟩
        · by_cases hp0 : p = 0
          · exact Or.inl hp0
          · right
            apply hpi.mp
            cases hfp : fp with
            | true => rfl
            | false => exact absurd ⟨hp0, hfp⟩ c1
        · by_cases ha0 : a = ""
          · exact Or.inl ha0
          · right
            apply hai.mp
            cases hfa : fa with
            | true => rfl
            | false => exact absurd ⟨ha0, hfa⟩ c2

theorem get_succeeds_iff_scoped_witness :
    (∃ b ∈ attachedWorld.db.blob, b.Digest = "d" ∧
      controller.Get attachedWorld { Digest := "d", ArtifactDigest := "a", ProjectID := 4 }
        = (.ok (manager.toBlob b), attachedWorld)) ∧
    (∃ msg, controller.Get attachedWorld { Digest := "d", ArtifactDigest := "a", ProjectID := 5 }
        = (.error (.notFound msg), attachedWorld)) :=
  ⟨(get_succeeds_iff_scoped attachedWorld "d" "a" 4 rfl (by decide)).1 (by decide),
   (get_succeeds_iff_scoped attachedWorld "d" "a" 5 rfl (by decide)).2 (by decide)⟩

theorem isNotFoundErr_iff (e : Err) : IsNotFoundErr e = true ↔ ∃ msg, e = .notFound msg := by
  cases e <;> simp [IsNotFoundErr]

/-- C5: `Exist` fails with BadRequest when the digest is empty. For a non-empty
digest and any scoping, in any world (failing store included), `Exist` returns
`(true, nil)` exactly when `Get` with the same digest, projectID and
artifactDigest succeeds, `(false, nil)` exactly when that `Get` fails with
NotFound, and the error of `Get`, unchanged, for every other failure; it leaves
the world as that `Get` leaves it. -/
theorem exist_follows_get (w : World) (d a : String) (p : Int) :
    (d = "" →
      ∃ msg, controller.Exist w { Digest := d, ArtifactDigest := a, ProjectID := p }
        = (.error (.badRequest msg), w)) ∧
    (d ≠ "" →
      ((controller.Exist w { Digest := d, ArtifactDigest := a, ProjectID := p }).1 = .ok true ↔
        ∃ b, (controller.Get w { Digest := d, ArtifactDigest := a, ProjectID := p }).1 = .ok b) ∧
      ((controller.Exist w { Digest := d, ArtifactDigest := a, ProjectID := p }).1 = .ok false ↔
        ∃ msg, (controller.Get w { Digest := d, ArtifactDigest := a, ProjectID := p }).1
          = .error (.notFound msg)) ∧
      (∀ e, (controller.Get w { Digest := d, ArtifactDigest := a, ProjectID := p }).1 = .error e →
        IsNotFoundErr e = false →
        (controller.Exist w { Digest := d, ArtifactDigest := a, ProjectID := p }).1 = .error e) ∧
      (controller.Exist w { Digest := d, ArtifactDigest := a, ProjectID := p }).2
        = (controller.Get w { Digest := d, ArtifactDigest := a, ProjectID := p }).2) := by
  constructor
  · intro hd
    unfold controller.Exist
    simp only [hd, if_true]
    exact ⟨_, rfl⟩
  · intro hd
    unfold controller.Exist
    simp only [hd, if_false]
    rcases hg : controller.Get w { Digest := d, ArtifactDigest := a, ProjectID := p }
      with ⟨r, w1⟩
    cases r with
    | ok b => simp
    | error e =>
      by_cases hn : IsNotFoundErr e = true
      · obtain ⟨msg, hmsg⟩ := (isNotFoundErr_iff e).mp hn
        subst hmsg
        simp [IsNotFoundErr]
      · have hnf : ∀ msg, e ≠ .notFound msg := fun msg hmsg =>
          hn ((isNotFoundErr_iff e).mpr ⟨msg, hmsg⟩)
        simp [hn, hnf]

theorem exist_follows_get_witness :
    (controller.Exist failingWorld { Digest := "d", ArtifactDigest := "a", ProjectID := 4 }).1
      = .error (.raw "connection refused") :=
  (((exist_follows_get failingWorld "d" "a" 4).2 (by decide)).2.2.1
    (.raw "connection refused") (by decide) (by decide))

theorem Exist_nil_unscoped (w : World) (hf : w.faults = []) (d : String) (hd : d ≠ "") :
    controller.Exist w { Digest := d, ArtifactDigest := "", ProjectID := 0 } =
      match orm.ReadBlob w.db d with
      | none => (.ok false, w)
      | some _ => (.ok true, w) := by
  obtain ⟨fp, fa, _, _, hget⟩ := Get_nil w hf d "" 0 hd
  unfold controller.Exist
  simp only [hd, if_false]
  rw [hget]
  cases hr : orm.ReadBlob w.db d with
  | none => simp [IsNotFoundErr]
  | some b => simp

theorem Ensure_nil (w : World) (hf : w.faults = []) (p : EnsureParams) :
    ∃ b, orm.ReadBlob (controller.Ensure w p).2.db p.Digest = some b ∧
      (controller.Ensure w p).1 = .ok b.ID ∧ (controller.Ensure w p).2.faults = [] := by
  unfold controller.Ensure
  rw [manager_Get_nil w hf]
  cases hr : orm.ReadBlob w.db p.Digest with
  | some b => exact ⟨b, hr, rfl, hf⟩
  | none =>
    have hrow : orm.ReadBlob w.db
        (⟨0, p.Digest, p.ContentType, p.Size, w.now⟩ : Blob).Digest = none := hr
    simp only [IsNotFoundErr, Bool.not_true, Bool.false_eq_true, if_false]
    rw [manager_Create_nil w hf]
    refine ⟨_, readBlob_after_miss hrow, ?_, rfl⟩
    rw [insertOrUpdateBlob_miss hrow]

/-- C4: for a non-empty digest `d`, on a store that does not fail: in a ledger
that holds no blob with digest `d`, `Exist(d)` returns false with no error; and
`Ensure(d, ct, sz)` succeeds, after which `Exist(d)` returns true with no
error. -/
theorem exist_false_before_true_after_ensure (w : World) (d ct : String) (sz : Int)
    (hf : w.faults = []) (hd : d ≠ "") :
    ((∀ b ∈ w.db.blob, b.Digest ≠ d) →
      controller.Exist w { Digest := d, ArtifactDigest := "", ProjectID := 0 }
        = (.ok false, w)) ∧
    (∃ id, (controller.Ensure w { Digest := d, ContentType := ct, Size := sz }).1 = .ok id) ∧
    controller.Exist (controller.Ensure w { Digest := d, ContentType := ct, Size := sz }).2
        { Digest := d, ArtifactDigest := "", ProjectID := 0 }
      = (.ok true, (controller.Ensure w { Digest := d, ContentType := ct, Size := sz }).2) := by
  refine ⟨fun hno => ?_, ?_⟩
  · rw [Exist_nil_unscoped w hf d hd, readBlob_none.mpr hno]
  · obtain ⟨b, hb, hid, hf2⟩ := Ensure_nil w hf { Digest := d, ContentType := ct, Size := sz }
    refine ⟨⟨b.ID, hid⟩, ?_⟩
    rw [Exist_nil_unscoped _ hf2 d hd]
    simp only at hb
    rw [hb]

theorem exist_false_before_true_after_ensure_witness :
    controller.Exist emptyWorld { Digest := "d", ArtifactDigest := "", ProjectID := 0 }
        = (.ok false, emptyWorld) ∧
    controller.Exist (controller.Ensure emptyWorld { Digest := "d", ContentType := "ct", Size := 3 }).2
        { Digest := "d", ArtifactDigest := "", ProjectID := 0 }
      = (.ok true, (controller.Ensure emptyWorld { Digest := "d", ContentType := "ct", Size := 3 }).2) :=
  ⟨(exist_false_before_true_after_ensure emptyWorld "d" "ct" 3 rfl (by decide)).1 (by decide),
   (exist_false_before_true_after_ensure emptyWorld "d" "ct" 3 rfl (by decide)).2.2⟩

/-! ## Attaching to an artifact -/

theorem manager_AttachToArtifact_nil (w : World) (hf : w.faults = []) (d a : String) :
    manager.AttachToArtifact w d a =
      (.ok (orm.InsertOrUpdateArtifactAndBlob w.db ⟨0, a, d, w.now⟩).1,
        { db := (orm.InsertOrUpdateArtifactAndBlob w.db ⟨0, a, d, w.now⟩).2,
          faults := [], now := w.now + 1 }) := by
  unfold manager.AttachToArtifact dao.CreateArtifactAndBlob
  rw [fault_nil w hf]
  simp [World.timeNow, hf]

theorem insertOrUpdateArtifactAndBlob_attached (db : DB) (row : ArtifactAndBlob) :
    (orm.InsertOrUpdateArtifactAndBlob db row).2.attachedToArtifact row.DigestBlob row.DigestAF ∧
    ∀ x y, db.attachedToArtifact x y →
      (orm.InsertOrUpdateArtifactAndBlob db row).2.attachedToArtifact x y := by
  unfold orm.InsertOrUpdateArtifactAndBlob
  cases hr : db.artifactBlob.find?
      (fun r => r.DigestAF == row.DigestAF && r.DigestBlob == row.DigestBlob) with
  | some r =>
    refine ⟨?_, fun x y h => h⟩
    have h1 := List.mem_of_find?_eq_some hr
    have h2 := List.find?_some hr
    simp only [Bool.and_eq_true, beq_iff_eq] at h2
    exact ⟨r, h1, h2.1, h2.2⟩
  | none =>
    refine ⟨?_, ?_⟩
    · exact ⟨{ row with ID := db.artifactBlobSeq + 1 }, by simp, rfl, rfl⟩
    · rintro x y ⟨r, hr1, hr2⟩
      exact ⟨r, by simp [hr1], hr2⟩

theorem attachBlobs_nil (a : String) (ds : List String) (w : World) (hf : w.faults = []) :
    (controller.attachBlobs a ds w).1 = .ok () ∧
    (controller.attachBlobs a ds w).2.faults = [] ∧
    (controller.attachBlobs a ds w).2.db.blob = w.db.blob ∧
    (controller.attachBlobs a ds w).2.db.projectBlob = w.db.projectBlob ∧
    (∀ d ∈ ds, (controller.attachBlobs a ds w).2.db.attachedToArtifact d a) ∧
    (∀ x y, w.db.attachedToArtifact x y →
      (controller.attachBlobs a ds w).2.db.attachedToArtifact x y) := by
  induction ds generalizing w with
  | nil => exact ⟨rfl, hf, rfl, rfl, by simp, fun x y h => h⟩
  | cons d rest ih =>
    unfold controller.attachBlobs
    rw [manager_AttachToArtifact_nil w hf]
    dsimp only
    have hins := insertOrUpdateArtifactAndBlob_attached w.db ⟨0, a, d, w.now⟩
    have hfr := insertOrUpdateArtifactAndBlob_blob w.db ⟨0, a, d, w.now⟩
    obtain ⟨i1, i2, i3, i4, i5, i6⟩ := ih
      { db := (orm.InsertOrUpdateArtifactAndBlob w.db ⟨0, a, d, w.now⟩).2,
        faults := [], now := w.now + 1 } rfl
    refine ⟨i1, i2, i3.trans hfr.1, i4.trans hfr.2.2.1, ?_, ?_⟩
    · intro x hx
      rcases List.mem_cons.mp hx with hx | hx
      · rw [hx]
        exact i6 _ _ hins.1
      · exact i5 x hx
    · intro x y hxy
      exact i6 _ _ (hins.2 x y hxy)

theorem AttachToArtifact_nil_fresh (w : World) (hf : w.faults = []) (a : String)
    (ds : List String) (hself : ¬ w.db.attachedToArtifact a a) :
    (controller.AttachToArtifact w { ArtifactDigest := a, BlobDigests := ds }).1 = .ok () ∧
    (controller.AttachToArtifact w { ArtifactDigest := a, BlobDigests := ds }).2.faults = [] ∧
    (controller.AttachToArtifact w { ArtifactDigest := a, BlobDigests := ds }).2.db.blob
      = w.db.blob ∧
    (controller.AttachToArtifact w { ArtifactDigest := a, BlobDigests := ds }).2.db.projectBlob
      = w.db.projectBlob ∧
    (∀ d, d ∈ ds ∨ d = a →
      (controller.AttachToArtifact w { ArtifactDigest := a, BlobDigests := ds }).2.db.attachedToArtifact
        d a) := by
  unfold controller.AttachToArtifact
  obtain ⟨found, hfound, hiff⟩ := isAttachedToArtifact_nil w hf a a
  have hfalse : found = false := by
    cases found with
    | false => rfl
    | true => exact absurd (hiff.mp rfl) hself
  subst hfalse
  dsimp only
  rw [hfound]
  dsimp only
  obtain ⟨l1, l2, l3, l4, l5, l6⟩ := attachBlobs_nil a ds w hf
  rcases hl : controller.attachBlobs a ds w with ⟨r, w2⟩
  rw [hl] at l1 l2 l3 l4 l5 l6
  dsimp only at l1 l2 l3 l4 l5 l6
  subst l1
  simp only [Bool.false_eq_true, if_false]
  rw [manager_AttachToArtifact_nil w2 l2]
  dsimp only
  have hins := insertOrUpdateArtifactAndBlob_attached w2.db ⟨0, a, a, w2.now⟩
  have hfr := insertOrUpdateArtifactAndBlob_blob w2.db ⟨0, a, a, w2.now⟩
  refine ⟨rfl, rfl, hfr.1.trans l3, hfr.2.2.1.trans l4, ?_⟩
  intro d hd
  rcases hd with hd | hd
  · exact hins.2 _ _ (l5 d hd)
  · rw [hd]
    exact hins.1

/-- C7, as stated, fails: in a reachable ledger that holds blob `d` and the
self-attachment of artifact `a`, `AttachToArtifact(a, [d])` succeeds without
attaching anything, and `Get(d, artifactDigest=a)` still fails with NotFound
after the call; and with the empty artifact digest `Get(d, artifactDigest="")`
succeeds although nothing was ever attached; and for a stored blob with the
empty digest `Get` fails with BadRequest, not NotFound. -/
theorem get_after_attach_counterexample :
    selfAttachedWorld.db.hasBlob "d" ∧
    (controller.AttachToArtifact selfAttachedWorld
      { ArtifactDigest := "a", BlobDigests := ["d"] }).1 = .ok () ∧
    (controller.Get
      (controller.AttachToArtifact selfAttachedWorld
        { ArtifactDigest := "a", BlobDigests := ["d"] }).2
      { Digest := "d", ArtifactDigest := "a", ProjectID := 0 }).1
        = .error (.notFound "blob d not found in artifact a") ∧
    (controller.Get oneBlobWorld { Digest := "d", ArtifactDigest := "", ProjectID := 0 }).1
        = .ok ⟨7, "d", "text", 10, 0⟩ ∧
    emptyDigestWorld.db.hasBlob "" ∧
    (controller.Get emptyDigestWorld { Digest := "", ArtifactDigest := "a", ProjectID := 0 }).1
        = .error (.badRequest "require Digest") := by
  decide

/-- C7, amended: for every ledger that holds a blob with the non-empty digest
`d` and every non-empty artifact digest `a` whose self-attachment `(a, a)` is
not yet recorded, on a store that does not fail: while `d` is not attached to
`a`, `Get(d, artifactDigest=a)` fails with NotFound; `AttachToArtifact(a, [d])`
succeeds, and after it `Get(d, artifactDigest=a)` succeeds and returns the blob
with the stored id, digest, content type and size. -/
theorem get_by_artifact_after_attach (w : World) (d a : String)
    (hf : w.faults = []) (hd : d ≠ "") (ha : a ≠ "") (hb : w.db.hasBlob d)
    (hself : ¬ w.db.attachedToArtifact a a) :
    (¬ w.db.attachedToArtifact d a →
      ∃ msg, controller.Get w { Digest := d, ArtifactDigest := a, ProjectID := 0 }
        = (.error (.notFound msg), w)) ∧
    (controller.AttachToArtifact w { ArtifactDigest := a, BlobDigests := [d] }).1 = .ok () ∧
    ∃ b ∈ w.db.blob, b.Digest = d ∧
      controller.Get
        (controller.AttachToArtifact w { ArtifactDigest := a, BlobDigests := [d] }).2
        { Digest := d, ArtifactDigest := a, ProjectID := 0 }
      = (.ok (manager.toBlob b),
          (controller.AttachToArtifact w { ArtifactDigest := a, BlobDigests := [d] }).2) := by
  obtain ⟨b0, hb0, hbd0⟩ := hb
  obtain ⟨b, hr⟩ := readBlob_of_mem hb0 hbd0
  refine ⟨fun hna => ?_, ?_⟩
  · obtain ⟨fp, fa, _, hai, hget⟩ := Get_nil w hf d a 0 hd
    have hfa : fa = false := by
      cases fa with
      | false => rfl
      | true => exact absurd (hai.mp rfl) hna
    rw [hget, hr]
    simp [ha, hfa]
  · obtain ⟨h1, h2, h3, _, h5⟩ := AttachToArtifact_nil_fresh w hf a [d] hself
    refine ⟨h1, b, (readBlob_some hr).1, (readBlob_some hr).2, ?_⟩
    obtain ⟨fp, fa, _, hai, hget⟩ := Get_nil _ h2 d a 0 hd
    have hfa : fa = true := hai.mpr (h5 d (Or.inl (List.mem_singleton.mpr rfl)))
    have hr2 : orm.ReadBlob
        (controller.AttachToArtifact w { ArtifactDigest := a, BlobDigests := [d] }).2.db d
        = some b := by
      unfold orm.ReadBlob at hr ⊢
      rw [h3]
      exact hr
    rw [hget, hr2]
    simp [hfa]

theorem get_by_artifact_after_attach_witness :
    (∃ msg, controller.Get oneBlobWorld { Digest := "d", ArtifactDigest := "a", ProjectID := 0 }
        = (.error (.notFound msg), oneBlobWorld)) ∧
    ∃ b ∈ oneBlobWorld.db.blob, b.Digest = "d" ∧
      controller.Get
        (controller.AttachToArtifact oneBlobWorld { ArtifactDigest := "a", BlobDigests := ["d"] }).2
        { Digest := "d", ArtifactDigest := "a", ProjectID := 0 }
      = (.ok (manager.toBlob b),
          (controller.AttachToArtifact oneBlobWorld
            { ArtifactDigest := "a", BlobDigests := ["d"] }).2) :=
  ⟨(get_by_artifact_after_attach oneBlobWorld "d" "a" rfl (by decide) (by decide) (by decide)
      (by decide)).1 (by decide),
   (get_by_artifact_after_attach oneBlobWorld "d" "a" rfl (by decide) (by decide) (by decide)
      (by decide)).2.2⟩

/-! ## Attaching to a project -/

theorem manager_AttachToProject_nil (w : World) (hf : w.faults = []) (b p : Int) :
    manager.AttachToProject w b p =
      (.ok (orm.InsertOrUpdateProjectBlob w.db ⟨0, b, p, w.now⟩).1,
        { db := (orm.InsertOrUpdateProjectBlob w.db ⟨0, b, p, w.now⟩).2,
          faults := [], now := w.now + 1 }) := by
  unfold manager.AttachToProject dao.CreateProjectBlob
  rw [fault_nil w hf]
  simp [World.timeNow, hf]

theorem insertOrUpdateProjectBlob_attached (db : DB) (row : ProjectBlob) :
    ∃ pb ∈ (orm.InsertOrUpdateProjectBlob db row).2.projectBlob,
      pb.BlobID = row.BlobID ∧ pb.ProjectID = row.ProjectID := by
  unfold orm.InsertOrUpdateProjectBlob
  cases hr : db.projectBlob.find?
      (fun r => r.BlobID == row.BlobID && r.ProjectID == row.ProjectID) with
  | some r =>
    have h1 := List.mem_of_find?_eq_some hr
    have h2 := List.find?_some hr
    simp only [Bool.and_eq_true, beq_iff_eq] at h2
    exact ⟨r, h1, h2.1, h2.2⟩
  | none => exact ⟨{ row with ID := db.projectBlobSeq + 1 }, by simp, rfl, rfl⟩

theorem attachBlobID_nil (w : World) (hf : w.faults = []) (b p : Int) :
    (controller.attachBlobID w b p).1 = .ok () ∧
    (controller.attachBlobID w b p).2.faults = [] ∧
    (controller.attachBlobID w b p).2.db.blob = w.db.blob ∧
    (controller.attachBlobID w b p).2.db.artifactBlob = w.db.artifactBlob ∧
    ∃ pb ∈ (controller.attachBlobID w b p).2.db.projectBlob,
      pb.BlobID = b ∧ pb.ProjectID = p := by
  unfold controller.attachBlobID
  rw [manager_AttachToProject_nil w hf]
  dsimp only
  have hfr := insertOrUpdateProjectBlob_blob w.db ⟨0, b, p, w.now⟩
  exact ⟨rfl, rfl, hfr.1, hfr.2.2.1, insertOrUpdateProjectBlob_attached w.db ⟨0, b, p, w.now⟩⟩

theorem Exist_of_Get {w w2 : World} {d a : String} {p : Int} {blob : Blob} (hd : d ≠ "")
    (h : controller.Get w { Digest := d, ArtifactDigest := a, ProjectID := p } = (.ok blob, w2)) :
    controller.Exist w { Digest := d, ArtifactDigest := a, ProjectID := p } = (.ok true, w2) := by
  unfold controller.Exist
  simp only [hd, if_false]
  rw [h]

theorem AttachToProject_nil_digest (w : World) (hf : w.faults = []) (d : String) (p : Int)
    (hd : d ≠ "") :
    controller.AttachToProject w { BlobID := 0, Digest := d, ProjectID := p } =
      match orm.ReadBlob w.db d with
      | none => (.error (.notFound ("blob " ++ d ++ " not found")), w)
      | some b => controller.attachBlobID w b.ID p := by
  unfold controller.AttachToProject
  simp only [ne_eq, not_true_eq_false, false_and, if_false, hd, not_false_eq_true, if_true]
  rw [manager_Get_nil w hf]
  cases hr : orm.ReadBlob w.db d with
  | none => rfl
  | some b => rfl

/-- C8, as stated, fails: with the empty digest and no BlobID, in a ledger with
no blob at all, `AttachToProject` does not fail with NotFound but succeeds and
adds the attachment of blob id 0; and for project id 0 `Get(d, ProjectID=0)`
succeeds before any attachment exists. -/
theorem attach_to_project_by_digest_counterexample :
    ¬ emptyWorld.db.hasBlob "" ∧
    (controller.AttachToProject emptyWorld { BlobID := 0, Digest := "", ProjectID := 4 }).1
      = .ok () ∧
    (controller.AttachToProject emptyWorld
      { BlobID := 0, Digest := "", ProjectID := 4 }).2.db.projectBlob = [⟨1, 0, 4, 1⟩] ∧
    ¬ oneBlobWorld.db.attachedToProject "d" 0 ∧
    (controller.Get oneBlobWorld { Digest := "d", ArtifactDigest := "", ProjectID := 0 }).1
      = .ok ⟨7, "d", "text", 10, 0⟩ := by
  decide

/-- C8, amended: for every non-empty digest `d` and every non-zero project id
`p`, on a store that does not fail, `AttachToProject(Digest=d, ProjectID=p)`
with no BlobID: if no blob with digest `d` exists it fails with NotFound and
leaves the ledger unchanged; if the blob exists the call succeeds and records
the attachment of that blob's id to `p`, so that afterwards
`Exist(d, ProjectID=p)` is true and `Get(d, ProjectID=p)` returns the stored
blob, whereas while no attachment of the blob to `p` exists
`Get(d, ProjectID=p)` fails with NotFound. -/
theorem attach_to_project_by_digest (w : World) (d : String) (p : Int)
    (hf : w.faults = []) (hd : d ≠ "") (hp : p ≠ 0) :
    (¬ w.db.hasBlob d →
      ∃ msg, controller.AttachToProject w { BlobID := 0, Digest := d, ProjectID := p }
        = (.error (.notFound msg), w)) ∧
    (w.db.hasBlob d →
      ∃ b ∈ w.db.blob, b.Digest = d ∧
        (¬ w.db.attachedToProject d p →
          ∃ msg, controller.Get w { Digest := d, ArtifactDigest := "", ProjectID := p }
            = (.error (.notFound msg), w)) ∧
        (controller.AttachToProject w { BlobID := 0, Digest := d, ProjectID := p }).1 = .ok () ∧
        (∃ pb ∈ (controller.AttachToProject w
            { BlobID := 0, Digest := d, ProjectID := p }).2.db.projectBlob,
          pb.BlobID = b.ID ∧ pb.ProjectID = p) ∧
        controller.Exist
            (controller.AttachToProject w { BlobID := 0, Digest := d, ProjectID := p }).2
            { Digest := d, ArtifactDigest := "", ProjectID := p }
          = (.ok true,
              (controller.AttachToProject w { BlobID := 0, Digest := d, ProjectID := p }).2) ∧
        controller.Get
            (controller.AttachToProject w { BlobID := 0, Digest := d, ProjectID := p }).2
            { Digest := d, ArtifactDigest := "", ProjectID := p }
          = (.ok (manager.toBlob b),
              (controller.AttachToProject w { BlobID := 0, Digest := d, ProjectID := p }).2)) := by
  rw [AttachToProject_nil_digest w hf d p hd]
  constructor
  · intro hno
    have hr : orm.ReadBlob w.db d = none :=
      readBlob_none.mpr (fun b hb hbd => hno ⟨b, hb, hbd⟩)
    rw [hr]
    exact ⟨_, rfl⟩
  · rintro ⟨b0, hb0, hbd0⟩
    obtain ⟨b, hr⟩ := readBlob_of_mem hb0 hbd0
    have hbm := readBlob_some hr
    rw [hr]
    dsimp only
    refine ⟨b, hbm.1, hbm.2, ?_, ?_⟩
    · intro hna
      obtain ⟨fp, fa, hpi, _, hget⟩ := Get_nil w hf d "" p hd
      have hfp : fp = false := by
        cases fp with
        | false => rfl
        | true => exact absurd (hpi.mp rfl) hna
      rw [hget, hr]
      simp [hp, hfp]
    · obtain ⟨h1, h2, h3, _, pb, hpb, hpb1, hpb2⟩ := attachBlobID_nil w hf b.ID p
      obtain ⟨fp, fa, hpi, _, hget⟩ := Get_nil _ h2 d "" p hd
      have hbm2 : b ∈ (controller.attachBlobID w b.ID p).2.db.blob := by rw [h3]; exact hbm.1
      have hfp : fp = true := hpi.mpr ⟨pb, hpb, b, hbm2, hpb1, hpb2, hbm.2⟩
      have hr2 : orm.ReadBlob (controller.attachBlobID w b.ID p).2.db d = some b := by
        unfold orm.ReadBlob at hr ⊢
        rw [h3]
        exact hr
      have hg : controller.Get (controller.attachBlobID w b.ID p).2
          { Digest := d, ArtifactDigest := "", ProjectID := p }
          = (.ok (manager.toBlob b), (controller.attachBlobID w b.ID p).2) := by
        rw [hget, hr2]
        simp [hfp]
      exact ⟨h1, ⟨pb, hpb, hpb1, hpb2⟩, Exist_of_Get hd hg, hg⟩

theorem attach_to_project_by_digest_witness :
    (∃ msg, controller.AttachToProject emptyWorld { BlobID := 0, Digest := "d", ProjectID := 4 }
        = (.error (.notFound msg), emptyWorld)) ∧
    controller.Exist
        (controller.AttachToProject oneBlobWorld { BlobID := 0, Digest := "d", ProjectID := 4 }).2
        { Digest := "d", ArtifactDigest := "", ProjectID := 4 }
      = (.ok true,
          (controller.AttachToProject oneBlobWorld
            { BlobID := 0, Digest := "d", ProjectID := 4 }).2) :=
  ⟨(attach_to_project_by_digest emptyWorld "d" 4 rfl (by decide) (by decide)).1 (by decide),
   by
    obtain ⟨b, _, _, _, _, _, h, _⟩ :=
      (attach_to_project_by_digest oneBlobWorld "d" 4 rfl (by decide) (by decide)).2 (by decide)
    exact h⟩

theorem manager_Get_error {w w1 : World} {d : String} {e : Err}
    (h : manager.Get w d = (.error e, w1)) : ∀ msg, e ≠ .badRequest msg := by
  unfold manager.Get dao.GetBlobByDigest at h
  rcases hfl : w.fault with ⟨f, w2⟩
  rw [hfl] at h
  cases f with
  | some x =>
    simp only [Prod.mk.injEq, Except.error.injEq] at h
    intro msg hm
    rw [← h.1] at hm
    exact Err.noConfusion hm
  | none =>
    dsimp only at h
    cases hr : orm.ReadBlob w2.db d with
    | some b => rw [hr] at h; simp at h
    | none =>
      rw [hr] at h
      simp only [Prod.mk.injEq, Except.error.injEq] at h
      intro msg hm
      rw [← h.1] at hm
      exact Err.noConfusion hm

theorem attachBlobID_error {w w1 : World} {b p : Int} {e : Err}
    (h : controller.attachBlobID w b p = (.error e, w1)) : ∀ msg, e ≠ .badRequest msg := by
  unfold controller.attachBlobID manager.AttachToProject dao.CreateProjectBlob at h
  rcases hfl : w.fault with ⟨f, w2⟩
  rw [hfl] at h
  cases f with
  | some x =>
    simp only [Prod.mk.injEq, Except.error.injEq] at h
    intro msg hm
    rw [← h.1] at hm
    exact Err.noConfusion hm
  | none => simp at h

/-- C9: in any world, `AttachToProject` fails with BadRequest, leaving the
world as it was, exactly when both `BlobID` (non-zero) and `Digest` (non-empty)
are supplied. When neither is supplied (`BlobID = 0`, `Digest = ""`) it does
not fail with BadRequest: it goes on to attach blob id 0 to the project, and on
a store that does not fail it succeeds and the attachment `(0, projectID)` is
recorded. -/
theorem attach_to_project_bad_request (w : World) (params : AttachToProjectParams) :
    ((params.BlobID ≠ 0 ∧ params.Digest ≠ "") →
      ∃ msg, controller.AttachToProject w params = (.error (.badRequest msg), w)) ∧
    (¬ (params.BlobID ≠ 0 ∧ params.Digest ≠ "") →
      ∀ msg, (controller.AttachToProject w params).1 ≠ .error (.badRequest msg)) ∧
    ((params.BlobID = 0 ∧ params.Digest = "") →
      controller.AttachToProject w params = controller.attachBlobID w 0 params.ProjectID ∧
      (w.faults = [] →
        (controller.AttachToProject w params).1 = .ok () ∧
        ∃ pb ∈ (controller.AttachToProject w params).2.db.projectBlob,
          pb.BlobID = 0 ∧ pb.ProjectID = params.ProjectID)) := by
  refine ⟨fun hboth => ?_, fun hnot => ?_, fun hneither => ?_⟩
  · unfold controller.AttachToProject
    rw [if_pos hboth]
    exact ⟨_, rfl⟩
  · intro msg
    unfold controller.AttachToProject
    rw [if_neg hnot]
    by_cases hd : params.Digest ≠ ""
    · rw [if_pos hd]
      rcases hg : manager.Get w params.Digest with ⟨r, w1⟩
      cases r with
      | error e =>
        intro h
        exact manager_Get_error hg msg (Except.error.inj h)
      | ok blob =>
        dsimp only
        rcases ha : controller.attachBlobID w1 blob.ID params.ProjectID with ⟨r2, w2⟩
        cases r2 with
        | error e =>
          intro h
          exact attachBlobID_error ha msg (Except.error.inj h)
        | ok u => intro h; exact Except.noConfusion h
    · rw [if_neg hd]
      rcases ha : controller.attachBlobID w params.BlobID params.ProjectID with ⟨r2, w2⟩
      cases r2 with
      | error e =>
        intro h
        exact attachBlobID_error ha msg (Except.error.inj h)
      | ok u => intro h; exact Except.noConfusion h
  · have hcall : controller.AttachToProject w params
        = controller.attachBlobID w 0 params.ProjectID := by
      unfold controller.AttachToProject
      simp [hneither.1, hneither.2]
    refine ⟨hcall, fun hf => ?_⟩
    rw [hcall]
    obtain ⟨h1, _, _, _, h5⟩ := attachBlobID_nil w hf 0 params.ProjectID
    exact ⟨h1, h5⟩

theorem attach_to_project_bad_request_witness :
    (∃ msg, controller.AttachToProject oneBlobWorld { BlobID := 7, Digest := "d", ProjectID := 4 }
        = (.error (.badRequest msg), oneBlobWorld)) ∧
    (controller.AttachToProject oneBlobWorld { BlobID := 0, Digest := "", ProjectID := 4 }).1
        = .ok () :=
  ⟨(attach_to_project_bad_request oneBlobWorld ⟨7, "d", 4⟩).1 (by decide),
   (((attach_to_project_bad_request oneBlobWorld ⟨0, "", 4⟩).2.2 (by decide)).2 rfl).1⟩

/-- C10: in every ledger in which the self-attachment `(a, a)` is already
recorded, on a store that does not fail, and for every list of blob digests
`ds`, `AttachToArtifact(a, ds)` returns success and leaves the world exactly as
it was: no attachment is added, not even for the digests of `ds` that are not
yet attached to `a`. -/
theorem attach_to_artifact_short_circuit (w : World) (a : String) (ds : List String)
    (hf : w.faults = []) (hself : w.db.attachedToArtifact a a) :
    controller.AttachToArtifact w { ArtifactDigest := a, BlobDigests := ds } = (.ok (), w) := by
  unfold controller.AttachToArtifact
  obtain ⟨found, hfound, hiff⟩ := isAttachedToArtifact_nil w hf a a
  have htrue : found = true := hiff.mpr hself
  subst htrue
  dsimp only
  rw [hfound]
  rfl

theorem attach_to_artifact_short_circuit_witness :
    controller.AttachToArtifact selfAttachedWorld
        { ArtifactDigest := "a", BlobDigests := ["d", "e"] } = (.ok (), selfAttachedWorld) ∧
    ¬ selfAttachedWorld.db.attachedToArtifact "d" "a" :=
  ⟨attach_to_artifact_short_circuit selfAttachedWorld "a" ["d", "e"] (by decide) (by decide),
   by decide⟩

/-! ## `Sync` on a store that does not fail -/

theorem manager_List_nil (w : World) (hf : w.faults = []) (ds : Digests) :
    manager.List w ds =
      (.ok ((orm.AllBlobs w.db (if ds.length > 0 then some ds else none)).map manager.toBlob),
        w) := by
  unfold manager.List dao.ListBlobs
  rw [fault_nil w hf]

theorem readBlob_unique {db : DB} (h : db.wellFormed) {b : Blob} (hb : b ∈ db.blob) :
    orm.ReadBlob db b.Digest = some b := by
  obtain ⟨s, hs⟩ := readBlob_of_mem hb rfl
  have hsm := readBlob_some hs
  have h2 := h.2.1
  unfold blobKeys at h2
  rw [List.map_map] at h2
  have := List.inj_on_of_nodup_map h2 hsm.1 hb (by simpa using hsm.2)
  rw [hs, this]

theorem buildMap_fold_some (l : List Blob) (init : controller.BlobMap) (k : String) (b : Blob)
    (h : l.foldl (fun mp blob => fun k => if k = blob.Digest then some blob else mp k) init k
      = some b) :
    (b ∈ l ∧ b.Digest = k) ∨ init k = some b := by
  induction l generalizing init with
  | nil => exact Or.inr h
  | cons x rest ih =>
    simp only [List.foldl_cons] at h
    rcases ih _ h with h1 | h1
    · exact Or.inl ⟨List.mem_cons_of_mem _ h1.1, h1.2⟩
    · by_cases hk : k = x.Digest
      · rw [if_pos hk] at h1
        have hx : x = b := Option.some.inj h1
        exact Or.inl ⟨by rw [← hx]; exact List.mem_cons_self _ _, by rw [← hx]; exact hk.symm⟩
      · rw [if_neg hk] at h1
        exact Or.inr h1

theorem buildMap_fold_isSome (l : List Blob) (init : controller.BlobMap) (k : String)
    (h : (∃ b ∈ l, b.Digest = k) ∨ (init k).isSome = true) :
    (l.foldl (fun mp blob => fun k => if k = blob.Digest then some blob else mp k) init
      k).isSome = true := by
  induction l generalizing init with
  | nil =>
    rcases h with ⟨b, hb, _⟩ | h
    · exact absurd hb (List.not_mem_nil _)
    · exact h
  | cons x rest ih =>
    simp only [List.foldl_cons]
    apply ih
    rcases h with ⟨b, hb, hbk⟩ | h
    · rcases List.mem_cons.mp hb with hbx | hbr
      · right
        subst hbx
        simp [hbk]
      · exact Or.inl ⟨b, hbr, hbk⟩
    · right
      by_cases hk : k = x.Digest
      · simp [hk]
      · simpa [hk] using h

theorem buildMap_listed (db : DB) (hw : db.wellFormed) (ds : List String) (k : String) :
    controller.buildMap ((db.blob.filter (fun b => ds.contains b.Digest)).map manager.toBlob) k
      = if k ∈ ds then (orm.ReadBlob db k).map manager.toBlob else none := by
  unfold controller.buildMap
  cases hfold : ((db.blob.filter (fun b => ds.contains b.Digest)).map manager.toBlob).foldl
      (fun mp blob => fun k => if k = blob.Digest then some blob else mp k)
      (fun _ => none) k with
  | some b =>
    rcases buildMap_fold_some _ _ k b hfold with ⟨hb, hbk⟩ | h
    · obtain ⟨row, hrow, hrb⟩ := List.mem_map.mp hb
      rw [List.mem_filter] at hrow
      have hrk : row.Digest = k := by rw [← hbk, ← hrb]; rfl
      have hin : k ∈ ds := by
        have := hrow.2
        rw [hrk] at this
        simpa using this
      rw [if_pos hin, ← hrk, readBlob_unique hw hrow.1, ← hrb]
      rfl
    · exact absurd h (by simp)
  | none =>
    by_cases hin : k ∈ ds
    · rw [if_pos hin]
      cases hr : orm.ReadBlob db k with
      | none => rfl
      | some row =>
        exfalso
        have hrm := readBlob_some hr
        have := buildMap_fold_isSome
          ((db.blob.filter (fun b => ds.contains b.Digest)).map manager.toBlob)
          (fun _ => none) k
          (Or.inl ⟨manager.toBlob row,
            List.mem_map.mpr ⟨row, List.mem_filter.mpr ⟨hrm.1, by simpa [hrm.2] using hin⟩, rfl⟩,
            hrm.2⟩)
        rw [hfold] at this
        exact absurd this (by simp)
    · rw [if_neg hin]

theorem planInv_init (m0 : controller.BlobMap) :
    controller.PlanInv m0 [] { mp := m0, missing := [], updating := [] } where
  same := fun _ b h => ⟨b, h, rfl, rfl, rfl, rfl⟩
  dom := fun _ b0 h => ⟨b0, h⟩
  kept := fun _ _ h _ => h
  typed := fun _ _ hr => absurd hr (List.not_mem_nil _)
  missingFrom := fun _ hm => absurd hm (List.not_mem_nil _)
  missingAll := fun _ hr => absurd hr (List.not_mem_nil _)
  updatingKnown := fun _ hk => absurd hk (List.not_mem_nil _)

theorem planInv_step (m0 : controller.BlobMap) (done : List Descriptor)
    (st : controller.SyncPlan) (r : Descriptor) (hinv : controller.PlanInv m0 done st) :
    controller.PlanInv m0 (done ++ [r]) (controller.planStep st r) := by
  have htyped : consistentRefs (done ++ [r]) →
      ∀ r2 ∈ done, ∀ b, st.mp r2.Digest = some b → b.ContentType = r2.MediaType :=
    fun hc => hinv.typed (fun r1 h1 r2 h2 hd =>
      hc r1 (List.mem_append_left _ h1) r2 (List.mem_append_left _ h2) hd)
  have hcons : consistentRefs (done ++ [r]) →
      ∀ r2 ∈ done, r2.Digest = r.Digest → r2.MediaType = r.MediaType :=
    fun hc r2 h2 hd => (hc r2 (List.mem_append_left _ h2) r
      (List.mem_append_right _ (List.mem_singleton.mpr rfl)) hd).1
  unfold controller.planStep
  cases hm : st.mp r.Digest with
  | none =>
    dsimp only
    have hm0 : m0 r.Digest = none := by
      cases h0 : m0 r.Digest with
      | none => rfl
      | some b0 =>
        obtain ⟨b, hb⟩ := hinv.dom _ _ h0
        rw [hm] at hb
        exact absurd hb (by simp)
    refine ⟨hinv.same, hinv.dom, hinv.kept, ?_, ?_, ?_, hinv.updatingKnown⟩
    · intro hc r2 hr2 b hb
      rcases List.mem_append.mp hr2 with h | h
      · exact htyped hc r2 h b hb
      · rw [List.mem_singleton] at h
        subst h
        rw [hm] at hb
        exact absurd hb (by simp)
    · intro m hmem
      rcases List.mem_append.mp hmem with h | h
      · obtain ⟨h1, r2, hr2, h2⟩ := hinv.missingFrom m h
        exact ⟨h1, r2, List.mem_append_left _ hr2, h2⟩
      · rw [List.mem_singleton] at h
        subst h
        exact ⟨hm0, r, List.mem_append_right _ (List.mem_singleton.mpr rfl), rfl⟩
    · intro r2 hr2 h0
      rcases List.mem_append.mp hr2 with h | h
      · exact List.mem_append_left _ (hinv.missingAll r2 h h0)
      · rw [List.mem_singleton] at h
        subst h
        exact List.mem_append_right _ (List.mem_singleton.mpr rfl)
  | some exist =>
    dsimp only
    have hnone : ∀ r2 ∈ done ++ [r], m0 r2.Digest = none → r2 ∈ done := by
      intro r2 hr2 h0
      rcases List.mem_append.mp hr2 with h | h
      · exact h
      · rw [List.mem_singleton] at h
        subst h
        obtain ⟨b0, hb0, _⟩ := hinv.same _ _ hm
        rw [h0] at hb0
        exact absurd hb0 (by simp)
    by_cases hct : exist.ContentType ≠ r.MediaType
    · rw [if_pos hct]
      refine ⟨?_, ?_, ?_, ?_, ?_, ?_, ?_⟩
      · intro k b hb
        dsimp only at hb
        by_cases hk : k = r.Digest
        · rw [if_pos hk] at hb
          obtain ⟨b0, h1, h2, h3, h4, h5⟩ := hinv.same _ _ hm
          rw [← Option.some.inj hb, hk]
          exact ⟨b0, h1, h2, h3, h4, h5⟩
        · rw [if_neg hk] at hb
          exact hinv.same k b hb
      · intro k b0 h0
        dsimp only
        by_cases hk : k = r.Digest
        · rw [if_pos hk]
          exact ⟨_, rfl⟩
        · rw [if_neg hk]
          exact hinv.dom k b0 h0
      · intro k b hb hnu
        dsimp only at hb hnu
        have hk : k ≠ r.Digest := fun h =>
          hnu (List.mem_append_right _ (List.mem_singleton.mpr h))
        rw [if_neg hk] at hb
        exact hinv.kept k b hb (fun h => hnu (List.mem_append_left _ h))
      · intro hc r2 hr2 b hb
        dsimp only at hb
        by_cases hk : r2.Digest = r.Digest
        · rw [if_pos hk] at hb
          rw [← Option.some.inj hb]
          rcases List.mem_append.mp hr2 with h | h
          · exact (hcons hc r2 h hk).symm
          · rw [List.mem_singleton] at h
            rw [h]
        · rw [if_neg hk] at hb
          rcases List.mem_append.mp hr2 with h | h
          · exact htyped hc r2 h b hb
          · rw [List.mem_singleton] at h
            exact absurd (by rw [h]) hk
      · intro m hmem
        obtain ⟨h1, r2, hr2, h2⟩ := hinv.missingFrom m hmem
        exact ⟨h1, r2, List.mem_append_left _ hr2, h2⟩
      · intro r2 hr2 h0
        exact hinv.missingAll r2 (hnone r2 hr2 h0) h0
      · intro k hk
        dsimp only at hk ⊢
        by_cases hkr : k = r.Digest
        · rw [if_pos hkr]
          exact ⟨_, rfl⟩
        · rw [if_neg hkr]
          rcases List.mem_append.mp hk with h | h
          · exact hinv.updatingKnown k h
          · exact absurd (List.mem_singleton.mp h) hkr
    · rw [if_neg hct]
      have heq : exist.ContentType = r.MediaType := not_not.mp hct
      refine ⟨hinv.same, hinv.dom, hinv.kept, ?_, ?_, ?_, hinv.updatingKnown⟩
      · intro hc r2 hr2 b hb
        rcases List.mem_append.mp hr2 with h | h
        · exact htyped hc r2 h b hb
        · rw [List.mem_singleton] at h
          subst h
          rw [hm] at hb
          rw [← Option.some.inj hb]
          exact heq
      · intro m hmem
        obtain ⟨h1, r2, hr2, h2⟩ := hinv.missingFrom m hmem
        exact ⟨h1, r2, List.mem_append_left _ hr2, h2⟩
      · intro r2 hr2 h0
        exact hinv.missingAll r2 (hnone r2 hr2 h0) h0

theorem planInv_fold (m0 : controller.BlobMap) (rest done : List Descriptor)
    (st : controller.SyncPlan) (hinv : controller.PlanInv m0 done st) :
    controller.PlanInv m0 (done ++ rest) (rest.foldl controller.planStep st) := by
  induction rest generalizing done st with
  | nil => simpa using hinv
  | cons r tl ih =>
    simp only [List.foldl_cons]
    have hstep := planInv_step m0 done st r hinv
    have := ih (done ++ [r]) _ hstep
    simpa using this

theorem find?_congr_mem {α : Type} (p q : α → Bool) (l : List α)
    (h : ∀ x ∈ l, p x = q x) : l.find? p = l.find? q := by
  induction l with
  | nil => rfl
  | cons x rest ih =>
    have hx := h x (List.mem_cons_self _ _)
    have hr := ih (fun y hy => h y (List.mem_cons_of_mem _ hy))
    simp only [List.find?_cons, hx, hr]

theorem write_write (cols : UpdateColumns) (s u : Blob) :
    cols.write (cols.write s u) u = cols.write s u := by
  unfold UpdateColumns.write
  cases cols.digest <;> cases cols.size <;> cases cols.creationTime <;> rfl

theorem updateBlob_read (db : DB) (hw : db.wellFormed) (u : Blob)
    (hk : (u.ID, u.Digest) ∈ blobKeys db) (k : String) :
    orm.ReadBlob (orm.UpdateBlob db u) k
      = if k = u.Digest then (orm.ReadBlob db k).map (fun s => db.updateColumns.write s u)
        else orm.ReadBlob db k := by
  obtain ⟨r0, hr0, hr0u⟩ := List.mem_map.mp hk
  simp only [Prod.mk.injEq] at hr0u
  have hid := hw.1
  have hdg := hw.2.1
  unfold blobKeys at hid hdg
  rw [List.map_map] at hid hdg
  have hiff : ∀ row ∈ db.blob, (row.ID = u.ID ↔ row.Digest = u.Digest) := by
    intro row hrow
    constructor
    · intro h
      have := List.inj_on_of_nodup_map hid hrow hr0 (by simp [h, hr0u.1])
      rw [this]; exact hr0u.2
    · intro h
      have := List.inj_on_of_nodup_map hdg hrow hr0 (by simp [h, hr0u.2])
      rw [this]; exact hr0u.1
  have hwd : ∀ row ∈ db.blob, row.ID = u.ID →
      (db.updateColumns.write row u).Digest = row.Digest := by
    intro row hrow h
    have hd := (hiff row hrow).mp h
    unfold UpdateColumns.write
    cases db.updateColumns.digest <;> simp [hd]
  have hmap : orm.ReadBlob (orm.UpdateBlob db u) k
      = (orm.ReadBlob db k).map
          (fun b => if b.ID = u.ID then db.updateColumns.write b u else b) := by
    unfold orm.ReadBlob orm.UpdateBlob
    simp only
    rw [List.find?_map]
    congr 1
    apply find?_congr_mem
    intro row hrow
    simp only [Function.comp]
    by_cases h : row.ID = u.ID
    · rw [if_pos h, hwd row hrow h]
    · rw [if_neg h]
  rw [hmap]
  by_cases hku : k = u.Digest
  · rw [if_pos hku]
    obtain ⟨s, hs⟩ := readBlob_of_mem hr0 (hr0u.2.trans hku.symm)
    have hsm := readBlob_some hs
    rw [hs]
    simp [(hiff s hsm.1).mpr (hsm.2.trans hku)]
  · rw [if_neg hku]
    cases hs : orm.ReadBlob db k with
    | none => rfl
    | some s =>
      have hsm := readBlob_some hs
      have : ¬ s.ID = u.ID := fun h => hku (hsm.2.symm.trans ((hiff s hsm.1).mp h))
      simp [this]

theorem manager_Update_nil (w : World) (hf : w.faults = []) (blob : Blob) :
    manager.Update w blob = (.ok (), { w with db := orm.UpdateBlob w.db blob }) := by
  unfold manager.Update dao.UpdateBlob
  rw [fault_nil w hf]

theorem updateBlobs_nil (us : List Blob) (w : World) (hf : w.faults = [])
    (hw : w.db.wellFormed) (hk : ∀ u ∈ us, (u.ID, u.Digest) ∈ blobKeys w.db)
    (hu : ∀ u1 ∈ us, ∀ u2 ∈ us, u1.Digest = u2.Digest → u1 = u2) :
    (controller.updateBlobs us w).1 = .ok () ∧
    (controller.updateBlobs us w).2.faults = [] ∧
    (controller.updateBlobs us w).2.now = w.now ∧
    (controller.updateBlobs us w).2.db.artifactBlob = w.db.artifactBlob ∧
    (controller.updateBlobs us w).2.db.projectBlob = w.db.projectBlob ∧
    (controller.updateBlobs us w).2.db.wellFormed ∧
    ∀ k, orm.ReadBlob (controller.updateBlobs us w).2.db k =
      match us.find? (fun u => u.Digest == k) with
      | some u => (orm.ReadBlob w.db k).map (fun s => w.db.updateColumns.write s u)
      | none => orm.ReadBlob w.db k := by
  induction us generalizing w with
  | nil => exact ⟨rfl, hf, rfl, rfl, rfl, hw, fun k => rfl⟩
  | cons u rest ih =>
    unfold controller.updateBlobs
    rw [manager_Update_nil w hf]
    dsimp only
    have hku := hk u (List.mem_cons_self _ _)
    have hsame := updateBlob_sameBlobs w.db u hw.1 hku
    have hw1 : (orm.UpdateBlob w.db u).wellFormed := sameBlobs_wellFormed hsame hw
    obtain ⟨i1, i2, i3, i4, i5, i6, i7⟩ := ih { w with db := orm.UpdateBlob w.db u } hf hw1
      (fun v hv => by
        show (v.ID, v.Digest) ∈ blobKeys (orm.UpdateBlob w.db u)
        rw [hsame.1]
        exact hk v (List.mem_cons_of_mem _ hv))
      (fun u1 h1 u2 h2 => hu u1 (List.mem_cons_of_mem _ h1) u2 (List.mem_cons_of_mem _ h2))
    refine ⟨i1, i2, i3, i4, i5, i6, fun k => ?_⟩
    rw [i7 k]
    have hcols : (orm.UpdateBlob w.db u).updateColumns = w.db.updateColumns := rfl
    simp only [List.find?_cons, hcols]
    by_cases hd : u.Digest = k
    · have hb : (u.Digest == k) = true := by simpa using hd
      rw [hb]
      cases hfind : rest.find? (fun u => u.Digest == k) with
      | some v =>
        have hv1 := List.mem_of_find?_eq_some hfind
        have hv2 := List.find?_some hfind
        simp only [beq_iff_eq] at hv2
        have := hu u (List.mem_cons_self _ _) v (List.mem_cons_of_mem _ hv1) (hd.trans hv2.symm)
        subst this
        dsimp only
        rw [updateBlob_read w.db hw u hku k, if_pos hd.symm]
        cases orm.ReadBlob w.db k with
        | none => rfl
        | some s => simp [write_write]
      | none =>
        dsimp only
        rw [updateBlob_read w.db hw u hku k, if_pos hd.symm]
    · have hb : (u.Digest == k) = false := by simpa using hd
      rw [hb]
      cases hfind : rest.find? (fun u => u.Digest == k) with
      | some v =>
        dsimp only
        rw [updateBlob_read w.db hw u hku k, if_neg (fun h => hd h.symm)]
      | none =>
        dsimp only
        rw [updateBlob_read w.db hw u hku k, if_neg (fun h => hd h.symm)]

theorem insertOrUpdateBlob_read (db : DB) (row : Blob) (k : String) :
    orm.ReadBlob (orm.InsertOrUpdateBlob db row).2 k =
      match orm.ReadBlob db k with
      | some b => some b
      | none => if k = row.Digest then some { row with ID := db.blobSeq + 1 } else none := by
  cases hr : orm.ReadBlob db row.Digest with
  | some b0 =>
    rw [insertOrUpdateBlob_hit hr]
    cases hk : orm.ReadBlob db k with
    | some b => rfl
    | none =>
      dsimp only
      have : k ≠ row.Digest := by
        intro h
        rw [h, hr] at hk
        exact absurd hk (by simp)
      rw [if_neg this]
  | none =>
    rw [insertOrUpdateBlob_miss hr]
    unfold orm.ReadBlob at hr ⊢
    simp only [List.find?_append]
    cases hk : db.blob.find? (fun b => b.Digest == k) with
    | some b => rfl
    | none =>
      by_cases hkd : k = row.Digest
      · simp [hkd]
      · have : ¬ row.Digest = k := fun h => hkd h.symm
        simp [hkd, this]

theorem insertOrUpdateBlob_frame (db : DB) (row : Blob) :
    (orm.InsertOrUpdateBlob db row).2.artifactBlob = db.artifactBlob ∧
    (orm.InsertOrUpdateBlob db row).2.projectBlob = db.projectBlob := by
  unfold orm.InsertOrUpdateBlob
  split <;> simp

theorem createBlobs_nil (ms : List Blob) (w : World) (hf : w.faults = []) :
    (controller.createBlobs ms w).1 = .ok () ∧
    (controller.createBlobs ms w).2.faults = [] ∧
    (controller.createBlobs ms w).2.db.artifactBlob = w.db.artifactBlob ∧
    (controller.createBlobs ms w).2.db.projectBlob = w.db.projectBlob ∧
    (∀ k b, orm.ReadBlob w.db k = some b →
      orm.ReadBlob (controller.createBlobs ms w).2.db k = some b) ∧
    (∀ k m, orm.ReadBlob w.db k = none → ms.find? (fun m => m.Digest == k) = some m →
      ∃ b, orm.ReadBlob (controller.createBlobs ms w).2.db k = some b ∧ b.Digest = k ∧
        b.ContentType = m.ContentType ∧ b.Size = m.Size) ∧
    (∀ k, orm.ReadBlob w.db k = none → ms.find? (fun m => m.Digest == k) = none →
      orm.ReadBlob (controller.createBlobs ms w).2.db k = none) := by
  induction ms generalizing w with
  | nil =>
    refine ⟨rfl, hf, rfl, rfl, fun k b h => h, ?_, fun k h _ => h⟩
    intro k m _ hm
    simp at hm
  | cons x rest ih =>
    unfold controller.createBlobs
    rw [manager_Create_nil w hf]
    dsimp only
    have hfr := insertOrUpdateBlob_frame w.db ⟨0, x.Digest, x.ContentType, x.Size, w.now⟩
    have hrd := insertOrUpdateBlob_read w.db ⟨0, x.Digest, x.ContentType, x.Size, w.now⟩
    obtain ⟨i1, i2, i3, i4, i5, i6, i7⟩ := ih
      { db := (orm.InsertOrUpdateBlob w.db ⟨0, x.Digest, x.ContentType, x.Size, w.now⟩).2,
        faults := [], now := w.now + 1 } rfl
    refine ⟨i1, i2, i3.trans hfr.1, i4.trans hfr.2, ?_, ?_, ?_⟩
    · intro k b hb
      apply i5
      show orm.ReadBlob (orm.InsertOrUpdateBlob w.db _).2 k = some b
      rw [hrd k, hb]
    · intro k m hk hm
      simp only [List.find?_cons] at hm
      by_cases hx : x.Digest = k
      · have hbx : (x.Digest == k) = true := by simpa using hx
        rw [hbx] at hm
        have hmx : x = m := Option.some.inj hm
        refine ⟨_, i5 k { (⟨0, x.Digest, x.ContentType, x.Size, w.now⟩ : Blob) with
            ID := w.db.blobSeq + 1 } ?_, ?_, ?_, ?_⟩
        · show orm.ReadBlob (orm.InsertOrUpdateBlob w.db _).2 k = some _
          rw [hrd k, hk]
          simp [hx]
        · exact hx
        · rw [← hmx]
        · rw [← hmx]
      · have hbx : (x.Digest == k) = false := by simpa using hx
        rw [hbx] at hm
        apply i6 k m ?_ hm
        show orm.ReadBlob (orm.InsertOrUpdateBlob w.db _).2 k = none
        rw [hrd k, hk]
        have hne : ¬ k = x.Digest := fun h => hx h.symm
        simp [hne]
    · intro k hk hm
      simp only [List.find?_cons] at hm
      by_cases hx : x.Digest = k
      · have hbx : (x.Digest == k) = true := by simpa using hx
        rw [hbx] at hm
        exact absurd hm (by simp)
      · have hbx : (x.Digest == k) = false := by simpa using hx
        rw [hbx] at hm
        apply i7 k ?_ hm
        show orm.ReadBlob (orm.InsertOrUpdateBlob w.db _).2 k = none
        rw [hrd k, hk]
        have hne : ¬ k = x.Digest := fun h => hx h.symm
        simp [hne]

theorem withTransaction_ok (f : World → Except Err Unit × World) (w : World)
    (h : (f w).1 = .ok ()) : orm.WithTransaction f w = f w := by
  unfold orm.WithTransaction
  rcases hg : f w with ⟨r, w1⟩
  rw [hg] at h
  dsimp only at h
  subst h
  rfl

theorem Sync_eq (w : World) (hf : w.faults = []) (refs : List Descriptor) (hne : refs ≠ [])
    (hupd : (controller.updateBlobs (controller.updatesOf w.db refs) w).1 = .ok ()) :
    controller.Sync w { References := refs } =
      controller.createBlobs (controller.planOf w.db refs).missing
        (controller.updateBlobs (controller.updatesOf w.db refs) w).2 := by
  unfold controller.Sync
  have hlen : ¬ refs.length = 0 := fun h => hne (List.length_eq_zero.mp h)
  simp only [hlen, if_false]
  rw [manager_List_nil w hf]
  dsimp only
  have hw2 : (if (controller.updatesOf w.db refs).length > 0
      then (orm.WithTransaction (controller.updateBlobs (controller.updatesOf w.db refs)) w).2
      else w) = (controller.updateBlobs (controller.updatesOf w.db refs) w).2 := by
    cases hU : controller.updatesOf w.db refs with
    | nil => rfl
    | cons u rest =>
      rw [hU] at hupd
      simp only [List.length_cons, gt_iff_lt, Nat.zero_lt_succ, if_true]
      rw [withTransaction_ok _ w hupd]
  change (if (controller.planOf w.db refs).missing.length > 0 then
      controller.createBlobs (controller.planOf w.db refs).missing
        (if (controller.updatesOf w.db refs).length > 0
          then (orm.WithTransaction (controller.updateBlobs (controller.updatesOf w.db refs)) w).2
          else w)
    else (.ok (),
        (if (controller.updatesOf w.db refs).length > 0
          then (orm.WithTransaction (controller.updateBlobs (controller.updatesOf w.db refs)) w).2
          else w))) = _
  rw [hw2]
  cases hM : (controller.planOf w.db refs).missing with
  | nil => rfl
  | cons m rest => simp

theorem planOf_facts (db : DB) (hw : db.wellFormed) (refs : List Descriptor)
    (hne : refs ≠ []) :
    (∀ k b, (controller.planOf db refs).mp k = some b →
      b.Digest = k ∧ k ∈ refs.map (fun reference => reference.Digest) ∧
        ∃ row, orm.ReadBlob db k = some row ∧ b.ID = row.ID ∧ b.Size = row.Size) ∧
    (∀ k row, orm.ReadBlob db k = some row → k ∈ refs.map (fun reference => reference.Digest) →
      ∃ b, (controller.planOf db refs).mp k = some b) ∧
    (∀ k b, (controller.planOf db refs).mp k = some b →
      k ∉ (controller.planOf db refs).updating →
      ∃ row, orm.ReadBlob db k = some row ∧ b = manager.toBlob row) ∧
    (consistentRefs refs → ∀ r ∈ refs, ∀ b, (controller.planOf db refs).mp r.Digest = some b →
      b.ContentType = r.MediaType) ∧
    (∀ m ∈ (controller.planOf db refs).missing, orm.ReadBlob db m.Digest = none ∧
      ∃ r ∈ refs, m.Digest = r.Digest ∧ m.ContentType = r.MediaType ∧ m.Size = r.Size) ∧
    (∀ r ∈ refs, orm.ReadBlob db r.Digest = none →
      ∃ m ∈ (controller.planOf db refs).missing, m.Digest = r.Digest) ∧
    (∀ k ∈ (controller.planOf db refs).updating,
      ∃ b, (controller.planOf db refs).mp k = some b) := by
  cases refs with
  | nil => exact absurd rfl hne
  | cons r0 tl =>
    have hm0 : ∀ k, controller.buildMap
        ((orm.AllBlobs db
          (if ((r0 :: tl).map (fun reference => reference.Digest)).length > 0
            then some ((r0 :: tl).map (fun reference => reference.Digest)) else none)).map
          manager.toBlob) k
        = if k ∈ (r0 :: tl).map (fun reference => reference.Digest)
            then (orm.ReadBlob db k).map manager.toBlob else none := by
      intro k
      have := buildMap_listed db hw ((r0 :: tl).map (fun reference => reference.Digest)) k
      simpa [orm.AllBlobs] using this
    have hinv := planInv_fold _ (r0 :: tl) [] _ (planInv_init (controller.buildMap
        ((orm.AllBlobs db
          (if ((r0 :: tl).map (fun reference => reference.Digest)).length > 0
            then some ((r0 :: tl).map (fun reference => reference.Digest)) else none)).map
          manager.toBlob)))
    rw [List.nil_append] at hinv
    change controller.PlanInv _ (r0 :: tl) (controller.planOf db (r0 :: tl)) at hinv
    have hsome : ∀ k b0, controller.buildMap
        ((orm.AllBlobs db
          (if ((r0 :: tl).map (fun reference => reference.Digest)).length > 0
            then some ((r0 :: tl).map (fun reference => reference.Digest)) else none)).map
          manager.toBlob) k = some b0 →
        k ∈ (r0 :: tl).map (fun reference => reference.Digest) ∧
          ∃ row, orm.ReadBlob db k = some row ∧ b0 = manager.toBlob row := by
      intro k b0 h
      rw [hm0 k] at h
      by_cases hk : k ∈ (r0 :: tl).map (fun reference => reference.Digest)
      · rw [if_pos hk] at h
        cases hr : orm.ReadBlob db k with
        | none => rw [hr] at h; exact absurd h (by simp)
        | some row =>
          rw [hr] at h
          exact ⟨hk, row, rfl, (Option.some.inj h).symm⟩
      · rw [if_neg hk] at h
        exact absurd h (by simp)
    refine ⟨?_, ?_, ?_, hinv.typed, ?_, ?_, hinv.updatingKnown⟩
    · intro k b hb
      obtain ⟨b0, h0, h1, h2, h3, _⟩ := hinv.same k b hb
      obtain ⟨hk, row, hrow, hb0⟩ := hsome k b0 h0
      have hrm := readBlob_some hrow
      refine ⟨?_, hk, row, hrow, ?_, ?_⟩
      · rw [h2, hb0]; exact hrm.2
      · rw [h1, hb0]; rfl
      · rw [h3, hb0]; rfl
    · intro k row hrow hk
      apply hinv.dom k (manager.toBlob row)
      rw [hm0 k, if_pos hk, hrow]
      rfl
    · intro k b hb hnu
      have h0 := hinv.kept k b hb hnu
      obtain ⟨_, row, hrow, hb0⟩ := hsome k b h0
      exact ⟨row, hrow, hb0⟩
    · intro m hm
      obtain ⟨h0, r, hr, hmr⟩ := hinv.missingFrom m hm
      have hd : m.Digest = r.Digest := by rw [hmr]
      refine ⟨?_, r, hr, hd, by rw [hmr], by rw [hmr]⟩
      rw [hm0, if_pos (by rw [hd]; exact List.mem_map.mpr ⟨r, hr, rfl⟩)] at h0
      cases hrd : orm.ReadBlob db m.Digest with
      | none => rfl
      | some row => rw [hrd] at h0; exact absurd h0 (by simp)
    · intro r hr hnone
      refine ⟨_, hinv.missingAll r hr ?_, rfl⟩
      rw [hm0, if_pos (List.mem_map.mpr ⟨r, hr, rfl⟩), hnone]
      rfl

theorem Sync_nil (w : World) (hf : w.faults = []) (hw : w.db.wellFormed)
    (refs : List Descriptor) :
    (controller.Sync w { References := refs }).1 = .ok () ∧
    (controller.Sync w { References := refs }).2.faults = [] ∧
    (controller.Sync w { References := refs }).2.db.artifactBlob = w.db.artifactBlob ∧
    (controller.Sync w { References := refs }).2.db.projectBlob = w.db.projectBlob ∧
    (∀ r ∈ refs, ∃ b,
      orm.ReadBlob (controller.Sync w { References := refs }).2.db r.Digest = some b ∧
        (consistentRefs refs →
          b.ContentType = r.MediaType ∧
            (orm.ReadBlob w.db r.Digest = none → b.Size = r.Size))) ∧
    (∀ k row, orm.ReadBlob w.db k = some row → ∃ b,
      orm.ReadBlob (controller.Sync w { References := refs }).2.db k = some b ∧
        b.ID = row.ID ∧ b.Digest = row.Digest ∧ b.Size = row.Size) ∧
    (∀ k, k ∉ refs.map (fun reference => reference.Digest) →
      orm.ReadBlob (controller.Sync w { References := refs }).2.db k = orm.ReadBlob w.db k) := by
  by_cases hne : refs = []
  · subst hne
    have hs : controller.Sync w { References := [] } = (.ok (), w) := by
      unfold controller.Sync
      simp
    rw [hs]
    refine ⟨rfl, hf, rfl, rfl, ?_, ?_, fun k _ => rfl⟩
    · intro r hr
      exact absurd hr (List.not_mem_nil _)
    · intro k row hrow
      exact ⟨row, hrow, rfl, rfl, rfl⟩
  · obtain ⟨F1, F2, F3, F4, F5, F6, F7⟩ := planOf_facts w.db hw refs hne
    have hUmem : ∀ u ∈ controller.updatesOf w.db refs,
        u.Digest ∈ (controller.planOf w.db refs).updating ∧
          (controller.planOf w.db refs).mp u.Digest = some u := by
      intro u hu
      unfold controller.updatesOf at hu
      obtain ⟨k, hk, hku⟩ := List.mem_filterMap.mp hu
      have := (F1 k u hku).1
      rw [this]
      exact ⟨hk, hku⟩
    have hUk : ∀ u ∈ controller.updatesOf w.db refs, (u.ID, u.Digest) ∈ blobKeys w.db := by
      intro u hu
      obtain ⟨_, _, row, hrow, hid, _⟩ := F1 _ u (hUmem u hu).2
      have hrm := readBlob_some hrow
      unfold blobKeys
      exact List.mem_map.mpr ⟨row, hrm.1, by rw [hid, hrm.2]⟩
    have hUu : ∀ u1 ∈ controller.updatesOf w.db refs, ∀ u2 ∈ controller.updatesOf w.db refs,
        u1.Digest = u2.Digest → u1 = u2 := by
      intro u1 h1 u2 h2 hd
      have e1 := (hUmem u1 h1).2
      have e2 := (hUmem u2 h2).2
      rw [hd, e2] at e1
      exact (Option.some.inj e1).symm
    obtain ⟨a1, a2, _, a4, a5, _, a7⟩ :=
      updateBlobs_nil (controller.updatesOf w.db refs) w hf hw hUk hUu
    rw [Sync_eq w hf refs hne a1]
    obtain ⟨c1, c2, c3, c4, c5, c6, c7⟩ := createBlobs_nil (controller.planOf w.db refs).missing
      (controller.updateBlobs (controller.updatesOf w.db refs) w).2 a2
    have R2some : ∀ k row, orm.ReadBlob w.db k = some row → ∃ x,
        orm.ReadBlob (controller.updateBlobs (controller.updatesOf w.db refs) w).2.db k = some x ∧
          x.ID = row.ID ∧ x.Digest = row.Digest ∧ x.Size = row.Size ∧
          (∀ b, (controller.planOf w.db refs).mp k = some b → x.ContentType = b.ContentType) ∧
          (k ∉ refs.map (fun reference => reference.Digest) → x = row) := by
      intro k row hrow
      have hrm := readBlob_some hrow
      rw [a7 k]
      cases hfind : (controller.updatesOf w.db refs).find? (fun u => u.Digest == k) with
      | some u =>
        have hu1 := List.mem_of_find?_eq_some hfind
        have hu2 := List.find?_some hfind
        simp only [beq_iff_eq] at hu2
        have hmp := (hUmem u hu1).2
        rw [hu2] at hmp
        obtain ⟨_, hk, row2, hrow2, hid, hsz⟩ := F1 k u hmp
        rw [hrow] at hrow2
        have hrr : row = row2 := Option.some.inj hrow2
        refine ⟨w.db.updateColumns.write row u, ?_, rfl, ?_, ?_, ?_, ?_⟩
        · show (orm.ReadBlob w.db k).map _ = _
          rw [hrow]
          rfl
        · unfold UpdateColumns.write
          cases w.db.updateColumns.digest <;> simp [hu2, hrm.2]
        · unfold UpdateColumns.write
          cases w.db.updateColumns.size <;> simp [hsz, hrr]
        · intro b hb
          rw [hmp] at hb
          rw [← Option.some.inj hb]
          rfl
        · intro hnk
          exact absurd hk hnk
      | none =>
        refine ⟨row, hrow, rfl, rfl, rfl, ?_, fun _ => rfl⟩
        intro b hb
        have hnu : k ∉ (controller.planOf w.db refs).updating := by
          intro hku
          have hbU : b ∈ controller.updatesOf w.db refs := by
            unfold controller.updatesOf
            exact List.mem_filterMap.mpr ⟨k, hku, hb⟩
          have := List.find?_eq_none.mp hfind b hbU
          simp only [beq_iff_eq] at this
          exact this (F1 k b hb).1
        obtain ⟨row2, hrow2, hb2⟩ := F3 k b hb hnu
        rw [hrow] at hrow2
        rw [hb2, ← Option.some.inj hrow2]
        rfl
    have R2none : ∀ k, orm.ReadBlob w.db k = none →
        orm.ReadBlob (controller.updateBlobs (controller.updatesOf w.db refs) w).2.db k
          = none := by
      intro k hnone
      rw [a7 k]
      cases hfind : (controller.updatesOf w.db refs).find? (fun u => u.Digest == k) with
      | some u =>
        have hu1 := List.mem_of_find?_eq_some hfind
        have hu2 := List.find?_some hfind
        simp only [beq_iff_eq] at hu2
        have hmp := (hUmem u hu1).2
        rw [hu2] at hmp
        obtain ⟨_, _, row2, hrow2, _⟩ := F1 k u hmp
        rw [hnone] at hrow2
        exact absurd hrow2 (by simp)
      | none => exact hnone
    refine ⟨c1, c2, c3.trans a4, c4.trans a5, ?_, ?_, ?_⟩
    · intro r hr
      cases hrow : orm.ReadBlob w.db r.Digest with
      | some row =>
        obtain ⟨x, hx, _, _, _, hct, _⟩ := R2some r.Digest row hrow
        obtain ⟨b, hb⟩ := F2 r.Digest row hrow (List.mem_map.mpr ⟨r, hr, rfl⟩)
        refine ⟨x, c5 _ _ hx, fun hc => ⟨?_, fun h => absurd h (by simp)⟩⟩
        rw [hct b hb]
        exact F4 hc r hr b hb
      | none =>
        obtain ⟨m0, hm0, hm0d⟩ := F6 r hr hrow
        cases hfind : (controller.planOf w.db refs).missing.find?
            (fun m => m.Digest == r.Digest) with
        | none =>
          have := List.find?_eq_none.mp hfind m0 hm0
          simp only [beq_iff_eq] at this
          exact absurd hm0d this
        | some m =>
          have hm1 := List.mem_of_find?_eq_some hfind
          have hm2 := List.find?_some hfind
          simp only [beq_iff_eq] at hm2
          obtain ⟨_, r2, hr2, hd2, hct2, hsz2⟩ := F5 m hm1
          obtain ⟨b, hb, _, hbct, hbsz⟩ := c6 r.Digest m (R2none _ hrow) hfind
          refine ⟨b, hb, fun hc => ?_⟩
          have hcons := hc r2 hr2 r hr (hd2.symm.trans hm2)
          exact ⟨by rw [hbct, hct2, hcons.1], fun _ => by rw [hbsz, hsz2, hcons.2]⟩
    · intro k row hrow
      obtain ⟨x, hx, h1, h2, h3, _, _⟩ := R2some k row hrow
      exact ⟨x, c5 _ _ hx, h1, h2, h3⟩
    · intro k hk
      cases hrow : orm.ReadBlob w.db k with
      | some row =>
        obtain ⟨x, hx, _, _, _, _, hxr⟩ := R2some k row hrow
        rw [c5 _ _ hx, hxr hk]
      | none =>
        apply c7 k (R2none k hrow)
        rw [List.find?_eq_none]
        intro m hm hmk
        simp only [beq_iff_eq] at hmk
        obtain ⟨_, r2, hr2, hd2, _⟩ := F5 m hm
        exact hk (List.mem_map.mpr ⟨r2, hr2, by rw [← hd2, hmk]⟩)

theorem consistentRefs_singleton (r : Descriptor) : consistentRefs [r] := by
  intro r1 h1 r2 h2 _
  rw [List.mem_singleton] at h1 h2
  rw [h1, h2]
  exact ⟨rfl, rfl⟩

theorem hasBlob_iff_read (db : DB) (d : String) :
    db.hasBlob d ↔ ∃ b, orm.ReadBlob db d = some b := by
  constructor
  · rintro ⟨b, hb, hd⟩
    exact readBlob_of_mem hb hd
  · rintro ⟨b, hb⟩
    exact ⟨b, (readBlob_some hb).1, (readBlob_some hb).2⟩

theorem Get_nil_unscoped (w : World) (hf : w.faults = []) (d : String) (hd : d ≠ "")
    (b : Blob) (hb : orm.ReadBlob w.db d = some b) :
    controller.Get w { Digest := d, ArtifactDigest := "", ProjectID := 0 }
      = (.ok (manager.toBlob b), w) := by
  obtain ⟨fp, fa, _, _, hget⟩ := Get_nil w hf d "" 0 hd
  rw [hget, hb]
  simp

/-- C12, as stated, fails: over the empty ledger, `Sync` of two references that
share digest `d` but declare media types `m1` and `m2` returns success and
leaves `d` with content type `m1`, so `Get(d)` does not return the media type
of the second reference; and after a successful `Sync` of a reference with the
empty digest, `Get` of that digest fails with BadRequest. -/
theorem sync_then_get_counterexample :
    (controller.Sync emptyWorld
      { References := [⟨"m1", "d", 10⟩, ⟨"m2", "d", 10⟩] }).1 = .ok () ∧
    (controller.Get
      (controller.Sync emptyWorld { References := [⟨"m1", "d", 10⟩, ⟨"m2", "d", 10⟩] }).2
      { Digest := "d", ArtifactDigest := "", ProjectID := 0 }).1
        = .ok ⟨1, "d", "m1", 10, 0⟩ ∧
    (controller.Sync emptyWorld { References := [⟨"m1", "", 10⟩] }).1 = .ok () ∧
    (controller.Get (controller.Sync emptyWorld { References := [⟨"m1", "", 10⟩] }).2
      { Digest := "", ArtifactDigest := "", ProjectID := 0 }).1
        = .error (.badRequest "require Digest") := by
  decide

/-- C12, amended: for every reference list whose digests are non-empty and in
which references that share a digest declare the same media type and size, and
every well-formed ledger, on a store that does not fail: `Sync(references)`
returns success, and then for each reference `Get(reference.digest)` succeeds
and returns a blob whose digest is the reference's digest and whose content
type is the reference's declared media type; for a digest that had no blob
before the call, the blob's size is the reference's declared size. -/
theorem sync_then_get (w : World) (refs : List Descriptor)
    (hf : w.faults = []) (hw : w.db.wellFormed) (hc : consistentRefs refs)
    (hd : ∀ r ∈ refs, r.Digest ≠ "") :
    (controller.Sync w { References := refs }).1 = .ok () ∧
    ∀ r ∈ refs, ∃ blob,
      controller.Get (controller.Sync w { References := refs }).2
          { Digest := r.Digest, ArtifactDigest := "", ProjectID := 0 }
        = (.ok blob, (controller.Sync w { References := refs }).2) ∧
      blob.Digest = r.Digest ∧ blob.ContentType = r.MediaType ∧
      (¬ w.db.hasBlob r.Digest → blob.Size = r.Size) := by
  obtain ⟨s1, s2, _, _, s5, _, _⟩ := Sync_nil w hf hw refs
  refine ⟨s1, fun r hr => ?_⟩
  obtain ⟨b, hb, hbc⟩ := s5 r hr
  obtain ⟨hct, hsz⟩ := hbc hc
  refine ⟨manager.toBlob b, Get_nil_unscoped _ s2 r.Digest (hd r hr) b hb, ?_, hct, ?_⟩
  · exact (readBlob_some hb).2
  · intro hno
    apply hsz
    cases hr0 : orm.ReadBlob w.db r.Digest with
    | none => rfl
    | some row => exact absurd ((hasBlob_iff_read _ _).mpr ⟨row, hr0⟩) hno

theorem sync_then_get_witness :
    (controller.Sync oneBlobWorld
      { References := [⟨"m2", "d", 10⟩, ⟨"m3", "e", 7⟩, ⟨"m3", "e", 7⟩] }).1 = .ok () ∧
    ∀ r ∈ [(⟨"m2", "d", 10⟩ : Descriptor), ⟨"m3", "e", 7⟩, ⟨"m3", "e", 7⟩], ∃ blob,
      controller.Get
          (controller.Sync oneBlobWorld
            { References := [⟨"m2", "d", 10⟩, ⟨"m3", "e", 7⟩, ⟨"m3", "e", 7⟩] }).2
          { Digest := r.Digest, ArtifactDigest := "", ProjectID := 0 }
        = (.ok blob,
            (controller.Sync oneBlobWorld
              { References := [⟨"m2", "d", 10⟩, ⟨"m3", "e", 7⟩, ⟨"m3", "e", 7⟩] }).2) ∧
      blob.Digest = r.Digest ∧ blob.ContentType = r.MediaType ∧
      (¬ oneBlobWorld.db.hasBlob r.Digest → blob.Size = r.Size) :=
  sync_then_get oneBlobWorld [⟨"m2", "d", 10⟩, ⟨"m3", "e", 7⟩, ⟨"m3", "e", 7⟩] rfl
    (by unfold DB.wellFormed blobKeys; decide) (by decide) (by decide)

/-- C13: for every digest `d` and media types `m1`, `m2`, over any well-formed
ledger and a store that does not fail, `Sync([{d, m1, 10}])` followed by
`Sync([{d, m2, 10}])` both succeed and leave a single row for `d`, whose
content type is `m2`, with the id, digest and size it had after the first
`Sync` (when it had content type `m1`). -/
theorem sync_twice_content_type (w : World) (d m1 m2 : String)
    (hf : w.faults = []) (hw : w.db.wellFormed) :
    (controller.Sync w { References := [⟨m1, d, 10⟩] }).1 = .ok () ∧
    (controller.Sync (controller.Sync w { References := [⟨m1, d, 10⟩] }).2
      { References := [⟨m2, d, 10⟩] }).1 = .ok () ∧
    blobCount (controller.Sync (controller.Sync w { References := [⟨m1, d, 10⟩] }).2
      { References := [⟨m2, d, 10⟩] }).2.db d = 1 ∧
    ∃ b1 b2,
      orm.ReadBlob (controller.Sync w { References := [⟨m1, d, 10⟩] }).2.db d = some b1 ∧
      orm.ReadBlob (controller.Sync (controller.Sync w { References := [⟨m1, d, 10⟩] }).2
        { References := [⟨m2, d, 10⟩] }).2.db d = some b2 ∧
      b1.ContentType = m1 ∧ b2.ContentType = m2 ∧
      b2.ID = b1.ID ∧ b2.Digest = b1.Digest ∧ b2.Size = b1.Size := by
  obtain ⟨s1, s2, _, _, s5, _, _⟩ := Sync_nil w hf hw [⟨m1, d, 10⟩]
  have hw1 := Sync_wellFormed w { References := [⟨m1, d, 10⟩] } hw
  obtain ⟨t1, _, _, _, t5, t6, _⟩ := Sync_nil _ s2 hw1 [⟨m2, d, 10⟩]
  have hw2 := Sync_wellFormed _ { References := [⟨m2, d, 10⟩] } hw1
  obtain ⟨b1, hb1, hbc1⟩ := s5 ⟨m1, d, 10⟩ (List.mem_singleton.mpr rfl)
  obtain ⟨b2, hb2, hbc2⟩ := t5 ⟨m2, d, 10⟩ (List.mem_singleton.mpr rfl)
  have hct1 := (hbc1 (consistentRefs_singleton _)).1
  have hct2 := (hbc2 (consistentRefs_singleton _)).1
  obtain ⟨b3, hb3, h1, h2, h3⟩ := t6 d b1 hb1
  have hb23 : b2 = b3 := by
    have : some b2 = some b3 := hb2.symm.trans hb3
    exact Option.some.inj this
  refine ⟨s1, t1, le_antisymm (blobCount_le_one _ hw2 d) (blobCount_pos_of_read hb2),
    b1, b2, hb1, hb2, hct1, hct2, ?_, ?_, ?_⟩
  · rw [hb23]; exact h1
  · rw [hb23]; exact h2
  · rw [hb23]; exact h3

theorem sync_twice_content_type_witness :
    blobCount (controller.Sync (controller.Sync emptyWorld { References := [⟨"m1", "d", 10⟩] }).2
      { References := [⟨"m2", "d", 10⟩] }).2.db "d" = 1 :=
  (sync_twice_content_type emptyWorld "d" "m1" "m2" rfl
    (by unfold DB.wellFormed blobKeys; decide)).2.2.1

/-- C14: at a `Sync` whose one update fails in the store (ledger with blob `d`
of content type `text`, reference `{d, m2, 10}`, the update call failing), the
transaction of the update batch ends with that failure and the batch is undone,
yet `Sync` returns success: the result of the transaction is dropped, so the
failure is not reported to the caller. -/
theorem sync_drops_update_failure :
    (orm.WithTransaction
        (controller.updateBlobs (controller.updatesOf updateFailsWorld.db [⟨"m2", "d", 10⟩]))
        (manager.List updateFailsWorld ["d"]).2).1 = .error (.raw "deadlock detected") ∧
    (controller.Sync updateFailsWorld { References := [⟨"m2", "d", 10⟩] }).1 = .ok () ∧
    (controller.Sync updateFailsWorld { References := [⟨"m2", "d", 10⟩] }).2.db
      = updateFailsWorld.db := by
  decide

/-! ## Reading a row and writing it back

`manager.toBlob` does not copy the creation time, so the blob that `manager.Get`
returns carries the zero time, and `manager.Update` hands that zero time to the
store with the rest of the row. What the stored row holds afterwards depends on
the columns the store's `Update` writes. -/

/-- Whatever the stored row, on a store that does not fail: `manager.Get`
returns the row with the zero time for its creation time, and after
`manager.Update` of that blob the stored row has the id, digest, content type
and size it had; its creation time is the zero time when the store's `Update`
writes `creation_time`, and the one it had when it does not. -/
theorem get_then_update_row (w : World) (hf : w.faults = []) (hw : w.db.wellFormed)
    (row : Blob) (hrow : row ∈ w.db.blob) :
    manager.Get w row.Digest = (.ok (manager.toBlob row), w) ∧
    (manager.toBlob row).CreationTime = 0 ∧
    orm.ReadBlob (manager.Update w (manager.toBlob row)).2.db row.Digest
      = some { row with
          CreationTime := if w.db.updateColumns.creationTime then 0 else row.CreationTime } := by
  have hr := readBlob_unique hw hrow
  refine ⟨by rw [manager_Get_nil w hf, hr], rfl, ?_⟩
  rw [manager_Update_nil w hf]
  have hk : ((manager.toBlob row).ID, (manager.toBlob row).Digest) ∈ blobKeys w.db :=
    List.mem_map.mpr ⟨row, hrow, rfl⟩
  have := updateBlob_read w.db hw (manager.toBlob row) hk row.Digest
  simp only at this ⊢
  rw [this, hr]
  simp [manager.toBlob, UpdateColumns.write]

/-- On a store that does not fail and whose `Update` leaves `creation_time`
alone, reading a stored row through `manager.Get` and writing the result back
through `manager.Update` leaves the ledger as it was. -/
theorem get_then_update_unchanged (w : World) (hf : w.faults = []) (hw : w.db.wellFormed)
    (row : Blob) (hrow : row ∈ w.db.blob) (hc : w.db.updateColumns.creationTime = false) :
    (manager.Update w (manager.toBlob row)).2.db = w.db := by
  rw [manager_Update_nil w hf]
  show orm.UpdateBlob w.db (manager.toBlob row) = w.db
  have hid := hw.1
  unfold blobKeys at hid
  rw [List.map_map] at hid
  have hmap : w.db.blob.map
      (fun b => if b.ID = (manager.toBlob row).ID
        then w.db.updateColumns.write b (manager.toBlob row) else b) = w.db.blob := by
    conv_rhs => rw [← List.map_id w.db.blob]
    apply List.map_congr_left
    intro b hb
    by_cases h : b.ID = (manager.toBlob row).ID
    · have hbr : b = row := List.inj_on_of_nodup_map hid hb hrow (by simpa using h)
      subst hbr
      rw [if_pos h]
      unfold UpdateColumns.write manager.toBlob
      simp [hc]
    · rw [if_neg h]
      rfl
  unfold orm.UpdateBlob
  rw [hmap]

/-- On the ledger with the one row `(7, d, text, 10)` created at time 3:
`manager.Get` returns the blob with the zero time. Writing it back through
`manager.Update`, and the content-type correction of `Sync`, keep the creation
time 3 on a store whose `Update` writes the content type only, and leave the
zero time on a store whose `Update` writes every column. -/
theorem get_then_update_examples :
    oneBlobWorld.db.blob = [⟨7, "d", "text", 10, 3⟩] ∧
    oneBlobWriteAllWorld.db.blob = [⟨7, "d", "text", 10, 3⟩] ∧
    (manager.Get oneBlobWorld "d").1 = .ok ⟨7, "d", "text", 10, 0⟩ ∧
    (manager.Update oneBlobWorld ⟨7, "d", "text", 10, 0⟩).2.db.blob
      = [⟨7, "d", "text", 10, 3⟩] ∧
    (manager.Update oneBlobWriteAllWorld ⟨7, "d", "text", 10, 0⟩).2.db.blob
      = [⟨7, "d", "text", 10, 0⟩] ∧
    (controller.Sync oneBlobWorld { References := [⟨"m2", "d", 10⟩] }).2.db.blob
      = [⟨7, "d", "m2", 10, 3⟩] ∧
    (controller.Sync oneBlobWriteAllWorld { References := [⟨"m2", "d", 10⟩] }).2.db.blob
      = [⟨7, "d", "m2", 10, 0⟩] := by
  decide

/-! ## Attaching twice -/

theorem insertOrUpdateArtifactAndBlob_pairs (db : DB) (row : ArtifactAndBlob)
    (h : (artifactPairs db).Nodup) :
    (artifactPairs (orm.InsertOrUpdateArtifactAndBlob db row).2).Nodup := by
  unfold orm.InsertOrUpdateArtifactAndBlob
  cases hr : db.artifactBlob.find?
      (fun r => r.DigestAF == row.DigestAF && r.DigestBlob == row.DigestBlob) with
  | some r => exact h
  | none =>
    unfold artifactPairs at h ⊢
    simp only [List.map_append, List.map_cons, List.map_nil]
    rw [List.nodup_append]
    refine ⟨h, List.nodup_singleton _, ?_⟩
    intro p hp hp2
    rw [List.mem_singleton] at hp2
    subst hp2
    obtain ⟨r, hr1, hr2⟩ := List.mem_map.mp hp
    have := List.find?_eq_none.mp hr r hr1
    simp only [Prod.mk.injEq] at hr2
    simp [hr2.1, hr2.2] at this

theorem manager_AttachToArtifact_pairs (w : World) (d a : String)
    (h : (artifactPairs w.db).Nodup) :
    (artifactPairs (manager.AttachToArtifact w d a).2.db).Nodup := by
  unfold manager.AttachToArtifact dao.CreateArtifactAndBlob
  have hd := fault_db w
  rcases hfl : w.fault with ⟨f, w1⟩
  rw [hfl] at hd
  simp only at hd
  cases f with
  | some e => simpa [hd] using h
  | none =>
    simp only [World.timeNow]
    rw [hd]
    exact insertOrUpdateArtifactAndBlob_pairs _ _ h

theorem attachBlobs_pairs (a : String) (ds : List String) (w : World)
    (h : (artifactPairs w.db).Nodup) :
    (artifactPairs (controller.attachBlobs a ds w).2.db).Nodup := by
  induction ds generalizing w with
  | nil => exact h
  | cons d rest ih =>
    unfold controller.attachBlobs
    have h1 := manager_AttachToArtifact_pairs w d a h
    rcases hg : manager.AttachToArtifact w d a with ⟨r, w1⟩
    rw [hg] at h1
    cases r with
    | error e => exact h1
    | ok id => exact ih w1 h1

theorem AttachToArtifact_pairs (w : World) (params : AttachToArtifactParams)
    (h : (artifactPairs w.db).Nodup) :
    (artifactPairs (controller.AttachToArtifact w params).2.db).Nodup := by
  unfold controller.AttachToArtifact
  have h0 := isAttachedToArtifact_db w params.ArtifactDigest params.ArtifactDigest
  rcases hg : manager.IsAttachedToArtifact w params.ArtifactDigest params.ArtifactDigest
    with ⟨r, w1⟩
  rw [hg] at h0
  simp only at h0
  have hw1 : (artifactPairs w1.db).Nodup := by rw [h0]; exact h
  cases r with
  | error e => exact hw1
  | ok exist =>
    cases exist with
    | true => exact hw1
    | false =>
      simp only [Bool.false_eq_true, if_false]
      have h1 := attachBlobs_pairs params.ArtifactDigest params.BlobDigests w1 hw1
      rcases hl : controller.attachBlobs params.ArtifactDigest params.BlobDigests w1
        with ⟨r2, w2⟩
      rw [hl] at h1
      cases r2 with
      | error e => exact h1
      | ok u =>
        dsimp only
        have h2 := manager_AttachToArtifact_pairs w2 params.ArtifactDigest
          params.ArtifactDigest h1
        rcases hm : manager.AttachToArtifact w2 params.ArtifactDigest params.ArtifactDigest
          with ⟨r3, w3⟩
        rw [hm] at h2
        cases r3 <;> exact h2

theorem AttachToArtifact_nil_marked (w : World) (hf : w.faults = []) (a : String)
    (ds : List String) (hself : w.db.attachedToArtifact a a) :
    controller.AttachToArtifact w { ArtifactDigest := a, BlobDigests := ds } = (.ok (), w) := by
  unfold controller.AttachToArtifact
  obtain ⟨found, hfound, hiff⟩ := isAttachedToArtifact_nil w hf a a
  have htrue : found = true := hiff.mpr hself
  subst htrue
  dsimp only
  rw [hfound]
  rfl

/-- C11, as stated, fails: in the reachable ledger that holds the
self-attachment of artifact `a` but no attachment of `d` to `a`, the first
call `AttachToArtifact(a, [d])` succeeds and `d` is still not attached to `a`
after it. -/
theorem attach_twice_counterexample :
    (controller.AttachToArtifact selfAttachedWorld
      { ArtifactDigest := "a", BlobDigests := ["d"] }).1 = .ok () ∧
    ¬ (controller.AttachToArtifact selfAttachedWorld
      { ArtifactDigest := "a", BlobDigests := ["d"] }).2.db.attachedToArtifact "d" "a" := by
  decide

/-- C11, amended: for every artifact digest `a` and every list of blob digests
`ds`, over a ledger in which every (artifactDigest, blobDigest) pair occurs at
most once and a store that does not fail, calling `AttachToArtifact(a, ds)`
twice with identical arguments makes both calls succeed, the second call leaves
the world exactly as the first left it, and every pair still occurs at most
once; after the first call `a` itself is attached to `a`, and, when the
self-attachment `(a, a)` was not recorded before the first call, so is every
digest in `ds`. -/
theorem attach_twice (w : World) (a : String) (ds : List String)
    (hf : w.faults = []) (hp : (artifactPairs w.db).Nodup) :
    (controller.AttachToArtifact w { ArtifactDigest := a, BlobDigests := ds }).1 = .ok () ∧
    controller.AttachToArtifact
        (controller.AttachToArtifact w { ArtifactDigest := a, BlobDigests := ds }).2
        { ArtifactDigest := a, BlobDigests := ds }
      = (.ok (), (controller.AttachToArtifact w { ArtifactDigest := a, BlobDigests := ds }).2) ∧
    (artifactPairs
      (controller.AttachToArtifact w { ArtifactDigest := a, BlobDigests := ds }).2.db).Nodup ∧
    (controller.AttachToArtifact w
      { ArtifactDigest := a, BlobDigests := ds }).2.db.attachedToArtifact a a ∧
    (¬ w.db.attachedToArtifact a a → ∀ d ∈ ds,
      (controller.AttachToArtifact w
        { ArtifactDigest := a, BlobDigests := ds }).2.db.attachedToArtifact d a) := by
  have hpairs := AttachToArtifact_pairs w { ArtifactDigest := a, BlobDigests := ds } hp
  by_cases hself : w.db.attachedToArtifact a a
  · have h1 := AttachToArtifact_nil_marked w hf a ds hself
    rw [h1]
    exact ⟨rfl, h1, hp, hself, fun h => absurd hself h⟩
  · obtain ⟨h1, h2, _, _, h5⟩ := AttachToArtifact_nil_fresh w hf a ds hself
    have hself2 := h5 a (Or.inr rfl)
    exact ⟨h1, AttachToArtifact_nil_marked _ h2 a ds hself2, hpairs, hself2,
      fun _ d hd => h5 d (Or.inl hd)⟩

theorem attach_twice_witness :
    (controller.AttachToArtifact oneBlobWorld
      { ArtifactDigest := "a", BlobDigests := ["d", "e", "d"] }).1 = .ok () ∧
    (artifactPairs (controller.AttachToArtifact oneBlobWorld
      { ArtifactDigest := "a", BlobDigests := ["d", "e", "d"] }).2.db).Nodup ∧
    ∀ d ∈ ["d", "e", "d"], (controller.AttachToArtifact oneBlobWorld
      { ArtifactDigest := "a", BlobDigests := ["d", "e", "d"] }).2.db.attachedToArtifact d "a" :=
  ⟨(attach_twice oneBlobWorld "a" ["d", "e", "d"] rfl (by decide)).1,
   (attach_twice oneBlobWorld "a" ["d", "e", "d"] rfl (by decide)).2.2.1,
   (attach_twice oneBlobWorld "a" ["d", "e", "d"] rfl (by decide)).2.2.2.2 (by decide)⟩

/-! ## Upload-size cache -/

theorem uploadSizeKey_injective {s t : String}
    (h : controller.uploadSizeKey s = controller.uploadSizeKey t) : s = t := by
  unfold controller.uploadSizeKey at h
  have hd := congrArg String.data h
  simp only [String.data_append] at hd
  have h1 := List.append_cancel_right hd
  have h2 := List.append_cancel_left h1
  exact String.ext h2

/-- C16: with a reachable key-value store, for every session id `s` and size
`n`: `GetAcceptedBlobSize(s)` fails when no size is set for `s`;
`SetAcceptedBlobSize(s, n)` succeeds and `GetAcceptedBlobSize(s)` then returns
`n`; and setting a size for `s` does not change what is read for a different
session id. -/
theorem accepted_blob_size_set_get (r : Redis) (s : String) (n : Int)
    (hr : r.reachable = true) :
    (r.data.lookup (controller.uploadSizeKey s) = none →
      ∃ e, controller.GetAcceptedBlobSize r s = .error e) ∧
    (controller.SetAcceptedBlobSize r s n).1 = .ok () ∧
    controller.GetAcceptedBlobSize (controller.SetAcceptedBlobSize r s n).2 s = .ok n ∧
    (∀ t, t ≠ s →
      controller.GetAcceptedBlobSize (controller.SetAcceptedBlobSize r s n).2 t
        = controller.GetAcceptedBlobSize r t) := by
  have hset : controller.SetAcceptedBlobSize r s n
      = (.ok (), { r with data := (controller.uploadSizeKey s, n) :: r.data }) := by
    unfold controller.SetAcceptedBlobSize redis.SET
    simp [hr]
  rw [hset]
  refine ⟨fun hno => ?_, rfl, ?_, fun t ht => ?_⟩
  · unfold controller.GetAcceptedBlobSize redis.GET
    simp [hr, hno]
  · unfold controller.GetAcceptedBlobSize redis.GET
    simp [hr, List.lookup]
  · have hk : (controller.uploadSizeKey t == controller.uploadSizeKey s) = false := by
      rw [beq_eq_false_iff_ne]
      exact fun h => ht (uploadSizeKey_injective h)
    unfold controller.GetAcceptedBlobSize redis.GET
    simp only [hr, if_true, List.lookup, hk]

theorem accepted_blob_size_set_get_witness :
    (∃ e, controller.GetAcceptedBlobSize emptyRedis "s1" = .error e) ∧
    controller.GetAcceptedBlobSize (controller.SetAcceptedBlobSize emptyRedis "s1" 100).2 "s1"
      = .ok 100 :=
  ⟨(accepted_blob_size_set_get emptyRedis "s1" 100 rfl).1 (by decide),
   (accepted_blob_size_set_get emptyRedis "s1" 100 rfl).2.2.1⟩

/-! ## A failed `AttachToArtifact` -/

theorem insertOrUpdateArtifactAndBlob_only (db : DB) (row : ArtifactAndBlob) (x y : String)
    (h : (orm.InsertOrUpdateArtifactAndBlob db row).2.attachedToArtifact x y) :
    db.attachedToArtifact x y ∨ (x = row.DigestBlob ∧ y = row.DigestAF) := by
  unfold orm.InsertOrUpdateArtifactAndBlob at h
  cases hr : db.artifactBlob.find?
      (fun r => r.DigestAF == row.DigestAF && r.DigestBlob == row.DigestBlob) with
  | some r =>
    rw [hr] at h
    exact Or.inl h
  | none =>
    rw [hr] at h
    obtain ⟨r, hr1, hr2, hr3⟩ := h
    simp only [List.mem_append, List.mem_singleton] at hr1
    rcases hr1 with h1 | h1
    · exact Or.inl ⟨r, h1, hr2, hr3⟩
    · right
      rw [h1] at hr2 hr3
      exact ⟨hr3.symm, hr2.symm⟩

theorem manager_AttachToArtifact_only (w : World) (d a x y : String)
    (h : (manager.AttachToArtifact w d a).2.db.attachedToArtifact x y) :
    w.db.attachedToArtifact x y ∨ (x = d ∧ y = a) := by
  unfold manager.AttachToArtifact dao.CreateArtifactAndBlob at h
  have hd := fault_db w
  rcases hfl : w.fault with ⟨f, w1⟩
  rw [hfl] at hd h
  simp only at hd
  cases f with
  | some e =>
    left
    simpa [hd] using h
  | none =>
    simp only [World.timeNow] at h
    rw [hd] at h
    exact insertOrUpdateArtifactAndBlob_only _ _ x y h

theorem manager_AttachToArtifact_error {w w1 : World} {d a : String} {e : Err}
    (h : manager.AttachToArtifact w d a = (.error e, w1)) : w1.db = w.db := by
  unfold manager.AttachToArtifact dao.CreateArtifactAndBlob at h
  have hd := fault_db w
  rcases hfl : w.fault with ⟨f, w2⟩
  rw [hfl] at hd h
  simp only at hd
  cases f with
  | some x =>
    simp only [Prod.mk.injEq] at h
    rw [← h.2]
    exact hd
  | none => simp at h

theorem attachBlobs_only (a : String) (ds : List String) (w : World) (x y : String)
    (h : (controller.attachBlobs a ds w).2.db.attachedToArtifact x y) :
    w.db.attachedToArtifact x y ∨ (x ∈ ds ∧ y = a) := by
  induction ds generalizing w with
  | nil => exact Or.inl h
  | cons d rest ih =>
    unfold controller.attachBlobs at h
    have h1 := manager_AttachToArtifact_only w d a x y
    rcases hg : manager.AttachToArtifact w d a with ⟨r, w1⟩
    rw [hg] at h h1
    have hstep : w1.db.attachedToArtifact x y → w.db.attachedToArtifact x y ∨
        (x ∈ d :: rest ∧ y = a) := by
      intro hw1
      rcases h1 hw1 with h2 | h2
      · exact Or.inl h2
      · exact Or.inr ⟨by rw [h2.1]; exact List.mem_cons_self _ _, h2.2⟩
    cases r with
    | error e => exact hstep h
    | ok id =>
      rcases ih w1 h with h2 | h2
      · exact hstep h2
      · exact Or.inr ⟨List.mem_cons_of_mem _ h2.1, h2.2⟩

/-- C17, as stated, fails when the list names the artifact itself: with
`ds = [a, d]`, on a store whose second member attachment fails,
`AttachToArtifact(a, ds)` returns the error although the self-attachment
`(a, a)` was written by the first iteration; the next call with the same
arguments short-circuits and `d` stays unattached. -/
theorem attach_error_marker_counterexample :
    ¬ thirdCallFailsWorld.db.attachedToArtifact "a" "a" ∧
    (controller.AttachToArtifact thirdCallFailsWorld
      { ArtifactDigest := "a", BlobDigests := ["a", "d"] }).1
        = .error (.raw "connection reset") ∧
    (controller.AttachToArtifact thirdCallFailsWorld
      { ArtifactDigest := "a", BlobDigests := ["a", "d"] }).2.db.attachedToArtifact "a" "a" ∧
    (controller.AttachToArtifact
      (controller.AttachToArtifact thirdCallFailsWorld
        { ArtifactDigest := "a", BlobDigests := ["a", "d"] }).2
      { ArtifactDigest := "a", BlobDigests := ["a", "d"] }).1 = .ok () ∧
    ¬ (controller.AttachToArtifact
      (controller.AttachToArtifact thirdCallFailsWorld
        { ArtifactDigest := "a", BlobDigests := ["a", "d"] }).2
      { ArtifactDigest := "a", BlobDigests := ["a", "d"] }).2.db.attachedToArtifact "d" "a" := by
  decide

/-- C17, amended: for every artifact digest `a`, every list of blob digests
`ds` that does not contain `a` itself, and every ledger without the
self-attachment `(a, a)`, under any schedule of store failures: if
`AttachToArtifact(a, ds)` returns an error, the self-attachment `(a, a)` is
still absent afterwards, so the next call with the same arguments, on a store
that no longer fails, does not short-circuit: it succeeds and attaches every
digest of `ds`, and `a` itself, to `a`. -/
theorem attach_error_leaves_marker_absent (w : World) (a : String) (ds : List String)
    (e : Err) (hself : ¬ w.db.attachedToArtifact a a) (hnot : a ∉ ds)
    (herr : (controller.AttachToArtifact w { ArtifactDigest := a, BlobDigests := ds }).1
      = .error e) :
    ¬ (controller.AttachToArtifact w
        { ArtifactDigest := a, BlobDigests := ds }).2.db.attachedToArtifact a a ∧
    ∀ w2 : World,
      w2.db = (controller.AttachToArtifact w { ArtifactDigest := a, BlobDigests := ds }).2.db →
      w2.faults = [] →
      (controller.AttachToArtifact w2 { ArtifactDigest := a, BlobDigests := ds }).1 = .ok () ∧
      ∀ d, d ∈ ds ∨ d = a →
        (controller.AttachToArtifact w2
          { ArtifactDigest := a, BlobDigests := ds }).2.db.attachedToArtifact d a := by
  have habs : ¬ (controller.AttachToArtifact w
      { ArtifactDigest := a, BlobDigests := ds }).2.db.attachedToArtifact a a := by
    unfold controller.AttachToArtifact at herr ⊢
    have h0 := isAttachedToArtifact_db w a a
    rcases hg : manager.IsAttachedToArtifact w a a with ⟨r, w1⟩
    rw [hg] at h0 herr
    simp only at h0
    cases r with
    | error e1 => dsimp only; rw [h0]; exact hself
    | ok exist =>
      cases exist with
      | true => simp at herr
      | false =>
        simp only [Bool.false_eq_true, if_false] at herr ⊢
        have hl := attachBlobs_only a ds w1 a a
        rcases hlo : controller.attachBlobs a ds w1 with ⟨r2, w2⟩
        rw [hlo] at hl herr
        have hloop : ¬ w2.db.attachedToArtifact a a := by
          intro h
          rcases hl h with h1 | h1
          · rw [h0] at h1
            exact hself h1
          · exact hnot h1.1
        cases r2 with
        | error e2 => exact hloop
        | ok u =>
          dsimp only at herr ⊢
          rcases hm : manager.AttachToArtifact w2 a a with ⟨r3, w3⟩
          rw [hm] at herr
          cases r3 with
          | error e3 =>
            dsimp only
            rw [manager_AttachToArtifact_error hm]
            exact hloop
          | ok id => simp at herr
  refine ⟨habs, fun w2 hdb hf2 => ?_⟩
  obtain ⟨h1, _, _, _, h5⟩ := AttachToArtifact_nil_fresh w2 hf2 a ds (by rw [hdb]; exact habs)
  exact ⟨h1, h5⟩

theorem attach_error_leaves_marker_absent_witness :
    ¬ (controller.AttachToArtifact thirdCallFailsWorld
        { ArtifactDigest := "a", BlobDigests := ["d", "e"] }).2.db.attachedToArtifact "a" "a" :=
  (attach_error_leaves_marker_absent thirdCallFailsWorld "a" ["d", "e"]
    (.raw "connection reset") (by decide) (by decide) (by decide)).1

/-! ## The manifest callback on a store that does not fail -/

theorem insertOrUpdateProjectBlob_mono (db : DB) (row : ProjectBlob) :
    ∀ pb ∈ db.projectBlob, pb ∈ (orm.InsertOrUpdateProjectBlob db row).2.projectBlob := by
  intro pb hpb
  unfold orm.InsertOrUpdateProjectBlob
  split
  · exact hpb
  · exact List.mem_append_left _ hpb

theorem attachBlobID_mono (w : World) (hf : w.faults = []) (b p : Int) :
    ∀ pb ∈ w.db.projectBlob, pb ∈ (controller.attachBlobID w b p).2.db.projectBlob := by
  unfold controller.attachBlobID
  rw [manager_AttachToProject_nil w hf]
  exact insertOrUpdateProjectBlob_mono w.db _

theorem attachedToProject_mono {db db2 : DB} {d : String} {p : Int}
    (hb : ∀ b ∈ db.blob, b ∈ db2.blob) (hp : ∀ pb ∈ db.projectBlob, pb ∈ db2.projectBlob)
    (h : db.attachedToProject d p) : db2.attachedToProject d p := by
  obtain ⟨pb, hpb, b, hbm, h1, h2, h3⟩ := h
  exact ⟨pb, hp pb hpb, b, hb b hbm, h1, h2, h3⟩

theorem AttachToProject_nil_byDigest (w : World) (hf : w.faults = []) (d : String) (p : Int)
    (hd : d ≠ "") (b : Blob) (hb : orm.ReadBlob w.db d = some b) :
    (controller.AttachToProject w { BlobID := 0, Digest := d, ProjectID := p }).1 = .ok () ∧
    (controller.AttachToProject w { BlobID := 0, Digest := d, ProjectID := p }).2.faults = [] ∧
    (controller.AttachToProject w { BlobID := 0, Digest := d, ProjectID := p }).2.db.blob
      = w.db.blob ∧
    (controller.AttachToProject w { BlobID := 0, Digest := d, ProjectID := p }).2.db.artifactBlob
      = w.db.artifactBlob ∧
    (∀ pb ∈ w.db.projectBlob, pb ∈ (controller.AttachToProject w
      { BlobID := 0, Digest := d, ProjectID := p }).2.db.projectBlob) ∧
    (controller.AttachToProject w
      { BlobID := 0, Digest := d, ProjectID := p }).2.db.attachedToProject d p := by
  rw [AttachToProject_nil_digest w hf d p hd, hb]
  dsimp only
  obtain ⟨h1, h2, h3, h4, pb, hpb, hpb1, hpb2⟩ := attachBlobID_nil w hf b.ID p
  have hbm := readBlob_some hb
  exact ⟨h1, h2, h3, h4, attachBlobID_mono w hf b.ID p,
    pb, hpb, b, by rw [h3]; exact hbm.1, hpb1, hpb2, hbm.2⟩

theorem AttachToProject_nil_byID (w : World) (hf : w.faults = []) (id p : Int) :
    (controller.AttachToProject w { BlobID := id, Digest := "", ProjectID := p }).1 = .ok () ∧
    (controller.AttachToProject w { BlobID := id, Digest := "", ProjectID := p }).2.faults = [] ∧
    (controller.AttachToProject w { BlobID := id, Digest := "", ProjectID := p }).2.db.blob
      = w.db.blob ∧
    (controller.AttachToProject w { BlobID := id, Digest := "", ProjectID := p }).2.db.artifactBlob
      = w.db.artifactBlob ∧
    (∀ pb ∈ w.db.projectBlob, pb ∈ (controller.AttachToProject w
      { BlobID := id, Digest := "", ProjectID := p }).2.db.projectBlob) ∧
    ∃ pb ∈ (controller.AttachToProject w
        { BlobID := id, Digest := "", ProjectID := p }).2.db.projectBlob,
      pb.BlobID = id ∧ pb.ProjectID = p := by
  have hcall : controller.AttachToProject w { BlobID := id, Digest := "", ProjectID := p }
      = controller.attachBlobID w id p := by
    unfold controller.AttachToProject
    simp
  rw [hcall]
  obtain ⟨h1, h2, h3, h4, h5⟩ := attachBlobID_nil w hf id p
  exact ⟨h1, h2, h3, h4, attachBlobID_mono w hf id p, h5⟩

theorem attachForeign_nil (p : Int) (ds : List String) (w : World) (hf : w.faults = [])
    (hd : ∀ d ∈ ds, d ≠ "" ∧ ∃ b, orm.ReadBlob w.db d = some b) :
    (middleware.attachForeign p ds w).1 = .ok () ∧
    (middleware.attachForeign p ds w).2.faults = [] ∧
    (middleware.attachForeign p ds w).2.db.blob = w.db.blob ∧
    (middleware.attachForeign p ds w).2.db.artifactBlob = w.db.artifactBlob ∧
    (∀ pb ∈ w.db.projectBlob, pb ∈ (middleware.attachForeign p ds w).2.db.projectBlob) ∧
    (∀ d ∈ ds, (middleware.attachForeign p ds w).2.db.attachedToProject d p) := by
  induction ds generalizing w with
  | nil => exact ⟨rfl, hf, rfl, rfl, fun pb h => h, fun d h => absurd h (List.not_mem_nil _)⟩
  | cons d rest ih =>
    unfold middleware.attachForeign
    obtain ⟨hd0, b, hb⟩ := hd d (List.mem_cons_self _ _)
    obtain ⟨a1, a2, a3, a4, a5, a6⟩ := AttachToProject_nil_byDigest w hf d p hd0 b hb
    rcases hg : controller.AttachToProject w { BlobID := 0, Digest := d, ProjectID := p }
      with ⟨r, w1⟩
    rw [hg] at a1 a2 a3 a4 a5 a6
    dsimp only at a1 a2 a3 a4 a5 a6
    subst a1
    dsimp only
    obtain ⟨i1, i2, i3, i4, i5, i6⟩ := ih w1 a2 (fun x hx => by
      obtain ⟨hx0, bx, hbx⟩ := hd x (List.mem_cons_of_mem _ hx)
      refine ⟨hx0, bx, ?_⟩
      unfold orm.ReadBlob at hbx ⊢
      rw [a3]
      exact hbx)
    refine ⟨i1, i2, i3.trans a3, i4.trans a4, fun pb h => i5 pb (a5 pb h), ?_⟩
    intro x hx
    rcases List.mem_cons.mp hx with hx | hx
    · rw [hx]
      exact attachedToProject_mono (fun b hb => by rw [i3]; exact hb) i5 a6
    · exact i6 x hx

theorem insertOrUpdateBlob_mono (db : DB) (row : Blob) :
    ∀ b ∈ db.blob, b ∈ (orm.InsertOrUpdateBlob db row).2.blob := by
  intro b hb
  unfold orm.InsertOrUpdateBlob
  split
  · exact hb
  · exact List.mem_append_left _ hb

theorem Ensure_nil_frame (w : World) (hf : w.faults = []) (p : EnsureParams) :
    (controller.Ensure w p).2.db.artifactBlob = w.db.artifactBlob ∧
    (controller.Ensure w p).2.db.projectBlob = w.db.projectBlob ∧
    (∀ k x, orm.ReadBlob w.db k = some x →
      orm.ReadBlob (controller.Ensure w p).2.db k = some x) ∧
    (∀ b ∈ w.db.blob, b ∈ (controller.Ensure w p).2.db.blob) := by
  unfold controller.Ensure
  rw [manager_Get_nil w hf]
  cases hr : orm.ReadBlob w.db p.Digest with
  | some b => exact ⟨rfl, rfl, fun k x h => h, fun b h => h⟩
  | none =>
    simp only [IsNotFoundErr, Bool.not_true, Bool.false_eq_true, if_false]
    rw [manager_Create_nil w hf]
    dsimp only
    have hfr := insertOrUpdateBlob_frame w.db ⟨0, p.Digest, p.ContentType, p.Size, w.now⟩
    refine ⟨hfr.1, hfr.2, ?_, insertOrUpdateBlob_mono w.db _⟩
    intro k x hx
    rw [insertOrUpdateBlob_read, hx]

theorem attachForeign_sameBlobs (p : Int) (ds : List String) (w : World) :
    sameBlobs w.db (middleware.attachForeign p ds w).2.db := by
  induction ds generalizing w with
  | nil => exact sameBlobs_refl _
  | cons d rest ih =>
    unfold middleware.attachForeign
    have h := AttachToProject_sameBlobs w { BlobID := 0, Digest := d, ProjectID := p }
    rcases hg : controller.AttachToProject w { BlobID := 0, Digest := d, ProjectID := p }
      with ⟨r, w1⟩
    rw [hg] at h
    cases r with
    | error e => exact h
    | ok u => exact sameBlobs_trans h (ih w1)

theorem readBlob_of_blob_eq {db db2 : DB} (h : db2.blob = db.blob) (k : String) :
    orm.ReadBlob db2 k = orm.ReadBlob db k := by
  unfold orm.ReadBlob
  rw [h]

theorem AttachToArtifact_nil_any (w : World) (hf : w.faults = []) (a : String)
    (ds : List String) :
    (controller.AttachToArtifact w { ArtifactDigest := a, BlobDigests := ds }).1 = .ok () ∧
    (controller.AttachToArtifact w { ArtifactDigest := a, BlobDigests := ds }).2.faults = [] ∧
    (controller.AttachToArtifact w { ArtifactDigest := a, BlobDigests := ds }).2.db.blob
      = w.db.blob ∧
    (controller.AttachToArtifact w { ArtifactDigest := a, BlobDigests := ds }).2.db.projectBlob
      = w.db.projectBlob ∧
    (¬ w.db.attachedToArtifact a a → ∀ d, d ∈ ds ∨ d = a →
      (controller.AttachToArtifact w { ArtifactDigest := a, BlobDigests := ds }).2.db.attachedToArtifact
        d a) := by
  by_cases hself : w.db.attachedToArtifact a a
  · rw [AttachToArtifact_nil_marked w hf a ds hself]
    exact ⟨rfl, hf, rfl, rfl, fun h => absurd hself h⟩
  · obtain ⟨h1, h2, h3, h4, h5⟩ := AttachToArtifact_nil_fresh w hf a ds hself
    exact ⟨h1, h2, h3, h4, fun _ => h5⟩

theorem putManifestAfter_nil (env : Collaborators) (w : World) (r : ManifestPush)
    (p : Project) (body : String) (refs : List Descriptor) (desc : Descriptor)
    (hf : w.faults = []) (hw : w.db.wellFormed)
    (hs : r.statusCode = middleware.StatusCreated)
    (hp : env.GetByName r.name = .ok p) (hbody : r.body = .ok body)
    (hm : env.UnmarshalManifest r.contentType body = .ok (refs, desc))
    (hforeign : ∀ d ∈ middleware.findForeignBlobDigests env refs, d ≠ "")
    (hfsub : ∀ d ∈ middleware.findForeignBlobDigests env refs,
      d ∈ refs.map (fun reference => reference.Digest)) :
    (middleware.putManifestAfter env w r).1 = .ok () ∧
    (middleware.putManifestAfter env w r).2.faults = [] ∧
    (middleware.putManifestAfter env w r).2.db.wellFormed ∧
    (∀ d, d ∈ refs.map (fun reference => reference.Digest) ∨ d = desc.Digest →
      (∃ b, orm.ReadBlob (middleware.putManifestAfter env w r).2.db d = some b) ∧
      (¬ w.db.attachedToArtifact desc.Digest desc.Digest →
        (middleware.putManifestAfter env w r).2.db.attachedToArtifact d desc.Digest)) ∧
    (middleware.putManifestAfter env w r).2.db.attachedToProject desc.Digest p.ProjectID ∧
    (∀ d ∈ middleware.findForeignBlobDigests env refs,
      (middleware.putManifestAfter env w r).2.db.attachedToProject d p.ProjectID) := by
  unfold middleware.putManifestAfter
  simp only [hs, ne_eq, not_true_eq_false, if_false, hp, hbody, hm]
  -- Sync
  obtain ⟨s1, s2, s3, _, s5, _, _⟩ := Sync_nil w hf hw refs
  have sw := Sync_wellFormed w { References := refs } hw
  rcases hS : controller.Sync w { References := refs } with ⟨rs, w1⟩
  rw [hS] at s1 s2 s3 s5 sw
  dsimp only at s1 s2 s3 s5 sw
  subst s1
  dsimp only
  -- the foreign layers
  obtain ⟨f1, f2, f3, f4, _, f6⟩ := attachForeign_nil p.ProjectID
    (middleware.findForeignBlobDigests env refs) w1 s2 (fun d hd => by
      obtain ⟨x, hx, hxd⟩ := List.mem_map.mp (hfsub d hd)
      obtain ⟨b, hb, _⟩ := s5 x hx
      exact ⟨hforeign d hd, b, by rw [← hxd]; exact hb⟩)
  have fw := sameBlobs_wellFormed (attachForeign_sameBlobs p.ProjectID
    (middleware.findForeignBlobDigests env refs) w1) sw
  rcases hF : middleware.attachForeign p.ProjectID (middleware.findForeignBlobDigests env refs) w1
    with ⟨rf, w2⟩
  rw [hF] at f1 f2 f3 f4 f6 fw
  dsimp only at f1 f2 f3 f4 f6 fw
  subst f1
  dsimp only
  -- the blob of the manifest
  obtain ⟨bm, e1, e2, e3⟩ := Ensure_nil w2 f2
    { ContentType := r.contentType, Digest := desc.Digest, Size := desc.Size }
  obtain ⟨e4, e5, e6, e7⟩ := Ensure_nil_frame w2 f2
    { ContentType := r.contentType, Digest := desc.Digest, Size := desc.Size }
  have ew := Ensure_wellFormed w2
    { ContentType := r.contentType, Digest := desc.Digest, Size := desc.Size } fw
  rcases hE : controller.Ensure w2
      { ContentType := r.contentType, Digest := desc.Digest, Size := desc.Size } with ⟨re, w3⟩
  rw [hE] at e1 e2 e3 e4 e5 e6 e7 ew
  dsimp only at e1 e2 e3 e4 e5 e6 e7 ew
  subst e2
  dsimp only
  -- the manifest blob joins the project
  obtain ⟨p1, p2, p3, p4, p5, pb, hpb, hpb1, hpb2⟩ :=
    AttachToProject_nil_byID w3 e3 bm.ID p.ProjectID
  have pw := sameBlobs_wellFormed (AttachToProject_sameBlobs w3
    { BlobID := bm.ID, Digest := "", ProjectID := p.ProjectID }) ew
  rcases hP : controller.AttachToProject w3
      { BlobID := bm.ID, Digest := "", ProjectID := p.ProjectID } with ⟨rp, w4⟩
  rw [hP] at p1 p2 p3 p4 p5 hpb pw
  dsimp only at p1 p2 p3 p4 p5 hpb pw
  subst p1
  dsimp only
  -- the blobs join the artifact
  have hself4 : ¬ w.db.attachedToArtifact desc.Digest desc.Digest →
      ¬ w4.db.attachedToArtifact desc.Digest desc.Digest := by
    intro hself
    unfold DB.attachedToArtifact
    rw [p4, e4, f4, s3]
    exact hself
  obtain ⟨a1, a2, a3, a4, a5⟩ := AttachToArtifact_nil_any w4 p2 desc.Digest
    (refs.map (fun reference => reference.Digest))
  have aw := sameBlobs_wellFormed (AttachToArtifact_sameBlobs w4
    { ArtifactDigest := desc.Digest,
      BlobDigests := refs.map (fun reference => reference.Digest) }) pw
  rcases hA : controller.AttachToArtifact w4
      { ArtifactDigest := desc.Digest,
        BlobDigests := refs.map (fun reference => reference.Digest) } with ⟨ra, w5⟩
  rw [hA] at a1 a2 a3 a4 a5 aw
  dsimp only at a1 a2 a3 a4 a5 aw
  subst a1
  dsimp only
  have hread35 : ∀ k, orm.ReadBlob w5.db k = orm.ReadBlob w3.db k := fun k =>
    (readBlob_of_blob_eq a3 k).trans (readBlob_of_blob_eq p3 k)
  have hbm3 := readBlob_some e1
  refine ⟨rfl, a2, aw, ?_, ?_, ?_⟩
  · intro d hd
    refine ⟨?_, fun hself => a5 (hself4 hself) d hd⟩
    rcases hd with hd | hd
    · obtain ⟨x, hx, hxd⟩ := List.mem_map.mp hd
      obtain ⟨b, hb, _⟩ := s5 x hx
      refine ⟨b, ?_⟩
      rw [hread35, ← hxd]
      apply e6
      rw [readBlob_of_blob_eq f3]
      exact hb
    · exact ⟨bm, by rw [hread35, hd]; exact e1⟩
  · refine ⟨pb, by rw [a4]; exact hpb, bm, ?_, hpb1, hpb2, hbm3.2⟩
    rw [a3, p3]
    exact hbm3.1
  · intro d hd
    have h2 := f6 d hd
    have h3 : w3.db.attachedToProject d p.ProjectID :=
      attachedToProject_mono e7 (fun x hx => by rw [e5]; exact hx) h2
    have h4 : w4.db.attachedToProject d p.ProjectID :=
      attachedToProject_mono (fun b hb => by rw [p3]; exact hb) p5 h3
    exact attachedToProject_mono (fun b hb => by rw [a3]; exact hb)
      (fun x hx => by rw [a4]; exact hx) h4

theorem findForeign_fold (env : Collaborators) (refs : List Descriptor) (acc : List String) :
    refs.foldl
        (fun digests reference =>
          if middleware.isForeign env reference then digests ++ [reference.Digest]
          else digests) acc
      = acc ++ (refs.filter (fun reference =>
          reference.MediaType == env.MediaTypeForeignLayer)).map
            (fun reference => reference.Digest) := by
  induction refs generalizing acc with
  | nil => simp
  | cons r rest ih =>
    simp only [List.foldl_cons, List.filter_cons]
    rw [ih]
    unfold middleware.isForeign
    cases hfr : r.MediaType == env.MediaTypeForeignLayer <;> simp

theorem findForeign_eq (env : Collaborators) (refs : List Descriptor) :
    middleware.findForeignBlobDigests env refs
      = (refs.filter (fun reference =>
          reference.MediaType == env.MediaTypeForeignLayer)).map
            (fun reference => reference.Digest) := by
  unfold middleware.findForeignBlobDigests
  rw [findForeign_fold]
  simp

theorem findForeign_sub (env : Collaborators) (refs : List Descriptor) :
    ∀ d ∈ middleware.findForeignBlobDigests env refs,
      d ∈ refs.map (fun reference => reference.Digest) := by
  intro d hd
  rw [findForeign_eq] at hd
  obtain ⟨r, hr, hrd⟩ := List.mem_map.mp hd
  exact List.mem_map.mpr ⟨r, (List.mem_filter.mp hr).1, hrd⟩

theorem Get_nil_scoped_ok (w : World) (hf : w.faults = []) (d a : String) (p : Int)
    (hd : d ≠ "") (b : Blob) (hb : orm.ReadBlob w.db d = some b)
    (hp : p = 0 ∨ w.db.attachedToProject d p) (ha : a = "" ∨ w.db.attachedToArtifact d a) :
    controller.Get w { Digest := d, ArtifactDigest := a, ProjectID := p }
      = (.ok (manager.toBlob b), w) := by
  obtain ⟨fp, fa, hpi, hai, hget⟩ := Get_nil w hf d a p hd
  rw [hget, hb]
  dsimp only
  have c1 : ¬ (p ≠ 0 ∧ fp = false) := by
    rintro ⟨h1, h2⟩
    rcases hp with hp | hp
    · exact h1 hp
    · have := hpi.mpr hp
      rw [h2] at this
      exact absurd this (by decide)
  have c2 : ¬ (a ≠ "" ∧ fa = false) := by
    rintro ⟨h1, h2⟩
    rcases ha with ha | ha
    · exact h1 ha
    · have := hai.mpr ha
      rw [h2] at this
      exact absurd this (by decide)
  rw [if_neg c1, if_neg c2]

/-- C15, as stated, fails for a manifest that references a layer under the
empty digest: the callback of the manifest push succeeds, but
`Get(layerDigest, artifactDigest=m)` for that layer fails with BadRequest. -/
theorem manifest_push_end_to_end_counterexample :
    (middleware.putManifestAfter emptyDigestEnv emptyWorld samplePush).1 = .ok () ∧
    (controller.Get (middleware.putManifestAfter emptyDigestEnv emptyWorld samplePush).2
      { Digest := "", ArtifactDigest := "m", ProjectID := 0 }).1
        = .error (.badRequest "require Digest") := by
  decide

/-- C15, amended: end-to-end, for every manifest with digest `m` whose
referenced layer digests are non-empty, pushed with status created to a project
that resolves, over a well-formed ledger in which the self-attachment `(m, m)`
is not recorded (as when neither the layers nor `m` occur in the ledger at
all) and a store that does not fail: the callback succeeds and leaves
exactly one blob row for every referenced digest, exactly one blob row for `m`,
attached to the project, the self-attachment `(m, m)`, and
`Get(layerDigest, artifactDigest=m)` succeeds for each referenced layer
digest. -/
theorem manifest_push_end_to_end (env : Collaborators) (w : World) (r : ManifestPush)
    (p : Project) (body : String) (refs : List Descriptor) (desc : Descriptor)
    (hf : w.faults = []) (hw : w.db.wellFormed)
    (hs : r.statusCode = middleware.StatusCreated)
    (hp : env.GetByName r.name = .ok p) (hbody : r.body = .ok body)
    (hm : env.UnmarshalManifest r.contentType body = .ok (refs, desc))
    (hlayers : ∀ x ∈ refs, x.Digest ≠ "")
    (hself : ¬ w.db.attachedToArtifact desc.Digest desc.Digest) :
    (middleware.putManifestAfter env w r).1 = .ok () ∧
    (∀ x ∈ refs, blobCount (middleware.putManifestAfter env w r).2.db x.Digest = 1) ∧
    blobCount (middleware.putManifestAfter env w r).2.db desc.Digest = 1 ∧
    (middleware.putManifestAfter env w r).2.db.attachedToProject desc.Digest p.ProjectID ∧
    (middleware.putManifestAfter env w r).2.db.attachedToArtifact desc.Digest desc.Digest ∧
    (∀ x ∈ refs, ∃ blob,
      controller.Get (middleware.putManifestAfter env w r).2
          { Digest := x.Digest, ArtifactDigest := desc.Digest, ProjectID := 0 }
        = (.ok blob, (middleware.putManifestAfter env w r).2) ∧ blob.Digest = x.Digest) := by
  obtain ⟨h1, h2, h3, h4, h5, _⟩ := putManifestAfter_nil env w r p body refs desc hf hw hs hp
    hbody hm
    (fun d hd => by
      obtain ⟨x, hx, hxd⟩ := List.mem_map.mp (findForeign_sub env refs d hd)
      rw [← hxd]
      exact hlayers x hx)
    (findForeign_sub env refs)
  have hcount : ∀ d, d ∈ refs.map (fun reference => reference.Digest) ∨ d = desc.Digest →
      blobCount (middleware.putManifestAfter env w r).2.db d = 1 := by
    intro d hd
    obtain ⟨⟨b, hb⟩, _⟩ := h4 d hd
    exact le_antisymm (blobCount_le_one _ h3 d) (blobCount_pos_of_read hb)
  refine ⟨h1, fun x hx => hcount _ (Or.inl (List.mem_map.mpr ⟨x, hx, rfl⟩)),
    hcount _ (Or.inr rfl), h5, (h4 _ (Or.inr rfl)).2 hself, ?_⟩
  intro x hx
  obtain ⟨⟨b, hb⟩, hatt⟩ := h4 x.Digest (Or.inl (List.mem_map.mpr ⟨x, hx, rfl⟩))
  exact ⟨manager.toBlob b,
    Get_nil_scoped_ok _ h2 x.Digest desc.Digest 0 (hlayers x hx) b hb (Or.inl rfl)
      (Or.inr (hatt hself)),
    (readBlob_some hb).2⟩

theorem manifest_push_end_to_end_witness :
    (middleware.putManifestAfter sampleEnv emptyWorld samplePush).1 = .ok () ∧
    (∀ x ∈ [(⟨"layer", "l1", 10⟩ : Descriptor), ⟨"foreign", "l2", 20⟩, ⟨"layer", "l1", 10⟩],
      blobCount (middleware.putManifestAfter sampleEnv emptyWorld samplePush).2.db x.Digest = 1) ∧
    blobCount (middleware.putManifestAfter sampleEnv emptyWorld samplePush).2.db "m" = 1 :=
  ⟨(manifest_push_end_to_end sampleEnv emptyWorld samplePush ⟨4, "library"⟩ "body"
      [⟨"layer", "l1", 10⟩, ⟨"foreign", "l2", 20⟩, ⟨"layer", "l1", 10⟩] ⟨"manifest", "m", 99⟩
      rfl (by unfold DB.wellFormed blobKeys; decide) rfl rfl rfl rfl (by decide) (by decide)).1,
   (manifest_push_end_to_end sampleEnv emptyWorld samplePush ⟨4, "library"⟩ "body"
      [⟨"layer", "l1", 10⟩, ⟨"foreign", "l2", 20⟩, ⟨"layer", "l1", 10⟩] ⟨"manifest", "m", 99⟩
      rfl (by unfold DB.wellFormed blobKeys; decide) rfl rfl rfl rfl (by decide) (by decide)).2.1,
   (manifest_push_end_to_end sampleEnv emptyWorld samplePush ⟨4, "library"⟩ "body"
      [⟨"layer", "l1", 10⟩, ⟨"foreign", "l2", 20⟩, ⟨"layer", "l1", 10⟩] ⟨"manifest", "m", 99⟩
      rfl (by unfold DB.wellFormed blobKeys; decide) rfl rfl rfl rfl (by decide) (by decide)).2.2.1⟩

/-- C18, as stated, fails for a foreign layer under the empty digest: the
callback of the manifest push succeeds, yet the blob of that layer is not
attached to the project (blob id 0 is attached instead) and
`Exist(digest, ProjectID=p)` is not true but fails with BadRequest. -/
theorem foreign_layers_attached_counterexample :
    middleware.findForeignBlobDigests emptyDigestEnv [⟨"foreign", "", 20⟩] = [""] ∧
    (middleware.putManifestAfter emptyDigestEnv emptyWorld samplePush).1 = .ok () ∧
    ¬ (middleware.putManifestAfter emptyDigestEnv emptyWorld
        samplePush).2.db.attachedToProject "" 4 ∧
    (controller.Exist (middleware.putManifestAfter emptyDigestEnv emptyWorld samplePush).2
      { Digest := "", ArtifactDigest := "", ProjectID := 4 }).1
        = .error (.badRequest "exist blob require digest") := by
  decide

/-- C18, amended: for every manifest, `findForeignBlobDigests` returns, in
reference order, exactly the digests of the references whose media type is the
foreign-layer media type; and when those digests are non-empty, after a run of
the manifest callback for a push that ended with status created to a project
`p` that resolves, over a well-formed ledger and a store that does not fail,
the run succeeds and every such foreign-layer blob is attached to `p`:
`Exist(digest, ProjectID=p)` is true. -/
theorem foreign_layers_attached (env : Collaborators) (w : World) (r : ManifestPush)
    (p : Project) (body : String) (refs : List Descriptor) (desc : Descriptor)
    (hf : w.faults = []) (hw : w.db.wellFormed)
    (hs : r.statusCode = middleware.StatusCreated)
    (hp : env.GetByName r.name = .ok p) (hbody : r.body = .ok body)
    (hm : env.UnmarshalManifest r.contentType body = .ok (refs, desc))
    (hforeign : ∀ d ∈ middleware.findForeignBlobDigests env refs, d ≠ "") :
    middleware.findForeignBlobDigests env refs
      = (refs.filter (fun reference => reference.MediaType = env.MediaTypeForeignLayer)).map
          (fun reference => reference.Digest) ∧
    (middleware.putManifestAfter env w r).1 = .ok () ∧
    ∀ d ∈ middleware.findForeignBlobDigests env refs,
      (middleware.putManifestAfter env w r).2.db.attachedToProject d p.ProjectID ∧
      controller.Exist (middleware.putManifestAfter env w r).2
          { Digest := d, ArtifactDigest := "", ProjectID := p.ProjectID }
        = (.ok true, (middleware.putManifestAfter env w r).2) := by
  obtain ⟨h1, h2, _, h4, _, h6⟩ := putManifestAfter_nil env w r p body refs desc hf hw hs hp
    hbody hm hforeign (findForeign_sub env refs)
  refine ⟨?_, h1, fun d hd => ⟨h6 d hd, ?_⟩⟩
  · rw [findForeign_eq]
    congr 1
  · obtain ⟨⟨b, hb⟩, _⟩ := h4 d (Or.inl (findForeign_sub env refs d hd))
    exact Exist_of_Get (hforeign d hd)
      (Get_nil_scoped_ok _ h2 d "" p.ProjectID (hforeign d hd) b hb (Or.inr (h6 d hd))
        (Or.inl rfl))

theorem foreign_layers_attached_witness :
    middleware.findForeignBlobDigests sampleEnv
        [⟨"layer", "l1", 10⟩, ⟨"foreign", "l2", 20⟩, ⟨"layer", "l1", 10⟩] = ["l2"] ∧
    controller.Exist (middleware.putManifestAfter sampleEnv emptyWorld samplePush).2
        { Digest := "l2", ArtifactDigest := "", ProjectID := 4 }
      = (.ok true, (middleware.putManifestAfter sampleEnv emptyWorld samplePush).2) :=
  ⟨by decide,
   ((foreign_layers_attached sampleEnv emptyWorld samplePush ⟨4, "library"⟩ "body"
      [⟨"layer", "l1", 10⟩, ⟨"foreign", "l2", 20⟩, ⟨"layer", "l1", 10⟩] ⟨"manifest", "m", 99⟩
      rfl (by unfold DB.wellFormed blobKeys; decide) rfl rfl rfl rfl (by decide)).2.2
      "l2" (by decide)).2⟩

/-! ## The upload callback -/

theorem Ensure_nil_new (w : World) (hf : w.faults = []) (p : EnsureParams)
    (hnew : orm.ReadBlob w.db p.Digest = none) :
    orm.ReadBlob (controller.Ensure w p).2.db p.Digest
      = some ⟨w.db.blobSeq + 1, p.Digest, p.ContentType, p.Size, w.now⟩ := by
  unfold controller.Ensure
  rw [manager_Get_nil w hf, hnew]
  simp only [IsNotFoundErr, Bool.not_true, Bool.false_eq_true, if_false]
  rw [manager_Create_nil w hf]
  have hrow : orm.ReadBlob w.db
      (⟨0, p.Digest, p.ContentType, p.Size, w.now⟩ : Blob).Digest = none := hnew
  exact readBlob_after_miss hrow

/-- C19, as stated, fails for a request without a usable Content-Length: with
status created and no entry for the session in the cache, the callback does not
tolerate the absence but returns the error of the cache lookup, and no blob is
ensured; the same happens when the header says 0. -/
theorem upload_without_cache_entry_counterexample :
    emptyRedis.data.lookup (controller.uploadSizeKey chunkedUpload.sessionID) = none ∧
    middleware.putBlobUploadAfter sampleEnv emptyRedis emptyWorld chunkedUpload
      = (.error (.raw "redigo: nil returned"), emptyWorld) ∧
    middleware.putBlobUploadAfter sampleEnv emptyRedis emptyWorld
        { chunkedUpload with contentLength := .ok 0 }
      = (.error (.raw "redigo: nil returned"), emptyWorld) := by
  decide

/-- C19, amended: for every upload-completion request that ended with status
created and whose Content-Length header is usable (it parses to a non-zero
size `n`), the callback does not consult the Upload-Size Cache: whatever the
cache holds, a missing entry included, the outcome is the same, and on a store
that does not fail, for a project that resolves, it succeeds and ensures the
blob with size `n` when the digest was not stored before, attached to the
project. When the header is not usable the cached size is consulted, and the
callback fails with the error of the lookup when the entry is absent. -/
theorem upload_with_content_length (env : Collaborators) (cache : Redis) (w : World)
    (r : BlobUpload) (n : Int)
    (hs : r.statusCode = middleware.StatusCreated) (hcl : r.contentLength = .ok n)
    (hn : n ≠ 0) :
    (∀ cache2 : Redis,
      middleware.putBlobUploadAfter env cache2 w r
        = middleware.putBlobUploadAfter env cache w r) ∧
    (∀ p : Project, w.faults = [] → env.GetByName r.name = .ok p →
      (middleware.putBlobUploadAfter env cache w r).1 = .ok () ∧
      ∃ b, orm.ReadBlob (middleware.putBlobUploadAfter env cache w r).2.db r.digest = some b ∧
        (¬ w.db.hasBlob r.digest → b.Size = n) ∧
        (middleware.putBlobUploadAfter env cache w r).2.db.attachedToProject r.digest
          p.ProjectID) ∧
    (∀ (r2 : BlobUpload) (e : Err), r2.statusCode = middleware.StatusCreated →
      (r2.contentLength = .ok 0 ∨ ∃ e0, r2.contentLength = .error e0) →
      controller.GetAcceptedBlobSize cache r2.sessionID = .error e →
      middleware.putBlobUploadAfter env cache w r2 = (.error e, w)) := by
  refine ⟨fun cache2 => ?_, fun p hf hp => ?_, fun r2 e hs2 hcl2 hget => ?_⟩
  · unfold middleware.putBlobUploadAfter
    simp only [hs, hcl, hn, if_false, ne_eq, not_true_eq_false]
  · unfold middleware.putBlobUploadAfter
    simp only [hs, hcl, hn, if_false, ne_eq, not_true_eq_false, hp]
    obtain ⟨bm, e1, e2, e3⟩ := Ensure_nil w hf
      { Digest := r.digest, ContentType := "application/octet-stream", Size := n }
    have enew := Ensure_nil_new w hf
      { Digest := r.digest, ContentType := "application/octet-stream", Size := n }
    rcases hE : controller.Ensure w
        { Digest := r.digest, ContentType := "application/octet-stream", Size := n }
      with ⟨re, w1⟩
    rw [hE] at e1 e2 e3 enew
    dsimp only at e1 e2 e3 enew
    subst e2
    dsimp only
    obtain ⟨p1, _, p3, _, _, pb, hpb, hpb1, hpb2⟩ :=
      AttachToProject_nil_byID w1 e3 bm.ID p.ProjectID
    rcases hP : controller.AttachToProject w1
        { BlobID := bm.ID, Digest := "", ProjectID := p.ProjectID } with ⟨rp, w2⟩
    rw [hP] at p1 p3 hpb
    dsimp only at p1 p3 hpb
    subst p1
    dsimp only
    have hbm := readBlob_some e1
    refine ⟨rfl, bm, by rw [readBlob_of_blob_eq p3]; exact e1, ?_,
      pb, hpb, bm, by rw [p3]; exact hbm.1, hpb1, hpb2, hbm.2⟩
    intro hno
    have hnone : orm.ReadBlob w.db r.digest = none := by
      cases hr0 : orm.ReadBlob w.db r.digest with
      | none => rfl
      | some row => exact absurd ((hasBlob_iff_read _ _).mpr ⟨row, hr0⟩) hno
    have := enew hnone
    rw [e1] at this
    rw [Option.some.inj this]
  · unfold middleware.putBlobUploadAfter
    rcases hcl2 with h0 | ⟨e0, h0⟩
    · simp [hs2, h0, hget]
    · simp [hs2, h0, hget]

theorem upload_with_content_length_witness :
    middleware.putBlobUploadAfter sampleEnv { reachable := false, data := [] } emptyWorld
        sizedUpload
      = middleware.putBlobUploadAfter sampleEnv emptyRedis emptyWorld sizedUpload ∧
    (middleware.putBlobUploadAfter sampleEnv emptyRedis emptyWorld sizedUpload).1 = .ok () :=
  ⟨(upload_with_content_length sampleEnv emptyRedis emptyWorld sizedUpload 5 rfl rfl
      (by decide)).1 _,
   ((upload_with_content_length sampleEnv emptyRedis emptyWorld sizedUpload 5 rfl rfl
      (by decide)).2.1 ⟨4, "library"⟩ rfl rfl).1⟩

/-! ## The loop of `keyMatch2Build` -/

theorem keyMatch2Loop_stuck (s : List Char) (hc : rbac.containsSlashColon s = true)
    (hr : rbac.replaceAll s = s) : ∀ fuel, rbac.keyMatch2Loop fuel s = none := by
  intro fuel
  induction fuel with
  | zero => rfl
  | succ n ih =>
    unfold rbac.keyMatch2Loop
    rw [hc, hr]
    exact ih

theorem keyMatch2Loop_done (s : List Char) (hc : rbac.containsSlashColon s = false)
    (fuel : Nat) : rbac.keyMatch2Loop (fuel + 1) s = some s := by
  unfold rbac.keyMatch2Loop
  rw [hc]
  rfl

/-- C21: the loop of `keyMatch2Build` does not end on every pattern. For `/:`
(the `/:` at the end of the string) and for `/project/:/robot` (the `/:`
directly followed by `/`) the pattern still contains `/:` while
`(.*):[^/]+(.*)` matches nothing in it, so the replacement returns it unchanged
and no number of iterations reaches the `break`; a pattern such as
`/project/:pid/robot/:rid` does leave the loop, after two rewrites. -/
theorem keyMatch2Build_loops (fuel : Nat) :
    rbac.keyMatch2Build fuel "/:" = none ∧
    rbac.keyMatch2Build fuel "/project/:/robot" = none ∧
    rbac.keyMatch2Build (fuel + 3) "/project/:pid/robot/:rid"
      = some "^/project/[^/]+/robot/[^/]+$" := by
  refine ⟨?_, ?_, ?_⟩
  · unfold rbac.keyMatch2Build
    have h1 : rbac.replaceSlashStar "/:".data = "/:".data := by decide
    rw [h1, keyMatch2Loop_stuck "/:".data (by decide) (by decide) fuel]
  · unfold rbac.keyMatch2Build
    have h1 : rbac.replaceSlashStar "/project/:/robot".data = "/project/:/robot".data := by
      decide
    rw [h1, keyMatch2Loop_stuck "/project/:/robot".data (by decide) (by decide) fuel]
  · unfold rbac.keyMatch2Build
    have h1 : rbac.replaceSlashStar "/project/:pid/robot/:rid".data
        = "/project/:pid/robot/:rid".data := by decide
    have h2 : rbac.replaceAll "/project/:pid/robot/:rid".data
        = "/project/:pid/robot/[^/]+".data := by decide
    have h3 : rbac.replaceAll "/project/:pid/robot/[^/]+".data
        = "/project/[^/]+/robot/[^/]+".data := by decide
    have h4 : rbac.containsSlashColon "/project/:pid/robot/:rid".data = true := by decide
    have h5 : rbac.containsSlashColon "/project/:pid/robot/[^/]+".data = true := by decide
    have h6 : rbac.containsSlashColon "/project/[^/]+/robot/[^/]+".data = false := by decide
    rw [h1]
    have hloop : rbac.keyMatch2Loop (fuel + 3) "/project/:pid/robot/:rid".data
        = some "/project/[^/]+/robot/[^/]+".data := by
      rw [show fuel + 3 = (fuel + 2) + 1 from rfl]
      unfold rbac.keyMatch2Loop
      rw [h4, h2]
      simp only [Bool.not_true, Bool.false_eq_true, if_false]
      rw [show fuel + 2 = (fuel + 1) + 1 from rfl]
      unfold rbac.keyMatch2Loop
      rw [h5, h3]
      simp only [Bool.not_true, Bool.false_eq_true, if_false]
      exact keyMatch2Loop_done _ h6 fuel
    rw [hloop]
    rfl

theorem hasParamColon_tail (c : Char) (rest : List Char)
    (h : rbac.hasParamColon (c :: rest) = false) : rbac.hasParamColon rest = false := by
  simp only [rbac.hasParamColon, Bool.or_eq_false_iff] at h
  exact h.2

theorem lastColon_none (s : List Char) (h : rbac.hasParamColon s = false) :
    rbac.lastColon s = none := by
  induction s with
  | nil => rfl
  | cons c rest ih =>
    have hrest := hasParamColon_tail c rest h
    simp only [rbac.hasParamColon, Bool.or_eq_false_iff, Bool.and_eq_false_iff,
      beq_eq_false_iff_ne] at h
    rw [rbac.lastColon]
    by_cases hn : c = rbac.newline
    · rw [if_pos hn]
    · rw [if_neg hn, ih hrest]
      dsimp only
      have : ¬ (c = ':' ∧ rbac.paramFollows rest = true) := by
        rintro ⟨h1, h2⟩
        rcases h.1 with h3 | h3
        · exact h3 h1
        · rw [h2] at h3
          exact absurd h3 (by decide)
      rw [if_neg this]

theorem hasParamColon_drop (n : Nat) (s : List Char) (h : rbac.hasParamColon s = false) :
    rbac.hasParamColon (s.drop n) = false := by
  induction n generalizing s with
  | zero => exact h
  | succ k ih =>
    cases s with
    | nil => rfl
    | cons c rest => exact ih rest (hasParamColon_tail c rest h)

theorem takeWhile_append_drop (p : Char → Bool) (s : List Char) :
    s.takeWhile p ++ s.drop (s.takeWhile p).length = s := by
  induction s with
  | nil => rfl
  | cons c rest ih =>
    cases hp : p c with
    | true => simp [List.takeWhile_cons, hp, ih]
    | false => simp [List.takeWhile_cons, hp]

theorem replaceAllFuel_noMatch (fuel : Nat) (s : List Char)
    (h : rbac.hasParamColon s = false) : rbac.replaceAllFuel fuel s = s := by
  induction fuel generalizing s with
  | zero => rfl
  | succ n ih =>
    rw [rbac.replaceAllFuel, lastColon_none s h]
    dsimp only
    have hsplit := takeWhile_append_drop (fun c => c != rbac.newline) s
    cases hd : s.drop (s.takeWhile (fun c => c != rbac.newline)).length with
    | nil => rfl
    | cons nl rest =>
      dsimp only
      have hrest : rbac.hasParamColon rest = false := by
        have := hasParamColon_drop (s.takeWhile (fun c => c != rbac.newline)).length s h
        rw [hd] at this
        exact hasParamColon_tail nl rest this
      rw [ih rest hrest, ← hd]
      exact hsplit

/-- Every pattern that, after `/*` has been rewritten, contains `/:` but no `:`
followed by a character other than `/` keeps `keyMatch2Build` in its loop. -/
theorem keyMatch2Build_stuck (key2 : String) (fuel : Nat)
    (hc : rbac.containsSlashColon (rbac.replaceSlashStar key2.data) = true)
    (hp : rbac.hasParamColon (rbac.replaceSlashStar key2.data) = false) :
    rbac.keyMatch2Build fuel key2 = none := by
  unfold rbac.keyMatch2Build
  rw [keyMatch2Loop_stuck _ hc (replaceAllFuel_noMatch _ _ hp) fuel]

end Harbor
